import Mathlib

/-!
# ImageMerge: a shallow embedding of `main.cpp` / `main.h`

ImageMerge joins a program image and a filesystem image into one flash image.
The file first embeds the C++ source (option table, `GetOptVal`, `main`,
`ReadBinaryFile`, `WriteBinaryFile`, `FileSize`, `FormatSize`, `help`) as
executable Lean definitions and then states and proves properties of them.

Conventions of the embedding:
* a C string is the list of its characters before the terminating NUL, a null
  pointer is `none`;
* `int` values are `Int`, `uint32_t` values are `Nat` reduced modulo `2 ^ 32`
  at every store;
* behaviour that C++ leaves undefined (null dereference, a copy that leaves its
  buffer, an index outside an array) is an explicit `none` / `undefined` result;
* the file streams on `unsigned char` behave as byte streams, and `filesystem::exists`
  and `filesystem::file_size` are read off a map from paths to file contents.
-/

set_option autoImplicit false

namespace ImageMerge

/-! ## Strings, characters and machine integers -/

/-- A C string: the characters before the terminating NUL. -/
abbrev CStr := List Char

/-- An `unsigned char`, range 0..255. -/
abbrev uchar := Nat

/-- Conversion of an `int` to `uint32_t` (as in `offset = atoi(...)`). -/
def toUInt32 (i : Int) : Nat := (i % 4294967296).toNat

/-- C `isupper` in the "C" locale. -/
def isupper (c : Char) : Bool := decide (65 ≤ c.toNat) && decide (c.toNat ≤ 90)

/-- C `tolower` in the "C" locale, as a character code. -/
def tolower (c : Char) : Nat := if isupper c then c.toNat + 32 else c.toNat

/-- C `isspace` in the "C" locale. -/
def isspace (c : Char) : Bool :=
  decide (c.toNat = 32) || (decide (9 ≤ c.toNat) && decide (c.toNat ≤ 13))

/-- C `isdigit`. -/
def isdigit (c : Char) : Bool := decide (48 ≤ c.toNat) && decide (c.toNat ≤ 57)

/-- The value of the leading run of decimal digits, continuing from `acc`. -/
def digitsVal : CStr → Nat → Nat
  | [], acc => acc
  | c :: cs, acc => if isdigit c then digitsVal cs (acc * 10 + (c.toNat - 48)) else acc

/-- C `atoi`: skip white space, read an optional sign, then the leading digits.
The result is the mathematical value (for a numeral outside the range of `int`
the C library leaves the result undefined). -/
def atoi (s : CStr) : Int :=
  match s.dropWhile isspace with
  | [] => 0
  | c :: cs =>
    if c = '-' then - ((digitsVal cs 0 : Nat) : Int)
    else if c = '+' then ((digitsVal cs 0 : Nat) : Int)
    else ((digitsVal (c :: cs) 0 : Nat) : Int)

/-- The comparison `_strnicmp(s1, s2, count)`: the first `count` characters are compared
without regard to ASCII case, a string that ends compares as NUL there; the
result is zero exactly when no difference is found. -/
def strnicmp : CStr → CStr → Nat → Int
  | _, _, 0 => 0
  | [], [], _ + 1 => 0
  | [], b :: _, _ + 1 => 0 - (tolower b : Int)
  | a :: _, [], _ + 1 => (tolower a : Int)
  | a :: as, b :: bs, n + 1 =>
    if tolower a = tolower b then strnicmp as bs n else (tolower a : Int) - (tolower b : Int)

/-- C `strlen`. -/
def strlen (s : CStr) : Nat := s.length

/-! ## Constants and the option table (`main.cpp` lines 35-72, `main.h` lines 9-14) -/

def MAXOFFSET : Nat := 32768
def ONEKILOBYTE : Nat := 1024

/-- The option table: a name whose first letter is upper case takes no value. -/
def g_optTable : List CStr :=
  [ ['p', 'r', 'o', 'g'],
    ['f', 's'],
    ['i', 'm', 'a', 'g', 'e'],
    ['o', 'f', 'f', 's', 'e', 't'],
    ['f', 'i', 'l', 'l', 'c', 'h', 'a', 'r'],
    ['V'],
    ['H'] ]

def g_optCount : Nat := g_optTable.length

def PROGNAME : Int := 0
def FSNAME : Int := 1
def IMAGENAME : Int := 2
def OFFSET : Int := 3
def FILLCHAR : Int := 4
def V : Int := 5
def H : Int := 6

def MISSINGVALUE : Int := -1
def NOOPTION : Int := -2
def NOTFOUND : Int := -3

/-! ## The argument vector -/

/-- The position of the `argv` pointer inside the null-terminated argument vector:
`entry rest` points at an argument and `rest` are the arguments after it (before the
terminating null entry); `null` points at the terminating null entry itself. -/
inductive ArgPtr where
  | entry (rest : List CStr)
  | null
deriving DecidableEq, Repr

/-- The step `*(++argv)`: the entry read (`none` for the null entry) and the new
pointer; the whole result is `none` when the read is beyond the null entry. -/
def ArgPtr.next : ArgPtr → Option (Option CStr × ArgPtr)
  | ArgPtr.entry (a :: rest) => some (some a, ArgPtr.entry rest)
  | ArgPtr.entry [] => some (none, ArgPtr.null)
  | ArgPtr.null => none

/-! ## `GetOptVal` (`main.cpp` lines 188-221) -/

/-- The search loop of `GetOptVal` (lines 196-201) over the entries not yet tried:
returns the final `optNum` and the last comparison result `n`. -/
def searchTable (t : CStr) : List CStr → Nat → Int → Nat × Int
  | [], optNum, n => (optNum, n)
  | name :: more, optNum, _ =>
    if strnicmp name t (strlen name) = 0 then (optNum, 0)
    else searchTable t more (optNum + 1) (strnicmp name t (strlen name))

/-- What `GetOptVal` leaves behind: its return value and the three reference
arguments. -/
structure OptVal where
  optNum : Int
  argc : Int
  argv : ArgPtr
  optValPtr : Option CStr
deriving DecidableEq, Repr

/-- Parse one option-value pair.  `none` stands for undefined behaviour (reading
beyond the argument vector or dereferencing its null entry). -/
def GetOptVal (argc : Int) (argv : ArgPtr) : Option OptVal :=
  match argv.next with
  | none => none
  | some (none, _) => none
  | some (some tok, argv1) =>
    match tok with
    | [] => some { optNum := NOOPTION, argc := argc, argv := argv1, optValPtr := some [] }
    | c :: t =>
      if c = '-' ∨ c = '/' then
        match searchTable t g_optTable 0 0 with
        | (optNum, n) =>
          if n ≠ 0 then
            some { optNum := NOTFOUND, argc := argc, argv := argv1, optValPtr := some t }
          else
            match g_optTable.get? optNum with
            | none => none
            | some name =>
              if (name.head?.map isupper).getD false then
                some { optNum := (optNum : Int), argc := argc, argv := argv1, optValPtr := some t }
              else if t.drop (strlen name) = [] then
                match argv1.next with
                | none => none
                | some (none, argv2) =>
                  some { optNum := MISSINGVALUE, argc := argc - 1, argv := argv2, optValPtr := none }
                | some (some v, argv2) =>
                  some { optNum := (optNum : Int), argc := argc - 1, argv := argv2,
                         optValPtr := some v }
              else
                some { optNum := (optNum : Int), argc := argc, argv := argv1,
                       optValPtr := some (t.drop (strlen name)) }
      else some { optNum := NOOPTION, argc := argc, argv := argv1, optValPtr := some (c :: t) }

/-! ## Files (`main.cpp` lines 225-264) -/

/-- The file system as the program sees it: the contents of each existing file. -/
abbrev FileSystem := CStr → Option (List uchar)

/-- An access to the file system. -/
inductive IOEvent where
  | size (name : CStr)
  | read (name : CStr)
  | write (name : CStr) (data : List uchar)
deriving DecidableEq, Repr

/-- Get file size: zero for a null name or a file that does not exist, otherwise
the size cast to `uint32_t`. -/
def FileSize (fs : FileSystem) (fileName : Option CStr) : Nat :=
  match fileName with
  | none => 0
  | some name =>
    match fs name with
    | none => 0
    | some data => data.length % 4294967296

/-- The file accesses of `FileSize`. -/
def FileSize.events (fileName : Option CStr) : List IOEvent :=
  match fileName with
  | none => []
  | some name => [IOEvent.size name]

/-- Read binary file, allocate buffer: returns `len` and the new value of `buf`
(the first `len` bytes of the file when `len` is not zero, else `buf` unchanged). -/
def ReadBinaryFile (fs : FileSystem) (binaryFile : Option CStr) (buf : Option (List uchar)) :
    Nat × Option (List uchar) :=
  match binaryFile with
  | none => (0, buf)
  | some name =>
    if FileSize fs (some name) ≠ 0 then
      (FileSize fs (some name), some (((fs name).getD []).take (FileSize fs (some name))))
    else (0, buf)

/-- The file accesses of `ReadBinaryFile`. -/
def ReadBinaryFile.events (fs : FileSystem) (binaryFile : Option CStr) : List IOEvent :=
  match binaryFile with
  | none => []
  | some name =>
    if FileSize fs (some name) ≠ 0 then [IOEvent.size name, IOEvent.read name]
    else [IOEvent.size name]

/-- Write binary file: the file named `binaryFile` is truncated and receives the
first `len` bytes of `buf`. -/
def WriteBinaryFile (fs : FileSystem) (binaryFile : CStr) (buf : List uchar) (len : Nat) :
    FileSystem :=
  fun name => if name = binaryFile then some (buf.take len) else fs name

/-! ## `FormatSize` (`main.cpp` lines 268-289) -/

/-- The unit names `suffixes[]`. -/
def suffixes : List CStr :=
  [ ['b', 'y', 't', 'e', 's'],
    ['k', 'i', 'l', 'o', 'b', 'y', 't', 'e', 's'],
    ['m', 'e', 'g', 'a', 'b', 'y', 't', 'e', 's'] ]

def SUFFIXSZ : Nat := suffixes.length

/-- The state of the scaling loop: `suffix` and the double `count`, kept as the exact
fraction `num / den` (a `uint32_t` divided by powers of 1024 is exact in a double). -/
structure Scaled where
  suffix : Nat
  num : Nat
  den : Nat
deriving DecidableEq, Repr

/-- The loop `while ((count >= ONEKILOBYTE) && (suffix < SUFFIXSZ))`, run for at most
`fuel` rounds. -/
def FormatSize.loop : Nat → Scaled → Scaled
  | 0, s => s
  | fuel + 1, s =>
    if s.num ≥ ONEKILOBYTE * s.den ∧ s.suffix < SUFFIXSZ then
      FormatSize.loop fuel { suffix := s.suffix + 1, num := s.num, den := s.den * ONEKILOBYTE }
    else s

/-- What `FormatSize` hands to `sprintf`. -/
structure SizeText where
  decimals : Nat
  num : Nat
  den : Nat
  suffix : Nat
  unit : CStr
deriving DecidableEq, Repr

/-- Format a size with appropriate suffix: the arguments of the final `sprintf`, or
`none` when `suffixes[suffix]` is read outside the array. -/
def FormatSize (bytes : Nat) : Option SizeText :=
  match FormatSize.loop (SUFFIXSZ + 1) { suffix := 0, num := bytes, den := 1 } with
  | s =>
    match suffixes.get? s.suffix with
    | none => none
    | some u =>
      some { decimals := if s.suffix = 0 then 0 else 2, num := s.num, den := s.den,
             suffix := s.suffix, unit := u }

/-! ## `main` (`main.cpp` lines 76-184) and `help` (lines 290-306) -/

/-- A line group written to standard output.  A string argument that is a null pointer
(`none`) is taken to be printed as some placeholder text, as the usual C libraries do. -/
inductive Msg where
  | invalidMultiple (offset : Nat)
  | invalidRange (offset : Nat)
  | missingValue (opt : Option CStr)
  | noOptions
  | illegalOption (opt : Option CStr)
  | helpText
  | offsetInfo (offset : Nat)
  | cannotRead (name : Option CStr)
  | sizeInfo (name : Option CStr) (size : SizeText)
  | errorWriting (name : Option CStr)
deriving DecidableEq, Repr

/-- The local variables of `main` that the option loop sets. -/
structure Vars where
  progFileName : Option CStr
  fsFileName : Option CStr
  imageFileName : Option CStr
  fillChar : Option CStr
  verbose : Bool
  offset : Nat
deriving DecidableEq, Repr

/-- The initialisers of lines 81-90. -/
def Vars.init : Vars :=
  { progFileName := none, fsFileName := none, imageFileName := none, fillChar := some [],
    verbose := false, offset := 512 }

/-- How the option loop ends: it falls through to the file part with the variables
set, the process has ended with a status, or the behaviour is undefined. -/
inductive Parsed where
  | done (vars : Vars) (out : List Msg)
  | exit (status : Int) (out : List Msg)
  | undefined
deriving DecidableEq, Repr

/-- The function `help`: print the usage text and `exit(0)`. -/
def help (out : List Msg) : Parsed := Parsed.exit 0 (out ++ [Msg.helpText])

/-- The variables that live across the rounds of the option loop. -/
structure LoopState where
  vars : Vars
  argc : Int
  argv : ArgPtr
  out : List Msg
deriving DecidableEq, Repr

/-- How one round of the loop ends: the loop test is taken again, or the process is
over. -/
inductive Round where
  | next (s : LoopState)
  | stop (p : Parsed)
deriving DecidableEq, Repr

/-- The body of the loop (lines 98-148): one call of `GetOptVal` and the `switch`.
`s.argc` is the value that the loop test `--argc > 0` has left. -/
def loopBody (s : LoopState) : Round :=
  match GetOptVal s.argc s.argv with
  | none => Round.stop Parsed.undefined
  | some r =>
    if r.optNum = PROGNAME then
      Round.next { vars := { s.vars with progFileName := r.optValPtr },
                   argc := r.argc, argv := r.argv, out := s.out }
    else if r.optNum = FSNAME then
      Round.next { vars := { s.vars with fsFileName := r.optValPtr },
                   argc := r.argc, argv := r.argv, out := s.out }
    else if r.optNum = IMAGENAME then
      Round.next { vars := { s.vars with imageFileName := r.optValPtr },
                   argc := r.argc, argv := r.argv, out := s.out }
    else if r.optNum = OFFSET then
      match r.optValPtr with
      | none => Round.stop Parsed.undefined
      | some v =>
        if toUInt32 (atoi v) % 512 ≠ 0 then
          Round.stop (Parsed.exit (-1) (s.out ++ [Msg.invalidMultiple (toUInt32 (atoi v))]))
        else if toUInt32 (atoi v) > MAXOFFSET then
          Round.stop (Parsed.exit (-1) (s.out ++ [Msg.invalidRange (toUInt32 (atoi v))]))
        else
          Round.next
            { vars := { s.vars with offset := (toUInt32 (atoi v) * ONEKILOBYTE) % 4294967296 },
              argc := r.argc, argv := r.argv, out := s.out }
    else if r.optNum = FILLCHAR then
      Round.next { vars := { s.vars with fillChar := r.optValPtr },
                   argc := r.argc, argv := r.argv, out := s.out }
    else if r.optNum = V then
      Round.next { vars := { s.vars with verbose := true },
                   argc := r.argc, argv := r.argv, out := s.out }
    else if r.optNum = H then
      Round.stop (help s.out)
    else if r.optNum = MISSINGVALUE then
      Round.stop (help (s.out ++ [Msg.missingValue r.optValPtr]))
    else if r.optNum = NOOPTION then
      Round.stop (help (s.out ++ [Msg.noOptions]))
    else if r.optNum = NOTFOUND then
      Round.stop (help (s.out ++ [Msg.illegalOption r.optValPtr]))
    else Round.next { vars := s.vars, argc := r.argc, argv := r.argv, out := s.out }

/-- The loop `while (--argc > 0)` of lines 96-149, run for at most `fuel` rounds;
running out of rounds is reported as `none`. -/
def optionLoop : Nat → LoopState → Option Parsed
  | fuel, s =>
    if s.argc - 1 > 0 then
      match fuel with
      | 0 => none
      | fuel + 1 =>
        match loopBody { s with argc := s.argc - 1 } with
        | Round.stop p => some p
        | Round.next s1 => optionLoop fuel s1
    else some (Parsed.done s.vars s.out)

/-- The state in which `main` enters the loop; `args` are the arguments after the
program name, so `argc = args.length + 1` and `argv` points at the program name. -/
def LoopState.init (args : List CStr) : LoopState :=
  { vars := Vars.init, argc := (args.length : Int) + 1, argv := ArgPtr.entry args, out := [] }

/-- Lines 94-149: the help shown when there is no argument, else the option loop.
The loop decrements `argc` in every round, so `argc` rounds are enough. -/
def parseArgs (args : List CStr) : Option Parsed :=
  if (LoopState.init args).argc = 1 then some (help [])
  else optionLoop (args.length + 1) (LoopState.init args)

/-- The state of the loop after `n` full rounds, when the loop runs that long. -/
def rounds : Nat → LoopState → Option LoopState
  | 0, s => some s
  | n + 1, s =>
    if s.argc - 1 > 0 then
      match loopBody { s with argc := s.argc - 1 } with
      | Round.stop _ => none
      | Round.next s1 => rounds n s1
    else none

/-- The byte `*fillChar` as `memset` stores it; `none` for a null pointer. -/
def fillByte (fillChar : Option CStr) : Option uchar :=
  match fillChar with
  | none => none
  | some [] => some 0
  | some (c :: _) => some (c.toNat % 256)

/-- The library call `memcpy(dst + off, src, n)`; `none` when the copy would leave the
destination or the source buffer. -/
def memcpy (dst : List uchar) (off : Nat) (src : List uchar) (n : Nat) : Option (List uchar) :=
  if off + n ≤ dst.length ∧ n ≤ src.length then
    some (dst.take off ++ src.take n ++ dst.drop (off + n))
  else none

/-- Lines 170-174: allocate the merged image, prefill it, put the program and the
filesystem in place. -/
def composeImage (progImage fsImage : List uchar) (progSize fsSize offset : Nat)
    (fillChar : Option CStr) : Option (Nat × List uchar) :=
  match fillByte fillChar with
  | none => none
  | some c =>
    match memcpy (List.replicate ((offset + fsSize) % 4294967296) c) 0 progImage progSize with
    | none => none
    | some image1 =>
      match memcpy image1 offset fsImage fsSize with
      | none => none
      | some image2 => some ((offset + fsSize) % 4294967296, image2)

/-- The result of a run of `main`: the exit status, what was printed, the file
accesses in order and the file system left behind; or undefined behaviour. -/
inductive Outcome where
  | exit (status : Int) (out : List Msg) (io : List IOEvent) (fs : FileSystem)
  | undefined

/-- Lines 150-183: read the two files, compose the image and write it.  `FormatSize` is
called only with `-v`; opening the output stream on a null path is undefined, and a
write to a named file is taken to succeed. -/
def mergeFiles (fs : FileSystem) (vars : Vars) (out : List Msg) : Outcome :=
  let out1 := if vars.verbose then out ++ [Msg.offsetInfo vars.offset] else out
  match ReadBinaryFile fs vars.progFileName none with
  | (progSize, progImage) =>
    let io1 := ReadBinaryFile.events fs vars.progFileName
    if progSize = 0 then
      Outcome.exit (-1) (out1 ++ [Msg.cannotRead vars.progFileName]) io1 fs
    else
      match (if vars.verbose then (FormatSize progSize).map
               (fun t => out1 ++ [Msg.sizeInfo vars.progFileName t]) else some out1) with
      | none => Outcome.undefined
      | some out2 =>
        match ReadBinaryFile fs vars.fsFileName none with
        | (fsSize, fsImage) =>
          let io2 := io1 ++ ReadBinaryFile.events fs vars.fsFileName
          if fsSize = 0 then
            Outcome.exit (-1) (out2 ++ [Msg.cannotRead vars.fsFileName]) io2 fs
          else
            match (if vars.verbose then (FormatSize fsSize).map
                     (fun t => out2 ++ [Msg.sizeInfo vars.fsFileName t]) else some out2) with
            | none => Outcome.undefined
            | some out3 =>
              match composeImage (progImage.getD []) (fsImage.getD []) progSize fsSize
                  vars.offset vars.fillChar with
              | none => Outcome.undefined
              | some (imageSize, image) =>
                match vars.imageFileName with
                | none => Outcome.undefined
                | some imageFile =>
                  let fs1 := WriteBinaryFile fs imageFile image imageSize
                  let io3 := io2 ++ [IOEvent.write imageFile (image.take imageSize)]
                                 ++ FileSize.events (some imageFile)
                  let out4 := if FileSize fs1 (some imageFile) ≠ imageSize
                              then out3 ++ [Msg.errorWriting (some imageFile)] else out3
                  match (if vars.verbose then (FormatSize imageSize).map
                           (fun t => out4 ++ [Msg.sizeInfo (some imageFile) t])
                         else some out4) with
                  | none => Outcome.undefined
                  | some out5 => Outcome.exit 0 out5 io3 fs1

/-- The whole of `main`, run on the arguments after the program name. -/
def main (fs : FileSystem) (args : List CStr) : Option Outcome :=
  match parseArgs args with
  | none => none
  | some (Parsed.exit status out) => some (Outcome.exit status out [] fs)
  | some Parsed.undefined => some Outcome.undefined
  | some (Parsed.done vars out) => some (mergeFiles fs vars out)

/-! ## Specification vocabulary -/

/-- Spec: `name` is a case-insensitive beginning of `t`. -/
def startsWithNoCase (name t : CStr) : Prop :=
  (t.take name.length).map tolower = name.map tolower

instance (name t : CStr) : Decidable (startsWithNoCase name t) := by
  unfold startsWithNoCase; infer_instance

/-- Spec: the index of the first table entry, in declared order, that is a
case-insensitive beginning of `t`; `g_optCount` when there is none. -/
def firstMatch (t : CStr) : Nat :=
  g_optTable.findIdx (fun nm => decide (startsWithNoCase nm t))

/-- Spec: a table entry takes a value unless its first letter is upper case. -/
def takesValue (name : CStr) : Bool := !((name.head?.map isupper).getD false)

/-- Spec: what `GetOptVal` does with a token `c :: t` whose first character is a
delimiter, in terms of the first matching table entry. -/
def optionResult (argc : Int) (t : CStr) (rest : List CStr) : OptVal :=
  match g_optTable.get? (firstMatch t) with
  | none => { optNum := NOTFOUND, argc := argc, argv := ArgPtr.entry rest, optValPtr := some t }
  | some name =>
    if takesValue name then
      if t.drop name.length = [] then
        match rest with
        | [] => { optNum := MISSINGVALUE, argc := argc - 1, argv := ArgPtr.null,
                  optValPtr := none }
        | v :: rest1 => { optNum := (firstMatch t : Int), argc := argc - 1,
                          argv := ArgPtr.entry rest1, optValPtr := some v }
      else { optNum := (firstMatch t : Int), argc := argc, argv := ArgPtr.entry rest,
             optValPtr := some (t.drop name.length) }
    else { optNum := (firstMatch t : Int), argc := argc, argv := ArgPtr.entry rest,
           optValPtr := some t }

/-- Spec: entry `i` of the table, called `name`, is the first entry in declared order
whose whole name is a case-insensitive beginning of `t`. -/
def IsFirstMatch (t : CStr) (i : Nat) (name : CStr) : Prop :=
  g_optTable.get? i = some name ∧ startsWithNoCase name t ∧
    ∀ j nm, j < i → g_optTable.get? j = some nm → ¬ startsWithNoCase nm t

/-- Spec: a path that cannot be read: it is absent, names no existing file, or names
an empty file. -/
def Unreadable (fs : FileSystem) (name : Option CStr) : Prop :=
  name = none ∨ ∃ p, name = some p ∧ (fs p = none ∨ fs p = some [])

/-- Spec: no event of the list writes a file. -/
def NoWrite (io : List IOEvent) : Prop := ∀ name data, IOEvent.write name data ∉ io

/-! ## The `sprintf` call of `FormatSize` (`main.cpp` line 287) -/

/-- The nearest integer to `num / den`.  An exact tie goes to the even neighbour, or
upwards when `tieUp` is set: the C library chooses (to even in glibc and the current
Microsoft runtime, upwards in older Microsoft runtimes), so the choice is a parameter. -/
def roundNearest (tieUp : Bool) (num den : Nat) : Nat :=
  if 2 * (num % den) < den then num / den
  else if 2 * (num % den) > den then num / den + 1
  else if tieUp then num / den + 1
  else if (num / den) % 2 = 0 then num / den else num / den + 1

/-- The conversion `%.<decimals>f` of the non-negative value `num / den`: the value is
rounded to `decimals` places; with zero places no decimal point is written. -/
def printFixed (tieUp : Bool) (decimals num den : Nat) : CStr :=
  if decimals = 0 then Nat.toDigits 10 (roundNearest tieUp num den)
  else
    Nat.toDigits 10 (roundNearest tieUp (num * 10 ^ decimals) den / 10 ^ decimals)
      ++ '.' ::
        (List.replicate
            (decimals
              - (Nat.toDigits 10
                  (roundNearest tieUp (num * 10 ^ decimals) den % 10 ^ decimals)).length) '0'
          ++ Nat.toDigits 10 (roundNearest tieUp (num * 10 ^ decimals) den % 10 ^ decimals))

/-- The call `sprintf(result, format, count, suffixes[suffix])` with the format
`"%.2f %s"`, or `"%.0f %s"` after the patch of line 286. -/
def sprintfSize (tieUp : Bool) (t : SizeText) : CStr :=
  printFixed tieUp t.decimals t.num t.den ++ ' ' :: t.unit

/-- The string that `FormatSize` returns; `none` when `suffixes[suffix]` is read
outside the array. -/
def FormatSize.text (tieUp : Bool) (bytes : Nat) : Option CStr :=
  (FormatSize bytes).map (sprintfSize tieUp)

/-- Spec: no round of the option loop run from the state `s` gets the number `K` from
`GetOptVal`: after the state `s` the option numbered `K` does not occur. -/
def noRound (K : Int) (s : LoopState) : Prop :=
  ∀ m s1, rounds m s = some s1 → s1.argc - 1 > 0 →
    ∀ r, GetOptVal (s1.argc - 1) s1.argv = some r → r.optNum ≠ K

/-- Spec: the token is a delimiter followed by a text that selects the table entry
numbered `K`. -/
def selects (K : Int) (tok : CStr) : Bool :=
  match tok with
  | [] => false
  | c :: t => (decide (c = '-') || decide (c = '/')) && decide ((firstMatch t : Int) = K)

/-- The arguments that the `argv` pointer has not yet passed. -/
def ArgPtr.tokens : ArgPtr → List CStr
  | ArgPtr.entry l => l
  | ArgPtr.null => []

/-- Spec: the loop state is consistent with a null-terminated argument vector: `argv`
points at an argument, and `argc` is one more than the number of arguments after it. -/
def WellFormed (s : LoopState) : Prop :=
  ∃ l, s.argv = ArgPtr.entry l ∧ s.argc = (l.length : Int) + 1

/-! ## Lemmas on the string comparison and the table search -/

theorem tolower_ne_zero_of (c : Char) (h : c.toNat ≠ 0) : tolower c ≠ 0 := by
  unfold tolower
  split <;> omega

theorem strnicmp_eq_zero_iff (name : CStr) (hn : ∀ c ∈ name, tolower c ≠ 0) (t : CStr) :
    strnicmp name t (strlen name) = 0 ↔ startsWithNoCase name t := by
  induction name generalizing t with
  | nil => simp [strnicmp, strlen, startsWithNoCase]
  | cons a as ih =>
    have ha : tolower a ≠ 0 := hn a (List.mem_cons_self _ _)
    have has : ∀ c ∈ as, tolower c ≠ 0 := fun c hc => hn c (List.mem_cons_of_mem _ hc)
    cases t with
    | nil =>
      simp [strnicmp, strlen, startsWithNoCase]
      exact_mod_cast ha
    | cons b bs =>
      have ih1 := ih has bs
      simp only [strlen] at ih1
      simp only [strnicmp, strlen, List.length_cons, startsWithNoCase, List.take_succ_cons,
        List.map_cons, List.cons.injEq]
      by_cases hab : tolower a = tolower b
      · simp only [hab, if_true, true_and]
        exact ih1
      · simp only [hab, if_false]
        constructor
        · intro h; exfalso; apply hab; omega
        · intro h; exact absurd h.1.symm hab

theorem table_no_nul : ∀ name ∈ g_optTable, ∀ c ∈ name, tolower c ≠ 0 := by
  decide

theorem searchTable_fst (t : CStr) (names : List CStr)
    (hn : ∀ name ∈ names, ∀ c ∈ name, tolower c ≠ 0) (k : Nat) (n0 : Int) :
    (searchTable t names k n0).1
      = k + names.findIdx (fun nm => decide (startsWithNoCase nm t)) := by
  induction names generalizing k n0 with
  | nil => simp [searchTable]
  | cons nm more ih =>
    have h1 := strnicmp_eq_zero_iff nm (hn nm (List.mem_cons_self _ _)) t
    have hmore : ∀ name ∈ more, ∀ c ∈ name, tolower c ≠ 0 :=
      fun name hname => hn name (List.mem_cons_of_mem _ hname)
    simp only [searchTable, List.findIdx_cons]
    by_cases hm : startsWithNoCase nm t
    · simp [h1.2 hm, hm]
    · have : ¬ strnicmp nm t (strlen nm) = 0 := fun h => hm (h1.1 h)
      simp only [this, if_false, hm, decide_False, cond_false]
      rw [ih hmore]
      omega

theorem searchTable_snd (t : CStr) (names : List CStr)
    (hn : ∀ name ∈ names, ∀ c ∈ name, tolower c ≠ 0) (k : Nat) (n0 : Int) :
    (searchTable t names k n0).2 = 0
      ↔ (∃ nm ∈ names, startsWithNoCase nm t) ∨ (names = [] ∧ n0 = 0) := by
  induction names generalizing k n0 with
  | nil => simp [searchTable]
  | cons nm more ih =>
    have h1 := strnicmp_eq_zero_iff nm (hn nm (List.mem_cons_self _ _)) t
    have hmore : ∀ name ∈ more, ∀ c ∈ name, tolower c ≠ 0 :=
      fun name hname => hn name (List.mem_cons_of_mem _ hname)
    simp only [searchTable]
    by_cases hm : startsWithNoCase nm t
    · simp [h1.2 hm, hm]
    · have h0 : ¬ strnicmp nm t (strlen nm) = 0 := fun h => hm (h1.1 h)
      simp only [h0, if_false]
      rw [ih hmore]
      constructor
      · rintro (⟨x, hx, hxt⟩ | ⟨rfl, h⟩)
        · exact Or.inl ⟨x, List.mem_cons_of_mem _ hx, hxt⟩
        · exact absurd h h0
      · rintro (⟨x, hx, hxt⟩ | ⟨h, _⟩)
        · rcases List.mem_cons.1 hx with rfl | hx
          · exact absurd hxt hm
          · exact Or.inl ⟨x, hx, hxt⟩
        · cases h

theorem firstMatch_lt_iff (t : CStr) :
    firstMatch t < g_optTable.length ↔ ∃ nm ∈ g_optTable, startsWithNoCase nm t := by
  unfold firstMatch
  rw [List.findIdx_lt_length]
  simp

theorem searchTable_table (t : CStr) :
    searchTable t g_optTable 0 0
      = (firstMatch t, (searchTable t g_optTable 0 0).2) := by
  have h := searchTable_fst t g_optTable table_no_nul 0 0
  rw [Nat.zero_add] at h
  exact Prod.ext h rfl

theorem searchTable_table_snd (t : CStr) :
    (searchTable t g_optTable 0 0).2 = 0 ↔ firstMatch t < g_optTable.length := by
  rw [searchTable_snd t g_optTable table_no_nul 0 0, firstMatch_lt_iff]
  constructor
  · rintro (h | ⟨h, _⟩)
    · exact h
    · exact absurd h (by decide)
  · intro h; exact Or.inl h

theorem GetOptVal_delim (argc : Int) (c : Char) (t : CStr) (rest : List CStr)
    (hc : c = '-' ∨ c = '/') :
    GetOptVal argc (ArgPtr.entry ((c :: t) :: rest)) = some (optionResult argc t rest) := by
  unfold GetOptVal optionResult
  simp only [ArgPtr.next, hc, if_true]
  rw [searchTable_table t]
  simp only []
  by_cases hlt : firstMatch t < g_optTable.length
  · have h0 := (searchTable_table_snd t).2 hlt
    obtain ⟨name, hname⟩ : ∃ name, g_optTable.get? (firstMatch t) = some name := by
      rw [List.get?_eq_getElem?]
      exact ⟨_, List.getElem?_eq_getElem hlt⟩
    simp only [h0, ne_eq, not_true, if_false, hname, takesValue, strlen]
    by_cases hu : (name.head?.map isupper).getD false = true
    · simp [hu]
    · simp only [hu, if_false, Bool.not_eq_true] at *
      simp only [hu, Bool.not_false, if_true]
      by_cases hd : List.drop name.length t = []
      · simp only [hd, if_true]
        cases rest <;> simp [ArgPtr.next]
      · simp [hd]
  · have h0 : ¬ (searchTable t g_optTable 0 0).2 = 0 := fun h => hlt ((searchTable_table_snd t).1 h)
    have hnone : g_optTable.get? (firstMatch t) = none := by
      rw [List.get?_eq_getElem?]
      exact List.getElem?_eq_none (by omega)
    simp only [h0, ne_eq, not_false_eq_true, if_true, hnone]

theorem GetOptVal_bare (argc : Int) (tok : CStr) (rest : List CStr)
    (h : ∀ c t, tok = c :: t → ¬ (c = '-' ∨ c = '/')) :
    GetOptVal argc (ArgPtr.entry (tok :: rest))
      = some { optNum := NOOPTION, argc := argc, argv := ArgPtr.entry rest,
               optValPtr := some tok } := by
  unfold GetOptVal
  cases tok with
  | nil => simp [ArgPtr.next]
  | cons c t =>
    have := h c t rfl
    simp [ArgPtr.next, this]

/-! ## The table search of `GetOptVal` -/

theorem firstMatch_of_isFirstMatch {t : CStr} {i : Nat} {name : CStr}
    (h : IsFirstMatch t i name) : firstMatch t = i := by
  obtain ⟨hget, hstart, hbefore⟩ := h
  rw [List.get?_eq_getElem?] at hget
  obtain ⟨hi, hname⟩ := List.getElem?_eq_some.1 hget
  unfold firstMatch
  rw [List.findIdx_eq hi]
  refine ⟨by simpa [hname] using hstart, fun j hji => ?_⟩
  have hj : j < g_optTable.length := Nat.lt_trans hji hi
  have := hbefore j (g_optTable[j]) hji (by
    rw [List.get?_eq_getElem?]; exact List.getElem?_eq_getElem hj)
  simpa using this

theorem isFirstMatch_firstMatch {t : CStr} (h : firstMatch t < g_optTable.length) :
    ∃ name, IsFirstMatch t (firstMatch t) name := by
  refine ⟨g_optTable[firstMatch t], ?_, ?_, ?_⟩
  · rw [List.get?_eq_getElem?]; exact List.getElem?_eq_getElem h
  · have := @List.findIdx_getElem _ (fun nm => decide (startsWithNoCase nm t)) g_optTable h
    simpa [firstMatch] using this
  · intro j nm hj hget
    rw [List.get?_eq_getElem?] at hget
    obtain ⟨hjl, hnm⟩ := List.getElem?_eq_some.1 hget
    have := @List.not_of_lt_findIdx _ (fun nm => decide (startsWithNoCase nm t)) g_optTable j hj
    rw [← hnm]
    simpa using this

/-- C6 (as amended): for a token whose first character is `-` or `/`, the result of
`GetOptVal` is the same for either delimiter; it is `NOTFOUND` exactly when no table
entry is a case-insensitive beginning of the text `t` after the delimiter; and when
entry `i` is the first such entry in declared order the returned number is `i`,
except that it is `MISSINGVALUE` when that entry takes a value, nothing is attached
to the name and no argument follows. -/
theorem GetOptVal_first_match (argc : Int) (c : Char) (t : CStr) (rest : List CStr)
    (hc : c = '-' ∨ c = '/') :
    ∃ r, GetOptVal argc (ArgPtr.entry ((c :: t) :: rest)) = some r
      ∧ GetOptVal argc (ArgPtr.entry (('-' :: t) :: rest)) = some r
      ∧ GetOptVal argc (ArgPtr.entry (('/' :: t) :: rest)) = some r
      ∧ (r.optNum = NOTFOUND ↔ ∀ name ∈ g_optTable, ¬ startsWithNoCase name t)
      ∧ ∀ i name, IsFirstMatch t i name →
          r.optNum = if takesValue name = true ∧ t.length = name.length ∧ rest = []
                     then MISSINGVALUE else (i : Int) := by
  refine ⟨optionResult argc t rest, GetOptVal_delim argc c t rest hc,
    GetOptVal_delim argc '-' t rest (Or.inl rfl), GetOptVal_delim argc '/' t rest (Or.inr rfl),
    ?_, ?_⟩
  · by_cases hlt : firstMatch t < g_optTable.length
    · obtain ⟨name, hget, hstart, -⟩ := isFirstMatch_firstMatch hlt
      have hmem : name ∈ g_optTable := List.get?_mem hget
      have hlt7 : firstMatch t < 7 := hlt
      have : (optionResult argc t rest).optNum ≠ NOTFOUND := by
        unfold optionResult
        rw [hget]
        simp only [NOTFOUND, MISSINGVALUE]
        split_ifs
        · cases rest <;> simp
        · simp
        · simp
      constructor
      · intro h; exact absurd h this
      · intro h; exact absurd hstart (h name hmem)
    · have hnone : g_optTable.get? (firstMatch t) = none := by
        rw [List.get?_eq_getElem?]
        exact List.getElem?_eq_none (by omega)
      constructor
      · intro _ name hmem hstart
        exact hlt ((firstMatch_lt_iff t).2 ⟨name, hmem, hstart⟩)
      · intro _
        unfold optionResult
        rw [hnone]
  · intro i name hfirst
    have hi := firstMatch_of_isFirstMatch hfirst
    obtain ⟨hget, hstart, -⟩ := hfirst
    have hlen : name.length ≤ t.length := by
      have := congrArg List.length hstart
      simp at this
      omega
    unfold optionResult
    rw [hi, hget]
    by_cases htv : takesValue name = true
    · by_cases hd : t.drop name.length = []
      · have hl : t.length = name.length := by
          have := List.drop_eq_nil_iff.1 hd
          omega
        cases rest with
        | nil => simp [htv, hd, hl]
        | cons v rest1 => simp [htv, hd]
      · have hl : ¬ t.length = name.length := by
          intro h
          exact hd (List.drop_eq_nil_iff.2 (by omega))
        simp [htv, hd, hl]
    · simp [htv]

/-- C6, an instance: the token `/FS` with a following argument selects entry 1. -/
theorem GetOptVal_first_match_witness :
    ∃ r, GetOptVal 2 (ArgPtr.entry (['/', 'F', 'S'] :: [['x']])) = some r
      ∧ GetOptVal 2 (ArgPtr.entry (('-' :: ['F', 'S']) :: [['x']])) = some r
      ∧ GetOptVal 2 (ArgPtr.entry (('/' :: ['F', 'S']) :: [['x']])) = some r
      ∧ (r.optNum = NOTFOUND ↔ ∀ name ∈ g_optTable, ¬ startsWithNoCase name ['F', 'S'])
      ∧ ∀ i name, IsFirstMatch ['F', 'S'] i name →
          r.optNum = if takesValue name = true ∧ ['F', 'S'].length = name.length
                        ∧ [['x']] = ([] : List CStr)
                     then MISSINGVALUE else (i : Int) :=
  GetOptVal_first_match 2 '/' ['F', 'S'] [['x']] (Or.inr rfl)

/-- C6, as stated, fails: `prog` is the first (and only) entry matching the token
`-prog`, yet with no argument after it `GetOptVal` returns `MISSINGVALUE`, not the
index 0 of that entry. -/
theorem GetOptVal_index_counterexample :
    IsFirstMatch ['p', 'r', 'o', 'g'] 0 ['p', 'r', 'o', 'g']
      ∧ GetOptVal 1 (ArgPtr.entry [['-', 'p', 'r', 'o', 'g']])
          = some { optNum := MISSINGVALUE, argc := 0, argv := ArgPtr.null, optValPtr := none }
      ∧ MISSINGVALUE ≠ ((0 : Nat) : Int) := by
  refine ⟨⟨by decide, by decide, ?_⟩, by decide, by decide⟩
  intro j nm hj
  exact absurd hj (Nat.not_lt_zero j)

/-! ## The option loop: termination and the states it passes through -/

theorem token_cases (tok : CStr) :
    (∀ c t, tok = c :: t → ¬ (c = '-' ∨ c = '/'))
      ∨ ∃ c t, tok = c :: t ∧ (c = '-' ∨ c = '/') := by
  cases tok with
  | nil => left; intro c t h; cases h
  | cons c t =>
    by_cases h : c = '-' ∨ c = '/'
    · exact Or.inr ⟨c, t, rfl, h⟩
    · left; intro c1 t1 h1; cases h1; exact h

theorem optionResult_argc_le (argc : Int) (t : CStr) (rest : List CStr) :
    (optionResult argc t rest).argc ≤ argc := by
  unfold optionResult
  split
  · simp
  · split_ifs
    · cases rest <;> simp
    · simp
    · simp

theorem GetOptVal_argc_le {argc : Int} {argv : ArgPtr} {r : OptVal}
    (h : GetOptVal argc argv = some r) : r.argc ≤ argc := by
  cases argv with
  | null => simp [GetOptVal, ArgPtr.next] at h
  | entry l =>
    cases l with
    | nil => simp [GetOptVal, ArgPtr.next] at h
    | cons tok rest =>
      rcases token_cases tok with hb | ⟨c, t, rfl, hc⟩
      · rw [GetOptVal_bare argc tok rest hb] at h
        cases h
        exact le_refl _
      · rw [GetOptVal_delim argc c t rest hc] at h
        cases h
        exact optionResult_argc_le argc t rest

theorem loopBody_next {s s1 : LoopState} (h : loopBody s = Round.next s1) :
    ∃ r, GetOptVal s.argc s.argv = some r ∧ s1.argc = r.argc ∧ s1.argv = r.argv
      ∧ s1.out = s.out := by
  unfold loopBody at h
  cases hg : GetOptVal s.argc s.argv with
  | none => simp [hg] at h
  | some r =>
    refine ⟨r, rfl, ?_⟩
    simp only [hg] at h
    by_cases h0 : r.optNum = PROGNAME
    · rw [if_pos h0] at h
      injection h with h
      subst h
      exact ⟨rfl, rfl, rfl⟩
    rw [if_neg h0] at h
    by_cases h1 : r.optNum = FSNAME
    · rw [if_pos h1] at h
      injection h with h
      subst h
      exact ⟨rfl, rfl, rfl⟩
    rw [if_neg h1] at h
    by_cases h2 : r.optNum = IMAGENAME
    · rw [if_pos h2] at h
      injection h with h
      subst h
      exact ⟨rfl, rfl, rfl⟩
    rw [if_neg h2] at h
    by_cases h3 : r.optNum = OFFSET
    · rw [if_pos h3] at h
      cases hv : r.optValPtr with
      | none => rw [hv] at h; cases h
      | some v =>
        rw [hv] at h
        simp only at h
        by_cases hm : toUInt32 (atoi v) % 512 ≠ 0
        · rw [if_pos hm] at h; cases h
        rw [if_neg hm] at h
        by_cases hx : toUInt32 (atoi v) > MAXOFFSET
        · rw [if_pos hx] at h; cases h
        rw [if_neg hx] at h
        injection h with h
        subst h
        exact ⟨rfl, rfl, rfl⟩
    rw [if_neg h3] at h
    by_cases h4 : r.optNum = FILLCHAR
    · rw [if_pos h4] at h
      injection h with h
      subst h
      exact ⟨rfl, rfl, rfl⟩
    rw [if_neg h4] at h
    by_cases h5 : r.optNum = V
    · rw [if_pos h5] at h
      injection h with h
      subst h
      exact ⟨rfl, rfl, rfl⟩
    rw [if_neg h5] at h
    by_cases h6 : r.optNum = H
    · rw [if_pos h6] at h
      cases h
    rw [if_neg h6] at h
    by_cases h7 : r.optNum = MISSINGVALUE
    · rw [if_pos h7] at h
      cases h
    rw [if_neg h7] at h
    by_cases h8 : r.optNum = NOOPTION
    · rw [if_pos h8] at h
      cases h
    rw [if_neg h8] at h
    by_cases h9 : r.optNum = NOTFOUND
    · rw [if_pos h9] at h
      cases h
    rw [if_neg h9] at h
    injection h with h
    subst h
    exact ⟨rfl, rfl, rfl⟩

theorem loopBody_argc_le {s s1 : LoopState} (h : loopBody s = Round.next s1) :
    s1.argc ≤ s.argc := by
  obtain ⟨r, hg, ha, -, -⟩ := loopBody_next h
  rw [ha]
  exact GetOptVal_argc_le hg

theorem optionLoop_total (fuel : Nat) (s : LoopState) (h : s.argc.toNat ≤ fuel) :
    ∃ p, optionLoop fuel s = some p := by
  induction fuel generalizing s with
  | zero =>
    unfold optionLoop
    have : ¬ s.argc - 1 > 0 := by omega
    simp [this]
  | succ fuel ih =>
    unfold optionLoop
    by_cases hgt : s.argc - 1 > 0
    · simp only [hgt, if_true]
      cases hb : loopBody { s with argc := s.argc - 1 } with
      | stop p => exact ⟨p, rfl⟩
      | next s1 =>
        have hle := loopBody_argc_le hb
        simp only at hle
        exact ih s1 (by omega)
    · simp [hgt]

theorem optionLoop_succ {fuel : Nat} {s : LoopState} {p : Parsed}
    (h : optionLoop fuel s = some p) : optionLoop (fuel + 1) s = some p := by
  induction fuel generalizing s with
  | zero =>
    unfold optionLoop at h ⊢
    by_cases hgt : s.argc - 1 > 0
    · simp [hgt] at h
    · simpa [hgt] using h
  | succ fuel ih =>
    unfold optionLoop at h ⊢
    by_cases hgt : s.argc - 1 > 0
    · simp only [hgt, if_true] at h ⊢
      cases hb : loopBody { s with argc := s.argc - 1 } with
      | stop q => simpa [hb] using h
      | next s1 =>
        simp only [hb] at h ⊢
        exact ih h
    · simpa [hgt] using h

theorem optionLoop_add {fuel : Nat} {s : LoopState} {p : Parsed} (k : Nat)
    (h : optionLoop fuel s = some p) : optionLoop (fuel + k) s = some p := by
  induction k with
  | zero => exact h
  | succ k ih => exact optionLoop_succ ih

theorem optionLoop_rounds {n : Nat} {s s1 : LoopState} (fuel : Nat)
    (h : rounds n s = some s1) : optionLoop (n + fuel) s = optionLoop fuel s1 := by
  induction n generalizing s with
  | zero =>
    simp only [rounds, Option.some.injEq] at h
    rw [Nat.zero_add, h]
  | succ n ih =>
    unfold rounds at h
    by_cases hgt : s.argc - 1 > 0
    · simp only [hgt, if_true] at h
      cases hb : loopBody { s with argc := s.argc - 1 } with
      | stop q => simp [hb] at h
      | next s2 =>
        simp only [hb] at h
        rw [show n + 1 + fuel = (n + fuel) + 1 by omega]
        conv_lhs => unfold optionLoop
        simp only [hgt, if_true, hb]
        exact ih h
    · simp [hgt] at h

/-- The result of the loop does not depend on the fuel once there is enough of it. -/
theorem optionLoop_unique {f1 f2 : Nat} {s : LoopState} {p q : Parsed}
    (h1 : optionLoop f1 s = some p) (h2 : optionLoop f2 s = some q) : p = q := by
  have a := optionLoop_add f2 h1
  have b := optionLoop_add f1 h2
  rw [Nat.add_comm] at b
  rw [a] at b
  exact Option.some.inj b

theorem parseArgs_eq_optionLoop {args : List CStr} (hne : args ≠ []) :
    parseArgs args = optionLoop (args.length + 1) (LoopState.init args) := by
  unfold parseArgs
  have : ¬ (LoopState.init args).argc = 1 := by
    simp only [LoopState.init]
    have : 0 < args.length := List.length_pos.2 hne
    omega
  simp [this]

theorem parseArgs_total (args : List CStr) : ∃ p, parseArgs args = some p := by
  unfold parseArgs
  split_ifs
  · exact ⟨_, rfl⟩
  · exact optionLoop_total _ _ (by simp [LoopState.init])

/-- If the loop started on `args` passes through the state `s` and the run from `s`
gives `p`, then `p` is the result of parsing `args`. -/
theorem parseArgs_of_rounds {args : List CStr} {n fuel : Nat} {s : LoopState} {p : Parsed}
    (hne : args ≠ []) (hr : rounds n (LoopState.init args) = some s)
    (hp : optionLoop fuel s = some p) : parseArgs args = some p := by
  rw [parseArgs_eq_optionLoop hne]
  obtain ⟨q, hq⟩ := optionLoop_total (args.length + 1) (LoopState.init args)
    (by simp [LoopState.init])
  have h2 : optionLoop (n + fuel) (LoopState.init args) = some p := by
    rw [optionLoop_rounds fuel hr]; exact hp
  rw [hq, optionLoop_unique hq h2]

theorem optionLoop_stop {s : LoopState} {p : Parsed} (hgt : s.argc - 1 > 0)
    (hb : loopBody { s with argc := s.argc - 1 } = Round.stop p) :
    optionLoop 1 s = some p := by
  unfold optionLoop
  simp [hgt, hb]

/-! ## Uniqueness of the matching table entry -/

theorem startsWithNoCase_of_both {a b t : CStr} (ha : startsWithNoCase a t)
    (hb : startsWithNoCase b t) (hle : a.length ≤ b.length) : startsWithNoCase a b := by
  unfold startsWithNoCase at *
  have h1 : (List.take a.length (List.take b.length t)).map tolower
      = (List.take a.length b).map tolower := by
    rw [List.map_take, hb, ← List.map_take]
  rw [← h1, List.take_take, Nat.min_eq_left hle]
  exact ha

theorem table_startsWith_eq :
    ∀ a ∈ g_optTable, ∀ b ∈ g_optTable, startsWithNoCase a b → a = b := by
  decide

theorem table_index_unique :
    ∀ i j : Fin g_optTable.length, g_optTable.get i = g_optTable.get j → i = j := by
  decide

theorem table_match_unique {a b t : CStr} (ha : a ∈ g_optTable) (hb : b ∈ g_optTable)
    (hat : startsWithNoCase a t) (hbt : startsWithNoCase b t) : a = b := by
  rcases Nat.le_total a.length b.length with h | h
  · exact table_startsWith_eq a ha b hb (startsWithNoCase_of_both hat hbt h)
  · exact (table_startsWith_eq b hb a ha (startsWithNoCase_of_both hbt hat h)).symm

theorem isFirstMatch_of_match {t : CStr} {i : Nat} {name : CStr}
    (hget : g_optTable.get? i = some name) (hstart : startsWithNoCase name t) :
    IsFirstMatch t i name := by
  refine ⟨hget, hstart, ?_⟩
  intro j nm hj hgetj hnm
  have heq : nm = name :=
    table_match_unique (List.get?_mem hgetj) (List.get?_mem hget) hnm hstart
  rw [List.get?_eq_getElem?] at hget hgetj
  obtain ⟨hi, hiv⟩ := List.getElem?_eq_some.1 hget
  obtain ⟨hjl, hjv⟩ := List.getElem?_eq_some.1 hgetj
  have := table_index_unique ⟨j, hjl⟩ ⟨i, hi⟩ (by
    simp only [List.get_eq_getElem]; rw [hjv, hiv, heq])
  have : j = i := congrArg Fin.val this
  omega

theorem startsWithNoCase_append {name o : CStr} (v : CStr)
    (ho : o.map tolower = name.map tolower) : startsWithNoCase name (o ++ v) := by
  have hlen : o.length = name.length := by
    have := congrArg List.length ho
    simpa using this
  unfold startsWithNoCase
  rw [← hlen, List.take_left', ho]
  rfl

/-! ## Attached and separate option values -/

theorem optionResult_attached {argc : Int} {i : Nat} {name o v : CStr} (rest : List CStr)
    (hname : g_optTable.get? i = some name) (hval : takesValue name = true)
    (ho : o.map tolower = name.map tolower) (hv : v ≠ []) :
    optionResult argc (o ++ v) rest
      = { optNum := (i : Int), argc := argc, argv := ArgPtr.entry rest, optValPtr := some v } := by
  have hlen : o.length = name.length := by
    have := congrArg List.length ho
    simpa using this
  have hfirst := firstMatch_of_isFirstMatch
    (isFirstMatch_of_match hname (startsWithNoCase_append v ho))
  unfold optionResult
  rw [hfirst, hname]
  simp only [hval, if_true]
  rw [← hlen, List.drop_left']
  · simp [hv]
  · rfl

theorem optionResult_separate {argc : Int} {i : Nat} {name o : CStr} (v : CStr)
    (rest : List CStr) (hname : g_optTable.get? i = some name) (hval : takesValue name = true)
    (ho : o.map tolower = name.map tolower) :
    optionResult (argc + 1) o (v :: rest)
      = { optNum := (i : Int), argc := argc, argv := ArgPtr.entry rest, optValPtr := some v } := by
  have hlen : o.length = name.length := by
    have := congrArg List.length ho
    simpa using this
  have hstart : startsWithNoCase name o := by
    have := startsWithNoCase_append [] ho
    simpa using this
  have hfirst := firstMatch_of_isFirstMatch (isFirstMatch_of_match hname hstart)
  unfold optionResult
  rw [hfirst, hname]
  simp only [hval, if_true]
  rw [← hlen, List.drop_length]
  simp

/-- C7: for a value-taking table entry `name` (index `i`), an option word `o` equal
to it up to letter case, a non-empty value `v`, either delimiter and any following
arguments, the single token `-o v` (attached) and the two tokens `-o`, `v` give the
same `GetOptVal` result: index `i`, value `v`, the same remaining arguments and the
same argument count; hence the loop body, the option loop and `main` behave alike. -/
theorem GetOptVal_attached_eq_separate (argc : Int) (c : Char) (i : Nat) (name o v : CStr)
    (rest : List CStr) (hc : c = '-' ∨ c = '/')
    (hname : g_optTable.get? i = some name) (hval : takesValue name = true)
    (ho : o.map tolower = name.map tolower) (hv : v ≠ []) :
    GetOptVal argc (ArgPtr.entry ((c :: (o ++ v)) :: rest))
        = some { optNum := (i : Int), argc := argc, argv := ArgPtr.entry rest,
                 optValPtr := some v }
      ∧ GetOptVal (argc + 1) (ArgPtr.entry ((c :: o) :: v :: rest))
        = some { optNum := (i : Int), argc := argc, argv := ArgPtr.entry rest,
                 optValPtr := some v }
      ∧ (∀ vars out,
          loopBody { vars := vars, argc := argc,
                     argv := ArgPtr.entry ((c :: (o ++ v)) :: rest), out := out }
            = loopBody { vars := vars, argc := argc + 1,
                         argv := ArgPtr.entry ((c :: o) :: v :: rest), out := out })
      ∧ parseArgs ((c :: (o ++ v)) :: rest) = parseArgs ((c :: o) :: v :: rest)
      ∧ ∀ fs, main fs ((c :: (o ++ v)) :: rest) = main fs ((c :: o) :: v :: rest) := by
  have h1 : ∀ a : Int, GetOptVal a (ArgPtr.entry ((c :: (o ++ v)) :: rest))
      = some { optNum := (i : Int), argc := a, argv := ArgPtr.entry rest,
               optValPtr := some v } := by
    intro a
    rw [GetOptVal_delim a c (o ++ v) rest hc, optionResult_attached rest hname hval ho hv]
  have h2 : ∀ a : Int, GetOptVal (a + 1) (ArgPtr.entry ((c :: o) :: v :: rest))
      = some { optNum := (i : Int), argc := a, argv := ArgPtr.entry rest,
               optValPtr := some v } := by
    intro a
    rw [GetOptVal_delim (a + 1) c o (v :: rest) hc, optionResult_separate v rest hname hval ho]
  have h3 : ∀ (a : Int) vars out,
      loopBody { vars := vars, argc := a,
                 argv := ArgPtr.entry ((c :: (o ++ v)) :: rest), out := out }
        = loopBody { vars := vars, argc := a + 1,
                     argv := ArgPtr.entry ((c :: o) :: v :: rest), out := out } := by
    intro a vars out
    unfold loopBody
    simp only [h1, h2]
  have h4 : parseArgs ((c :: (o ++ v)) :: rest) = parseArgs ((c :: o) :: v :: rest) := by
    rw [parseArgs_eq_optionLoop (List.cons_ne_nil _ _),
      parseArgs_eq_optionLoop (List.cons_ne_nil _ _)]
    obtain ⟨p, hp⟩ := optionLoop_total (((c :: (o ++ v)) :: rest).length + 1)
      (LoopState.init ((c :: (o ++ v)) :: rest)) (by simp [LoopState.init])
    rw [hp]
    have hp1 := optionLoop_succ hp
    symm
    rw [← hp1]
    simp only [List.length_cons]
    conv_lhs => unfold optionLoop
    conv_rhs => unfold optionLoop
    have hg1 : (LoopState.init ((c :: o) :: v :: rest)).argc - 1 > 0 := by
      simp [LoopState.init]; omega
    have hg2 : (LoopState.init ((c :: (o ++ v)) :: rest)).argc - 1 > 0 := by
      simp [LoopState.init]
    simp only [hg1, hg2, if_true]
    have hb := h3 ((rest.length : Int) + 1) Vars.init []
    have e1 : ({ LoopState.init ((c :: (o ++ v)) :: rest) with
        argc := (LoopState.init ((c :: (o ++ v)) :: rest)).argc - 1 } : LoopState)
        = { vars := Vars.init, argc := (rest.length : Int) + 1,
            argv := ArgPtr.entry ((c :: (o ++ v)) :: rest), out := [] } := by
      simp [LoopState.init]
    have e2 : ({ LoopState.init ((c :: o) :: v :: rest) with
        argc := (LoopState.init ((c :: o) :: v :: rest)).argc - 1 } : LoopState)
        = { vars := Vars.init, argc := (rest.length : Int) + 1 + 1,
            argv := ArgPtr.entry ((c :: o) :: v :: rest), out := [] } := by
      simp [LoopState.init]
    rw [e1, e2, hb]
  refine ⟨h1 argc, h2 argc, h3 argc, h4, ?_⟩
  intro fs
  unfold main
  rw [h4]

/-- C7, an instance: `-OFFSET1024` and `-OFFSET 1024` before `-v`. -/
theorem GetOptVal_attached_eq_separate_witness :
    GetOptVal 2 (ArgPtr.entry (('-' :: (['O', 'F', 'F', 'S', 'E', 'T'] ++ ['1', '0', '2', '4']))
          :: [['-', 'v']]))
        = some { optNum := ((3 : Nat) : Int), argc := 2, argv := ArgPtr.entry [['-', 'v']],
                 optValPtr := some ['1', '0', '2', '4'] }
      ∧ GetOptVal (2 + 1) (ArgPtr.entry (('-' :: ['O', 'F', 'F', 'S', 'E', 'T'])
          :: ['1', '0', '2', '4'] :: [['-', 'v']]))
        = some { optNum := ((3 : Nat) : Int), argc := 2, argv := ArgPtr.entry [['-', 'v']],
                 optValPtr := some ['1', '0', '2', '4'] }
      ∧ (∀ vars out,
          loopBody { vars := vars, argc := 2,
                     argv := ArgPtr.entry (('-' :: (['O', 'F', 'F', 'S', 'E', 'T']
                       ++ ['1', '0', '2', '4'])) :: [['-', 'v']]), out := out }
            = loopBody { vars := vars, argc := 2 + 1,
                         argv := ArgPtr.entry (('-' :: ['O', 'F', 'F', 'S', 'E', 'T'])
                           :: ['1', '0', '2', '4'] :: [['-', 'v']]), out := out })
      ∧ parseArgs (('-' :: (['O', 'F', 'F', 'S', 'E', 'T'] ++ ['1', '0', '2', '4']))
            :: [['-', 'v']])
          = parseArgs (('-' :: ['O', 'F', 'F', 'S', 'E', 'T']) :: ['1', '0', '2', '4']
            :: [['-', 'v']])
      ∧ ∀ fs, main fs (('-' :: (['O', 'F', 'F', 'S', 'E', 'T'] ++ ['1', '0', '2', '4']))
            :: [['-', 'v']])
          = main fs (('-' :: ['O', 'F', 'F', 'S', 'E', 'T']) :: ['1', '0', '2', '4']
            :: [['-', 'v']]) :=
  GetOptVal_attached_eq_separate 2 '-' 3 ['o', 'f', 'f', 's', 'e', 't']
    ['O', 'F', 'F', 'S', 'E', 'T'] ['1', '0', '2', '4'] [['-', 'v']] (Or.inl rfl)
    (by decide) (by decide) (by decide) (by decide)

/-! ## The result classes of `GetOptVal` -/

theorem optionResult_optNum (argc : Int) (t : CStr) (rest : List CStr) :
    (¬ firstMatch t < g_optTable.length ∧ (optionResult argc t rest).optNum = NOTFOUND
        ∧ (optionResult argc t rest).optValPtr = some t)
      ∨ ∃ name, IsFirstMatch t (firstMatch t) name ∧ firstMatch t < g_optTable.length ∧
          ((takesValue name = true ∧ t.drop name.length = [] ∧ rest = []
              ∧ (optionResult argc t rest).optNum = MISSINGVALUE
              ∧ (optionResult argc t rest).optValPtr = none)
            ∨ (takesValue name = true ∧ t.drop name.length = [] ∧
                ∃ v rest1, rest = v :: rest1
                  ∧ (optionResult argc t rest).optNum = (firstMatch t : Int)
                  ∧ (optionResult argc t rest).optValPtr = some v)
            ∨ (takesValue name = true ∧ t.drop name.length ≠ []
                ∧ (optionResult argc t rest).optNum = (firstMatch t : Int)
                ∧ (optionResult argc t rest).optValPtr = some (t.drop name.length))
            ∨ (takesValue name = false
                ∧ (optionResult argc t rest).optNum = (firstMatch t : Int)
                ∧ (optionResult argc t rest).optValPtr = some t)) := by
  by_cases hlt : firstMatch t < g_optTable.length
  · right
    obtain ⟨name, hfirst⟩ := isFirstMatch_firstMatch hlt
    refine ⟨name, hfirst, hlt, ?_⟩
    unfold optionResult
    rw [hfirst.1]
    by_cases htv : takesValue name = true
    · by_cases hd : t.drop name.length = []
      · cases rest with
        | nil => left; simp [htv, hd]
        | cons v rest1 => right; left; simp [htv, hd]
      · right; right; left; simp [htv, hd]
    · right; right; right
      simp only [Bool.not_eq_true] at htv
      simp [htv]
  · left
    have hnone : g_optTable.get? (firstMatch t) = none := by
      rw [List.get?_eq_getElem?]
      exact List.getElem?_eq_none (by omega)
    unfold optionResult
    rw [hnone]
    exact ⟨hlt, rfl, rfl⟩

theorem map_tolower_of_drop_nil {name t : CStr} (hs : startsWithNoCase name t)
    (hd : t.drop name.length = []) : t.map tolower = name.map tolower := by
  unfold startsWithNoCase at hs
  rw [List.take_of_length_le (List.drop_eq_nil_iff.1 hd)] at hs
  exact hs

theorem optionResult_optNum_range (argc : Int) (t : CStr) (rest : List CStr) :
    (optionResult argc t rest).optNum = -3 ∨ (optionResult argc t rest).optNum = -1
      ∨ (0 ≤ (optionResult argc t rest).optNum ∧ (optionResult argc t rest).optNum ≤ 6) := by
  rcases optionResult_optNum argc t rest with ⟨-, h, -⟩ |
    ⟨name, -, hlt, ⟨-, -, -, h, -⟩ | ⟨-, -, v, rest1, -, h, -⟩ | ⟨-, -, h, -⟩ | ⟨-, h, -⟩⟩
  · left; rw [h]; rfl
  · right; left; rw [h]; rfl
  all_goals
    right; right
    rw [h]
    have hlt7 : firstMatch t < 7 := hlt
    omega

/-- C8: `GetOptVal` applied to a next token `tok` always returns, and its return value
falls into exactly one class: `NOOPTION` exactly when `tok` does not begin with `-`
or `/`; `MISSINGVALUE` exactly when `tok` is a delimiter followed by exactly the name
of a value-taking table entry (up to letter case) and no argument follows; otherwise
`NOTFOUND` or a table index in 0..6.  For a value-taking index the value pointer is
the text attached to the name when that is non-empty and the following argument
otherwise. -/
theorem GetOptVal_classes (argc : Int) (tok : CStr) (rest : List CStr) :
    ∃ r, GetOptVal argc (ArgPtr.entry (tok :: rest)) = some r
      ∧ (r.optNum = NOOPTION ↔ ¬ ∃ c t, tok = c :: t ∧ (c = '-' ∨ c = '/'))
      ∧ (r.optNum = MISSINGVALUE ↔
          ∃ c o name, tok = c :: o ∧ (c = '-' ∨ c = '/') ∧ name ∈ g_optTable
            ∧ takesValue name = true ∧ o.map tolower = name.map tolower ∧ rest = [])
      ∧ (r.optNum ≠ NOOPTION → r.optNum ≠ MISSINGVALUE →
          (r.optNum = NOTFOUND ∧ ¬ (0 ≤ r.optNum ∧ r.optNum ≤ 6))
            ∨ (r.optNum ≠ NOTFOUND ∧ 0 ≤ r.optNum ∧ r.optNum ≤ 6))
      ∧ ∀ (i : Nat) (name : CStr), r.optNum = (i : Int) → g_optTable.get? i = some name →
          takesValue name = true →
          r.optValPtr = if tok.drop (1 + name.length) ≠ []
                        then some (tok.drop (1 + name.length)) else rest.head? := by
  rcases token_cases tok with hb | ⟨c, t, rfl, hc⟩
  · refine ⟨_, GetOptVal_bare argc tok rest hb, ?_, ?_, ?_, ?_⟩
    · simp only [true_iff]
      rintro ⟨c, t, h, hc⟩
      exact hb c t h hc
    · constructor
      · intro h; simp only [NOOPTION, MISSINGVALUE] at h; omega
      · rintro ⟨c, o, name, h, hc, -⟩
        exact absurd hc (hb c o h)
    · intro h; exact absurd rfl h
    · intro i name h
      simp only [NOOPTION] at h
      omega
  · have hrange := optionResult_optNum_range argc t rest
    refine ⟨_, GetOptVal_delim argc c t rest hc, ?_, ?_, ?_, ?_⟩
    · constructor
      · intro h; simp only [NOOPTION] at h; omega
      · intro h; exact absurd ⟨c, t, rfl, hc⟩ h
    · constructor
      · intro hm
        simp only [MISSINGVALUE] at hm
        rcases optionResult_optNum argc t rest with ⟨-, h, -⟩ |
          ⟨name, hf, hlt, ⟨htv, hd, hr, -, -⟩ | ⟨-, -, v, rest1, -, h, -⟩ | ⟨-, -, h, -⟩
            | ⟨-, h, -⟩⟩
        · rw [h] at hm; simp only [NOTFOUND] at hm; omega
        · exact ⟨c, t, name, rfl, hc, List.get?_mem hf.1, htv,
            map_tolower_of_drop_nil hf.2.1 hd, hr⟩
        · rw [h] at hm; omega
        · rw [h] at hm; omega
        · rw [h] at hm; omega
      · rintro ⟨c1, o, name, htok, -, hmem, htv, ho, hr⟩
        injection htok with h1 h2
        subst h2
        obtain ⟨i, hi⟩ := List.get?_of_mem hmem
        have hlen : t.length = name.length := by
          have := congrArg List.length ho
          simpa using this
        have hstart : startsWithNoCase name t := by
          have := startsWithNoCase_append [] ho
          simpa using this
        have hfirst := firstMatch_of_isFirstMatch (isFirstMatch_of_match hi hstart)
        unfold optionResult
        rw [hfirst, hi, hr]
        simp [htv, ← hlen]
    · intro h1 h2
      simp only [NOOPTION, MISSINGVALUE, NOTFOUND] at *
      omega
    · intro i name hi hget htv
      rcases optionResult_optNum argc t rest with ⟨-, h, -⟩ |
        ⟨nm, hf, hlt, ⟨-, -, -, h, -⟩ | ⟨-, hd, v, rest1, hr, h, hp⟩ | ⟨-, hd, h, hp⟩
          | ⟨htv1, h, -⟩⟩
      · rw [h] at hi; simp only [NOTFOUND] at hi; omega
      · rw [h] at hi; simp only [MISSINGVALUE] at hi; omega
      · rw [h] at hi
        have hii : firstMatch t = i := by exact_mod_cast hi
        have hnm := hf.1
        rw [hii, hget] at hnm
        have : nm = name := (Option.some.inj hnm).symm
        subst this
        rw [hp, hr]
        simp [Nat.add_comm 1, hd]
      · rw [h] at hi
        have hii : firstMatch t = i := by exact_mod_cast hi
        have hnm := hf.1
        rw [hii, hget] at hnm
        have : nm = name := (Option.some.inj hnm).symm
        subst this
        rw [hp]
        simp [Nat.add_comm 1, hd]
      · rw [h] at hi
        have hii : firstMatch t = i := by exact_mod_cast hi
        have hnm := hf.1
        rw [hii, hget] at hnm
        have : nm = name := (Option.some.inj hnm).symm
        subst this
        rw [htv] at htv1
        cases htv1

/-! ## Exits of the option loop -/

theorem args_ne_nil_of_rounds {args : List CStr} {n : Nat} {s : LoopState}
    (hr : rounds n (LoopState.init args) = some s) (hgt : s.argc - 1 > 0) : args ≠ [] := by
  intro h
  subst h
  cases n with
  | zero =>
    simp only [rounds, Option.some.injEq] at hr
    subst hr
    simp [LoopState.init] at hgt
  | succ n =>
    unfold rounds at hr
    simp [LoopState.init] at hr

theorem main_of_stop {args : List CStr} {n : Nat} {s : LoopState} {status : Int}
    {out : List Msg} (fs : FileSystem)
    (hr : rounds n (LoopState.init args) = some s) (hgt : s.argc - 1 > 0)
    (hb : loopBody { s with argc := s.argc - 1 } = Round.stop (Parsed.exit status out)) :
    main fs args = some (Outcome.exit status out [] fs) := by
  have hne := args_ne_nil_of_rounds hr hgt
  have hp := parseArgs_of_rounds hne hr (optionLoop_stop hgt hb)
  unfold main
  rw [hp]

theorem toUInt32_neg (i : Int) (hlo : -2147483648 ≤ i) (hneg : i < 0) :
    toUInt32 i > 32768 := by
  unfold toUInt32
  omega

/-- C3: if the option loop, after any number of rounds, meets an `-offset` option
(`GetOptVal` returns `OFFSET` with value `v`) whose value, `atoi v` stored as
`uint32_t`, is not a multiple of 512 or is greater than 32768, then `main` returns
status -1 at that point, with no file access at all and the file system unchanged.
Every negative `int` value is such a value. -/
theorem invalid_offset_exit (fs : FileSystem) (args : List CStr) (n : Nat) (s : LoopState)
    (r : OptVal) (v : CStr)
    (hr : rounds n (LoopState.init args) = some s) (hgt : s.argc - 1 > 0)
    (hg : GetOptVal (s.argc - 1) s.argv = some r) (ho : r.optNum = OFFSET)
    (hv : r.optValPtr = some v)
    (hbad : toUInt32 (atoi v) % 512 ≠ 0 ∨ toUInt32 (atoi v) > 32768) :
    main fs args
        = some (Outcome.exit (-1)
            (s.out ++ [if toUInt32 (atoi v) % 512 ≠ 0 then Msg.invalidMultiple (toUInt32 (atoi v))
                       else Msg.invalidRange (toUInt32 (atoi v))]) [] fs)
      ∧ ∀ i : Int, -2147483648 ≤ i → i < 0 → toUInt32 i > 32768 := by
  refine ⟨main_of_stop fs hr hgt ?_, toUInt32_neg⟩
  unfold loopBody
  simp only [hg]
  have h0 : ¬ r.optNum = PROGNAME := by rw [ho]; decide
  have h1 : ¬ r.optNum = FSNAME := by rw [ho]; decide
  have h2 : ¬ r.optNum = IMAGENAME := by rw [ho]; decide
  rw [if_neg h0, if_neg h1, if_neg h2, if_pos ho, hv]
  simp only
  by_cases hm : toUInt32 (atoi v) % 512 ≠ 0
  · rw [if_pos hm, if_pos hm]
  · rw [if_neg hm, if_neg hm]
    have hx : toUInt32 (atoi v) > MAXOFFSET := by
      rcases hbad with h | h
      · exact absurd h hm
      · exact h
    rw [if_pos hx]

/-- C3, an instance: `-v -offset -512`; the value -512 is stored as 4294966784. -/
theorem invalid_offset_exit_witness :
    main (fun _ => none) [['-', 'v'], ['-', 'o', 'f', 'f', 's', 'e', 't'], ['-', '5', '1', '2']]
        = some (Outcome.exit (-1)
            (([] : List Msg) ++ [if toUInt32 (atoi ['-', '5', '1', '2']) % 512 ≠ 0
                  then Msg.invalidMultiple (toUInt32 (atoi ['-', '5', '1', '2']))
                  else Msg.invalidRange (toUInt32 (atoi ['-', '5', '1', '2']))]) []
            (fun _ => none))
      ∧ ∀ i : Int, -2147483648 ≤ i → i < 0 → toUInt32 i > 32768 :=
  invalid_offset_exit (fun _ => none)
    [['-', 'v'], ['-', 'o', 'f', 'f', 's', 'e', 't'], ['-', '5', '1', '2']] 1
    { vars := { Vars.init with verbose := true }, argc := 3,
      argv := ArgPtr.entry [['-', 'o', 'f', 'f', 's', 'e', 't'], ['-', '5', '1', '2']],
      out := [] }
    { optNum := OFFSET, argc := 1, argv := ArgPtr.entry [],
      optValPtr := some ['-', '5', '1', '2'] }
    ['-', '5', '1', '2'] (by decide) (by decide) (by decide) rfl rfl (by decide)

/-- C9: started with no argument `main` prints the help text and ends with status 0;
and if the option loop, after any number of completed rounds, meets an `H` option, a
value-taking option whose value is missing, a bare token or an option that matches
no table entry (`GetOptVal` returns `H`, `MISSINGVALUE`, `NOOPTION` or `NOTFOUND`),
then `main` ends right there with status 0 and the help text as the last thing
printed, with no file access and the file system unchanged; the status is not -1. -/
theorem help_exit (fs : FileSystem) (args : List CStr) (n : Nat) (s : LoopState) (r : OptVal)
    (hr : rounds n (LoopState.init args) = some s) (hgt : s.argc - 1 > 0)
    (hg : GetOptVal (s.argc - 1) s.argv = some r)
    (hclass : r.optNum = H ∨ r.optNum = MISSINGVALUE ∨ r.optNum = NOOPTION
      ∨ r.optNum = NOTFOUND) :
    main fs [] = some (Outcome.exit 0 [Msg.helpText] [] fs)
      ∧ (∃ out, main fs args = some (Outcome.exit 0 (out ++ [Msg.helpText]) [] fs))
      ∧ ∀ out io fs1, main fs args ≠ some (Outcome.exit (-1) out io fs1) := by
  have hmain : ∃ out, main fs args = some (Outcome.exit 0 (out ++ [Msg.helpText]) [] fs) := by
    have key : ∃ out, loopBody { s with argc := s.argc - 1 }
        = Round.stop (Parsed.exit 0 (out ++ [Msg.helpText])) := by
      unfold loopBody
      simp only [hg]
      have h0 : ¬ r.optNum = PROGNAME := by
        rcases hclass with h | h | h | h <;> rw [h] <;> decide
      have h1 : ¬ r.optNum = FSNAME := by
        rcases hclass with h | h | h | h <;> rw [h] <;> decide
      have h2 : ¬ r.optNum = IMAGENAME := by
        rcases hclass with h | h | h | h <;> rw [h] <;> decide
      have h3 : ¬ r.optNum = OFFSET := by
        rcases hclass with h | h | h | h <;> rw [h] <;> decide
      have h4 : ¬ r.optNum = FILLCHAR := by
        rcases hclass with h | h | h | h <;> rw [h] <;> decide
      have h5 : ¬ r.optNum = V := by
        rcases hclass with h | h | h | h <;> rw [h] <;> decide
      rw [if_neg h0, if_neg h1, if_neg h2, if_neg h3, if_neg h4, if_neg h5]
      by_cases h6 : r.optNum = H
      · rw [if_pos h6]; exact ⟨s.out, rfl⟩
      rw [if_neg h6]
      by_cases h7 : r.optNum = MISSINGVALUE
      · rw [if_pos h7]; exact ⟨_, rfl⟩
      rw [if_neg h7]
      by_cases h8 : r.optNum = NOOPTION
      · rw [if_pos h8]; exact ⟨_, rfl⟩
      rw [if_neg h8]
      by_cases h9 : r.optNum = NOTFOUND
      · rw [if_pos h9]; exact ⟨_, rfl⟩
      rcases hclass with h | h | h | h
      · exact absurd h h6
      · exact absurd h h7
      · exact absurd h h8
      · exact absurd h h9
    obtain ⟨out, hout⟩ := key
    exact ⟨out, main_of_stop fs hr hgt hout⟩
  refine ⟨rfl, hmain, ?_⟩
  obtain ⟨out, hout⟩ := hmain
  intro out1 io fs1 h
  rw [hout] at h
  injection h with h
  injection h with h
  exact absurd h (by decide)

/-- C9, an instance: `-fs a /?` stops at the unknown option `/?`. -/
theorem help_exit_witness :
    main (fun _ => none) [] = some (Outcome.exit 0 [Msg.helpText] [] (fun _ => none))
      ∧ (∃ out, main (fun _ => none) [['-', 'f', 's'], ['a'], ['/', '?']]
          = some (Outcome.exit 0 (out ++ [Msg.helpText]) [] (fun _ => none)))
      ∧ ∀ out io fs1, main (fun _ => none) [['-', 'f', 's'], ['a'], ['/', '?']]
          ≠ some (Outcome.exit (-1) out io fs1) :=
  help_exit (fun _ => none) [['-', 'f', 's'], ['a'], ['/', '?']] 1
    { vars := { Vars.init with fsFileName := some ['a'] }, argc := 2,
      argv := ArgPtr.entry [['/', '?']], out := [] }
    { optNum := NOTFOUND, argc := 1, argv := ArgPtr.entry [], optValPtr := some ['?'] }
    (by decide) (by decide) (by decide) (Or.inr (Or.inr (Or.inr rfl)))

/-! ## `FormatSize` -/

theorem FormatSize_loop_eq (n : Nat) :
    FormatSize.loop (SUFFIXSZ + 1) { suffix := 0, num := n, den := 1 }
      = if n < 1024 then { suffix := 0, num := n, den := 1 }
        else if n < 1048576 then { suffix := 1, num := n, den := 1024 }
        else if n < 1073741824 then { suffix := 2, num := n, den := 1048576 }
        else { suffix := 3, num := n, den := 1073741824 } := by
  simp only [FormatSize.loop, SUFFIXSZ, suffixes, ONEKILOBYTE, List.length_cons, List.length_nil]
  split_ifs <;> first | rfl | omega

theorem FormatSize_isSome {n : Nat} (h : n < 1073741824) : ∃ t, FormatSize n = some t := by
  unfold FormatSize
  rw [FormatSize_loop_eq]
  split_ifs
  · exact ⟨_, rfl⟩
  · exact ⟨_, rfl⟩
  · exact ⟨_, rfl⟩

/-- C10, the failing input: for a size of 2^30 bytes the scaling loop of `FormatSize`
runs three times, the suffix index becomes 3 and `suffixes[3]` lies outside the
three-entry table. -/
theorem FormatSize_gigabyte_suffix :
    (FormatSize.loop (SUFFIXSZ + 1) { suffix := 0, num := 1073741824, den := 1 }).suffix = 3
      ∧ suffixes.get? 3 = none ∧ FormatSize 1073741824 = none := by
  decide

/-! ## Reading the input files -/

theorem FileSize_eq_zero_of_unreadable {fs : FileSystem} {name : Option CStr}
    (h : Unreadable fs name) : FileSize fs name = 0 := by
  rcases h with rfl | ⟨p, rfl, h | h⟩
  · rfl
  · simp [FileSize, h]
  · simp [FileSize, h]

theorem ReadBinaryFile_of_unreadable {fs : FileSystem} {name : Option CStr}
    (buf : Option (List uchar)) (h : Unreadable fs name) :
    ReadBinaryFile fs name buf = (0, buf) := by
  have h0 := FileSize_eq_zero_of_unreadable h
  cases name with
  | none => rfl
  | some p => simp [ReadBinaryFile, h0]

theorem ReadBinaryFile_events_noWrite (fs : FileSystem) (name : Option CStr) :
    NoWrite (ReadBinaryFile.events fs name) := by
  intro nm data h
  unfold ReadBinaryFile.events at h
  cases name with
  | none => simp at h
  | some p =>
    simp only at h
    split_ifs at h <;> simp at h

theorem ReadBinaryFile_of_file {fs : FileSystem} {p : CStr} {content : List uchar}
    (buf : Option (List uchar)) (hf : fs p = some content)
    (hne : content.length % 4294967296 ≠ 0) :
    ReadBinaryFile fs (some p) buf
      = (content.length % 4294967296, some (content.take (content.length % 4294967296))) := by
  simp [ReadBinaryFile, FileSize, hf, hne]

theorem ReadBinaryFile_nonzero {fs : FileSystem} {name : Option CStr}
    {buf data : Option (List uchar)} {len : Nat}
    (h : ReadBinaryFile fs name buf = (len, data)) (hlen : len ≠ 0) :
    ∃ p content, name = some p ∧ fs p = some content ∧ content ≠ []
      ∧ len = content.length % 4294967296 ∧ data = some (content.take len) := by
  cases name with
  | none =>
    simp only [ReadBinaryFile, Prod.mk.injEq] at h
    exact absurd h.1.symm hlen
  | some p =>
    cases hf : fs p with
    | none =>
      simp only [ReadBinaryFile, FileSize, hf, ne_eq, not_true, if_false, Prod.mk.injEq] at h
      exact absurd h.1.symm hlen
    | some content =>
      by_cases hz : content.length % 4294967296 = 0
      · simp only [ReadBinaryFile, FileSize, hf, hz, ne_eq, not_true, if_false,
          Prod.mk.injEq] at h
        exact absurd h.1.symm hlen
      · rw [ReadBinaryFile_of_file buf hf hz] at h
        simp only [Prod.mk.injEq] at h
        refine ⟨p, content, rfl, hf, ?_, h.1.symm, ?_⟩
        · intro hc; rw [hc] at hz; exact hz rfl
        · rw [← h.1]; exact h.2.symm

theorem ReadBinaryFile_of_size_zero {fs : FileSystem} {name : Option CStr}
    (buf : Option (List uchar)) (h : FileSize fs name = 0) :
    ReadBinaryFile fs name buf = (0, buf) := by
  cases name with
  | none => rfl
  | some p => simp [ReadBinaryFile, h]

theorem mergeFiles_prog_unreadable (fs : FileSystem) (vars : Vars) (out : List Msg)
    (h : FileSize fs vars.progFileName = 0) :
    ∃ out1 io, mergeFiles fs vars out = Outcome.exit (-1) out1 io fs ∧ NoWrite io := by
  unfold mergeFiles
  rw [ReadBinaryFile_of_size_zero none h]
  exact ⟨_, _, rfl, ReadBinaryFile_events_noWrite fs _⟩

theorem noWrite_append {a b : List IOEvent} (ha : NoWrite a) (hb : NoWrite b) :
    NoWrite (a ++ b) := by
  intro nm data h
  rcases List.mem_append.1 h with h | h
  · exact ha nm data h
  · exact hb nm data h

theorem mergeFiles_fs_unreadable (fs : FileSystem) (vars : Vars) (out : List Msg)
    (hprog : FileSize fs vars.progFileName ≠ 0)
    (hverb : vars.verbose = true → FileSize fs vars.progFileName < 1073741824)
    (h : Unreadable fs vars.fsFileName) :
    ∃ out1 io, mergeFiles fs vars out = Outcome.exit (-1) out1 io fs ∧ NoWrite io := by
  have hread : (ReadBinaryFile fs vars.progFileName none).1 = FileSize fs vars.progFileName := by
    cases hn : vars.progFileName with
    | none => rw [hn] at hprog; exact absurd rfl hprog
    | some p =>
      rw [hn] at hprog
      simp [ReadBinaryFile, hprog]
  unfold mergeFiles
  rw [ReadBinaryFile_of_unreadable none h]
  cases hrd : ReadBinaryFile fs vars.progFileName none with
  | mk progSize progImage =>
    rw [hrd] at hread
    simp only at hread
    subst hread
    simp only [hprog, if_false]
    cases hvb : vars.verbose with
    | false =>
      exact ⟨_, _, rfl,
        noWrite_append (ReadBinaryFile_events_noWrite fs _) (ReadBinaryFile_events_noWrite fs _)⟩
    | true =>
      obtain ⟨t, ht⟩ := FormatSize_isSome (hverb hvb)
      simp only [if_true, ht, Option.map_some']
      exact ⟨_, _, rfl,
        noWrite_append (ReadBinaryFile_events_noWrite fs _) (ReadBinaryFile_events_noWrite fs _)⟩

/-- C5 (as amended): in a configuration that the option loop accepts, if the program
image path or the filesystem image path is absent, names no existing file or names
an empty file, then `ReadBinaryFile` returns 0 for it and `main` returns status -1
with no write access and the file system unchanged (with `-v` and a readable program
image, for a program image below 2^30 bytes).  `ReadBinaryFile` returns a non-zero
length only for an existing non-empty file; that length is the file size modulo
2^32 and the buffer holds that many leading bytes of the file. -/
theorem unreadable_input_exit (fs : FileSystem) (args : List CStr) (vars : Vars)
    (out : List Msg) (hp : parseArgs args = some (Parsed.done vars out))
    (hbad : Unreadable fs vars.progFileName ∨ Unreadable fs vars.fsFileName)
    (hverb : vars.verbose = true → FileSize fs vars.progFileName < 1073741824) :
    (∃ out1 io, main fs args = some (Outcome.exit (-1) out1 io fs) ∧ NoWrite io)
      ∧ (∀ name buf, Unreadable fs name → ReadBinaryFile fs name buf = (0, buf))
      ∧ ∀ name buf len data, ReadBinaryFile fs name buf = (len, data) → len ≠ 0 →
          ∃ p content, name = some p ∧ fs p = some content ∧ content ≠ []
            ∧ len = content.length % 4294967296 ∧ data = some (content.take len)
            ∧ (content.length < 4294967296 → len = content.length ∧ data = some content) := by
  refine ⟨?_, fun name buf h => ReadBinaryFile_of_unreadable buf h, ?_⟩
  · unfold main
    rw [hp]
    simp only [Option.some.injEq, Outcome.exit.injEq]
    have key : ∃ out1 io, mergeFiles fs vars out = Outcome.exit (-1) out1 io fs ∧ NoWrite io := by
      by_cases hz : FileSize fs vars.progFileName = 0
      · exact mergeFiles_prog_unreadable fs vars out hz
      · rcases hbad with h | h
        · exact absurd (FileSize_eq_zero_of_unreadable h) hz
        · exact mergeFiles_fs_unreadable fs vars out hz hverb h
    obtain ⟨out1, io, h, hw⟩ := key
    exact ⟨out1, io, h, hw⟩
  · intro name buf len data h hlen
    obtain ⟨p, content, h1, h2, h3, h4, h5⟩ := ReadBinaryFile_nonzero h hlen
    refine ⟨p, content, h1, h2, h3, h4, h5, ?_⟩
    intro hlt
    have hl : len = content.length := by rw [h4]; exact Nat.mod_eq_of_lt hlt
    refine ⟨hl, ?_⟩
    rw [h5, hl, List.take_length]

/-- C5, an instance: `-fs a` with no `-prog` option and no file at all. -/
theorem unreadable_input_exit_witness :
    (∃ out1 io, main (fun _ => none) [['-', 'f', 's'], ['a']]
        = some (Outcome.exit (-1) out1 io (fun _ => none)) ∧ NoWrite io)
      ∧ (∀ name buf, Unreadable (fun _ => none) name
          → ReadBinaryFile (fun _ => none) name buf = (0, buf))
      ∧ ∀ name buf len data, ReadBinaryFile (fun _ => none) name buf = (len, data) → len ≠ 0 →
          ∃ p content, name = some p ∧ (fun _ => none : FileSystem) p = some content
            ∧ content ≠ [] ∧ len = content.length % 4294967296
            ∧ data = some (content.take len)
            ∧ (content.length < 4294967296 → len = content.length ∧ data = some content) :=
  unreadable_input_exit (fun _ => none) [['-', 'f', 's'], ['a']]
    { Vars.init with fsFileName := some ['a'] } [] (by decide) (Or.inl (Or.inl rfl))
    (by intro h; exact absurd h (by decide))

/-- C5, as stated, fails: for an existing file of 2^32 + 1 bytes `ReadBinaryFile`
returns the non-zero length 1, which is not the size of the file. -/
theorem ReadBinaryFile_length_counterexample :
    (ReadBinaryFile (fun _ => some (List.replicate 4294967297 0)) (some ['a']) none).1 = 1
      ∧ (List.replicate 4294967297 (0 : uchar)).length = 4294967297 := by
  constructor
  · rw [@ReadBinaryFile_of_file (fun _ => some (List.replicate 4294967297 0)) ['a']
      (List.replicate 4294967297 0) none rfl (by rw [List.length_replicate]; decide)]
    rw [List.length_replicate]
  · rw [List.length_replicate]

/-! ## The accepted offsets -/

/-- C4, the failing input: `-offset 0` passes both checks of the `OFFSET` case, so the
option loop ends normally with a placement offset of 0 bytes, below the documented
minimum of 512. -/
theorem offset_zero_accepted :
    parseArgs [['-', 'o', 'f', 'f', 's', 'e', 't'], ['0']]
      = some (Parsed.done { Vars.init with offset := 0 } []) := by
  decide

/-! ## Composing the image -/

theorem memcpy_length {dst src r : List uchar} {off n : Nat}
    (h : memcpy dst off src n = some r) : r.length = dst.length := by
  unfold memcpy at h
  split_ifs at h with hb
  injection h with h
  subst h
  simp only [List.length_append, List.length_take, List.length_drop]
  omega

theorem composeImage_size {progImage fsImage : List uchar} {progSize fsSize offset : Nat}
    {fillChar : Option CStr} {sz : Nat} {image : List uchar}
    (h : composeImage progImage fsImage progSize fsSize offset fillChar = some (sz, image)) :
    sz = (offset + fsSize) % 4294967296 ∧ image.length = sz := by
  unfold composeImage at h
  cases hc : fillByte fillChar with
  | none => simp [hc] at h
  | some c =>
    simp only [hc] at h
    cases h1 : memcpy (List.replicate ((offset + fsSize) % 4294967296) c) 0 progImage
        progSize with
    | none => simp [h1] at h
    | some image1 =>
      simp only [h1] at h
      cases h2 : memcpy image1 offset fsImage fsSize with
      | none => simp [h2] at h
      | some image2 =>
        simp only [h2, Option.some.injEq, Prod.mk.injEq] at h
        obtain ⟨hsz, himg⟩ := h
        subst himg
        refine ⟨hsz.symm, ?_⟩
        rw [memcpy_length h2, memcpy_length h1, List.length_replicate, hsz]

theorem composeImage_eq {P F : List uchar} {offset : Nat} {fillChar : Option CStr} {c : uchar}
    (hc : fillByte fillChar = some c) (hno : offset + F.length < 4294967296)
    (hP : P.length ≤ offset + F.length) :
    composeImage P F P.length F.length offset fillChar
      = some (offset + F.length,
          (P ++ List.replicate (offset + F.length - P.length) c).take offset ++ F) := by
  unfold composeImage
  rw [hc, Nat.mod_eq_of_lt hno]
  have h1 : memcpy (List.replicate (offset + F.length) c) 0 P P.length
      = some (P ++ List.replicate (offset + F.length - P.length) c) := by
    unfold memcpy
    rw [if_pos ⟨by rw [List.length_replicate]; omega, le_refl _⟩]
    simp
  simp only [h1]
  have h2 : memcpy (P ++ List.replicate (offset + F.length - P.length) c) offset F F.length
      = some ((P ++ List.replicate (offset + F.length - P.length) c).take offset ++ F) := by
    unfold memcpy
    rw [if_pos ⟨by rw [List.length_append, List.length_replicate]; omega, le_refl _⟩]
    rw [List.take_length, List.drop_of_length_le (by
      rw [List.length_append, List.length_replicate]; omega)]
    simp
  simp only [h2]

theorem composeImage_eq_of_le {P F : List uchar} {offset : Nat} {fillChar : Option CStr}
    {c : uchar} (hc : fillByte fillChar = some c) (hno : offset + F.length < 4294967296)
    (hP : P.length ≤ offset) :
    composeImage P F P.length F.length offset fillChar
      = some (offset + F.length, P ++ List.replicate (offset - P.length) c ++ F) := by
  rw [composeImage_eq hc hno (by omega)]
  have hmin : min (offset - P.length) (offset + F.length - P.length) = offset - P.length := by
    omega
  rw [List.take_append_eq_append_take, List.take_of_length_le hP, List.take_replicate, hmin]

theorem composeImage_none_of_small {P F : List uchar} {progSize fsSize offset : Nat}
    {fillChar : Option CStr}
    (h : (offset + fsSize) % 4294967296 < progSize) :
    composeImage P F progSize fsSize offset fillChar = none := by
  unfold composeImage
  cases hc : fillByte fillChar with
  | none => rfl
  | some c =>
    simp only
    have h1 : memcpy (List.replicate ((offset + fsSize) % 4294967296) c) 0 P progSize
        = none := by
      unfold memcpy
      rw [if_neg]
      rw [List.length_replicate]
      omega
    simp only [h1]
/-! ## The file part of `main` -/

theorem mergeFiles_of_read (fs : FileSystem) (vars : Vars) (out : List Msg) {p f : CStr}
    {P F : List uchar}
    (hp : vars.progFileName = some p) (hfp : fs p = some P) (hPn : P.length % 4294967296 ≠ 0)
    (hf : vars.fsFileName = some f) (hff : fs f = some F) (hFn : F.length % 4294967296 ≠ 0)
    (hverb : vars.verbose = true →
      P.length % 4294967296 < 1073741824 ∧ F.length % 4294967296 < 1073741824
        ∧ (vars.offset + F.length % 4294967296) % 4294967296 < 1073741824) :
    ∃ out1, mergeFiles fs vars out =
      match composeImage (P.take (P.length % 4294967296)) (F.take (F.length % 4294967296))
          (P.length % 4294967296) (F.length % 4294967296) vars.offset vars.fillChar with
      | none => Outcome.undefined
      | some (imageSize, image) =>
        match vars.imageFileName with
        | none => Outcome.undefined
        | some ip =>
          Outcome.exit 0 out1
            (ReadBinaryFile.events fs (some p) ++ ReadBinaryFile.events fs (some f)
              ++ [IOEvent.write ip (image.take imageSize)] ++ FileSize.events (some ip))
            (WriteBinaryFile fs ip image imageSize) := by
  unfold mergeFiles
  rw [hp, hf, ReadBinaryFile_of_file none hfp hPn, ReadBinaryFile_of_file none hff hFn]
  simp only [hPn, hFn, if_false, Option.getD_some]
  cases hc : composeImage (P.take (P.length % 4294967296)) (F.take (F.length % 4294967296))
      (P.length % 4294967296) (F.length % 4294967296) vars.offset vars.fillChar with
  | none =>
    refine ⟨[], ?_⟩
    cases hvb : vars.verbose with
    | false => simp
    | true =>
      obtain ⟨h1, h2, -⟩ := hverb hvb
      obtain ⟨t1, ht1⟩ := FormatSize_isSome h1
      obtain ⟨t2, ht2⟩ := FormatSize_isSome h2
      simp [ht1, ht2]
  | some r =>
    obtain ⟨imageSize, image⟩ := r
    have hsz := (composeImage_size hc).1
    cases hi : vars.imageFileName with
    | none =>
      refine ⟨[], ?_⟩
      cases hvb : vars.verbose with
      | false => simp
      | true =>
        obtain ⟨h1, h2, -⟩ := hverb hvb
        obtain ⟨t1, ht1⟩ := FormatSize_isSome h1
        obtain ⟨t2, ht2⟩ := FormatSize_isSome h2
        simp [ht1, ht2]
    | some ip =>
      cases hvb : vars.verbose with
      | false => exact ⟨_, by simp; rfl⟩
      | true =>
        obtain ⟨h1, h2, h3⟩ := hverb hvb
        obtain ⟨t1, ht1⟩ := FormatSize_isSome h1
        obtain ⟨t2, ht2⟩ := FormatSize_isSome h2
        rw [← hsz] at h3
        obtain ⟨t3, ht3⟩ := FormatSize_isSome h3
        exact ⟨_, by simp [ht1, ht2, ht3]; rfl⟩
/-! ## Parsing the usual command line -/

theorem optionLoop_next (fuel : Nat) (s s1 : LoopState) (hgt : s.argc - 1 > 0)
    (hb : loopBody { s with argc := s.argc - 1 } = Round.next s1) :
    optionLoop (fuel + 1) s = optionLoop fuel s1 := by
  conv_lhs => unfold optionLoop
  simp only [hgt, if_true, hb]

theorem optionLoop_done (fuel : Nat) (s : LoopState) (h : ¬ s.argc - 1 > 0) :
    optionLoop fuel s = some (Parsed.done s.vars s.out) := by
  unfold optionLoop
  simp only [h, if_false]

theorem GetOptVal_separate (a : Int) (i : Nat) (name v : CStr) (rest : List CStr)
    (hname : g_optTable.get? i = some name) (hval : takesValue name = true) :
    GetOptVal (a + 1) (ArgPtr.entry (('-' :: name) :: v :: rest))
      = some { optNum := (i : Int), argc := a, argv := ArgPtr.entry rest,
               optValPtr := some v } := by
  rw [GetOptVal_delim (a + 1) '-' name (v :: rest) (Or.inl rfl),
    optionResult_separate v rest hname hval rfl]

theorem loopBody_prog (vars : Vars) (a : Int) (v : CStr) (rest : List CStr) (out : List Msg) :
    loopBody { vars := vars, argc := a + 1,
               argv := ArgPtr.entry (['-', 'p', 'r', 'o', 'g'] :: v :: rest), out := out }
      = Round.next { vars := { vars with progFileName := some v }, argc := a,
                     argv := ArgPtr.entry rest, out := out } := by
  unfold loopBody
  simp only [GetOptVal_separate a 0 ['p', 'r', 'o', 'g'] v rest (by decide) (by decide)]
  rfl

theorem loopBody_fs (vars : Vars) (a : Int) (v : CStr) (rest : List CStr) (out : List Msg) :
    loopBody { vars := vars, argc := a + 1,
               argv := ArgPtr.entry (['-', 'f', 's'] :: v :: rest), out := out }
      = Round.next { vars := { vars with fsFileName := some v }, argc := a,
                     argv := ArgPtr.entry rest, out := out } := by
  unfold loopBody
  simp only [GetOptVal_separate a 1 ['f', 's'] v rest (by decide) (by decide)]
  rfl

theorem loopBody_image (vars : Vars) (a : Int) (v : CStr) (rest : List CStr) (out : List Msg) :
    loopBody { vars := vars, argc := a + 1,
               argv := ArgPtr.entry (['-', 'i', 'm', 'a', 'g', 'e'] :: v :: rest), out := out }
      = Round.next { vars := { vars with imageFileName := some v }, argc := a,
                     argv := ArgPtr.entry rest, out := out } := by
  unfold loopBody
  simp only [GetOptVal_separate a 2 ['i', 'm', 'a', 'g', 'e'] v rest (by decide) (by decide)]
  rfl

theorem loopBody_offset (vars : Vars) (a : Int) (v : CStr) (rest : List CStr) (out : List Msg)
    (h512 : toUInt32 (atoi v) % 512 = 0) (hmax : toUInt32 (atoi v) ≤ 32768) :
    loopBody { vars := vars, argc := a + 1,
               argv := ArgPtr.entry (['-', 'o', 'f', 'f', 's', 'e', 't'] :: v :: rest),
               out := out }
      = Round.next { vars := { vars with offset := toUInt32 (atoi v) * 1024 },
                     argc := a, argv := ArgPtr.entry rest, out := out } := by
  unfold loopBody
  simp only [GetOptVal_separate a 3 ['o', 'f', 'f', 's', 'e', 't'] v rest (by decide) (by decide)]
  have h0 : ¬ ((3 : Nat) : Int) = PROGNAME := by decide
  have h1 : ¬ ((3 : Nat) : Int) = FSNAME := by decide
  have h2 : ¬ ((3 : Nat) : Int) = IMAGENAME := by decide
  have h3 : ((3 : Nat) : Int) = OFFSET := by decide
  have hm : ¬ toUInt32 (atoi v) > MAXOFFSET := by simp only [MAXOFFSET]; omega
  have hmod : toUInt32 (atoi v) * ONEKILOBYTE % 4294967296 = toUInt32 (atoi v) * 1024 := by
    simp only [ONEKILOBYTE]; omega
  rw [if_neg h0, if_neg h1, if_neg h2, if_pos h3]
  simp only [h512, ne_eq, not_true, if_false, hm, hmod]

theorem loopBody_fillchar (vars : Vars) (a : Int) (v : CStr) (rest : List CStr)
    (out : List Msg) :
    loopBody { vars := vars, argc := a + 1,
               argv := ArgPtr.entry (['-', 'f', 'i', 'l', 'l', 'c', 'h', 'a', 'r'] :: v :: rest),
               out := out }
      = Round.next { vars := { vars with fillChar := some v }, argc := a,
                     argv := ArgPtr.entry rest, out := out } := by
  unfold loopBody
  simp only [GetOptVal_separate a 4 ['f', 'i', 'l', 'l', 'c', 'h', 'a', 'r'] v rest
    (by decide) (by decide)]
  rfl

/-- The usual command line `-prog p -fs f -image o -offset v` plus further arguments
`rest`: after four rounds the loop is in the state with the three paths and the
offset set. -/
theorem optionLoop_usual (fuel : Nat) (p f o v : CStr) (rest : List CStr)
    (h512 : toUInt32 (atoi v) % 512 = 0) (hmax : toUInt32 (atoi v) ≤ 32768) :
    optionLoop (fuel + 4)
        (LoopState.init (['-', 'p', 'r', 'o', 'g'] :: p :: ['-', 'f', 's'] :: f
          :: ['-', 'i', 'm', 'a', 'g', 'e'] :: o :: ['-', 'o', 'f', 'f', 's', 'e', 't'] :: v
          :: rest))
      = optionLoop fuel
          { vars := { progFileName := some p, fsFileName := some f, imageFileName := some o,
                      fillChar := some [], verbose := false,
                      offset := toUInt32 (atoi v) * 1024 },
            argc := (rest.length : Int) + 1, argv := ArgPtr.entry rest, out := [] } := by
  have e : ∀ (n : Int), n + 1 + 1 - 1 = n + 1 := fun n => by omega
  have g : ∀ (n : Nat), ((n : Int) + 1 + 1) - 1 > 0 := fun n => by omega
  rw [optionLoop_next (fuel + 3) _ _ (by simp only [LoopState.init, List.length_cons]; omega)
    (by
      simp only [LoopState.init, List.length_cons, Nat.cast_add, Nat.cast_one]
      rw [show (rest.length : Int) + 1 + 1 + 1 + 1 + 1 + 1 + 1 + 1 + 1 - 1
        = ((rest.length : Int) + 1 + 1 + 1 + 1 + 1 + 1 + 1) + 1 by omega]
      exact loopBody_prog _ _ _ _ _)]
  rw [optionLoop_next (fuel + 2) _ _ (by simp only; omega)
    (by
      simp only
      rw [show (rest.length : Int) + 1 + 1 + 1 + 1 + 1 + 1 + 1 - 1
        = ((rest.length : Int) + 1 + 1 + 1 + 1 + 1) + 1 by omega]
      exact loopBody_fs _ _ _ _ _)]
  rw [optionLoop_next (fuel + 1) _ _ (by simp only; omega)
    (by
      simp only
      rw [show (rest.length : Int) + 1 + 1 + 1 + 1 + 1 - 1
        = ((rest.length : Int) + 1 + 1 + 1) + 1 by omega]
      exact loopBody_image _ _ _ _ _)]
  rw [optionLoop_next fuel _ _ (by simp only; omega)
    (by
      simp only
      rw [show (rest.length : Int) + 1 + 1 + 1 - 1
        = ((rest.length : Int) + 1) + 1 by omega]
      exact loopBody_offset _ _ _ _ _ h512 hmax)]
  rfl

theorem parseArgs_usual (p f o v : CStr)
    (h512 : toUInt32 (atoi v) % 512 = 0) (hmax : toUInt32 (atoi v) ≤ 32768) :
    parseArgs [['-', 'p', 'r', 'o', 'g'], p, ['-', 'f', 's'], f,
        ['-', 'i', 'm', 'a', 'g', 'e'], o, ['-', 'o', 'f', 'f', 's', 'e', 't'], v]
      = some (Parsed.done
          { progFileName := some p, fsFileName := some f, imageFileName := some o,
            fillChar := some [], verbose := false, offset := toUInt32 (atoi v) * 1024 } []) := by
  rw [parseArgs_eq_optionLoop (List.cons_ne_nil _ _)]
  have h := optionLoop_usual 5 p f o v [] h512 hmax
  simp only [List.length_cons, List.length_nil] at h ⊢
  rw [h, optionLoop_done _ _ (by simp)]

theorem parseArgs_usual_fill (p f o v x : CStr)
    (h512 : toUInt32 (atoi v) % 512 = 0) (hmax : toUInt32 (atoi v) ≤ 32768) :
    parseArgs [['-', 'p', 'r', 'o', 'g'], p, ['-', 'f', 's'], f,
        ['-', 'i', 'm', 'a', 'g', 'e'], o, ['-', 'o', 'f', 'f', 's', 'e', 't'], v,
        ['-', 'f', 'i', 'l', 'l', 'c', 'h', 'a', 'r'], x]
      = some (Parsed.done
          { progFileName := some p, fsFileName := some f, imageFileName := some o,
            fillChar := some x, verbose := false, offset := toUInt32 (atoi v) * 1024 } []) := by
  rw [parseArgs_eq_optionLoop (List.cons_ne_nil _ _)]
  have h := optionLoop_usual 7 p f o v [['-', 'f', 'i', 'l', 'l', 'c', 'h', 'a', 'r'], x]
    h512 hmax
  simp only [List.length_cons, List.length_nil] at h ⊢
  rw [h]
  rw [optionLoop_next 6 _ _ (by simp)
    (by
      simp only [Nat.cast_zero, Int.zero_add]
      rw [show ((0 : Nat) + 1 + 1 : Nat) = 2 by rfl]
      rw [show (((2 : Nat) : Int) + 1 - 1) = (1 : Int) + 1 by decide]
      exact loopBody_fillchar _ _ _ _ _)]
  rw [optionLoop_done _ _ (by simp)]
/-! ## The layout of the composed image -/

theorem mod_ne_zero_of_small {l : List uchar} (hne : l ≠ []) (hlt : l.length < 4294967296) :
    l.length % 4294967296 ≠ 0 := by
  rw [Nat.mod_eq_of_lt hlt]
  exact fun h => hne (List.length_eq_zero.1 h)

/-- C1 (as amended): let the option loop accept the arguments with placement offset
`k * 1024`, program path `p`, filesystem path `f` and fill byte `c`, and let `p` and `f`
hold the non-empty images `P` and `F`.  If `len P <= k * 1024` and
`k * 1024 + len F < 2 ^ 32`, then `main` reads exactly `P` and `F` and the image composed
from them (lines 170-174) is `P ++ c ... c ++ F`: bytes `[0, len P)` are `P`, bytes
`[k * 1024, k * 1024 + len F)` are `F`, every byte between is `c`.  With an `-image`
path (and, with `-v`, `k * 1024 + len F < 2 ^ 30`) `main` returns 0 and writes exactly
this image. -/
theorem composed_image_layout (fs : FileSystem) (args : List CStr) (vars : Vars)
    (out : List Msg) (k : Nat) (p f : CStr) (P F : List uchar) (c : uchar)
    (hp : parseArgs args = some (Parsed.done vars out)) (hk : vars.offset = k * 1024)
    (hprog : vars.progFileName = some p) (hP : fs p = some P) (hPne : P ≠ [])
    (hfs : vars.fsFileName = some f) (hF : fs f = some F) (hFne : F ≠ [])
    (hfill : fillByte vars.fillChar = some c)
    (hle : P.length ≤ k * 1024) (hno : k * 1024 + F.length < 4294967296) :
    ∃ image,
      ReadBinaryFile fs vars.progFileName none = (P.length, some P)
        ∧ ReadBinaryFile fs vars.fsFileName none = (F.length, some F)
        ∧ composeImage P F P.length F.length vars.offset vars.fillChar
            = some (k * 1024 + F.length, image)
        ∧ image = P ++ List.replicate (k * 1024 - P.length) c ++ F
        ∧ image.length = k * 1024 + F.length
        ∧ image.take P.length = P
        ∧ image.drop (k * 1024) = F
        ∧ (∀ i, P.length ≤ i → i < k * 1024 → image.get? i = some c)
        ∧ ∀ ip, vars.imageFileName = some ip →
            (vars.verbose = true → k * 1024 + F.length < 1073741824) →
            ∃ out1 io,
              main fs args
                  = some (Outcome.exit 0 out1 io (WriteBinaryFile fs ip image image.length))
                ∧ IOEvent.write ip image ∈ io := by
  have hPlt : P.length < 4294967296 := by omega
  have hFlt : F.length < 4294967296 := by omega
  have hPm := Nat.mod_eq_of_lt hPlt
  have hFm := Nat.mod_eq_of_lt hFlt
  have hrP := ReadBinaryFile_of_file none hP (mod_ne_zero_of_small hPne hPlt)
  have hrF := ReadBinaryFile_of_file none hF (mod_ne_zero_of_small hFne hFlt)
  rw [hPm, List.take_length] at hrP
  rw [hFm, List.take_length] at hrF
  have hlen : (P ++ List.replicate (k * 1024 - P.length) c ++ F).length
      = k * 1024 + F.length := by
    simp only [List.length_append, List.length_replicate]
    omega
  refine ⟨P ++ List.replicate (k * 1024 - P.length) c ++ F, by rw [hprog]; exact hrP,
    by rw [hfs]; exact hrF, by rw [hk]; exact composeImage_eq_of_le hfill hno hle,
    rfl, hlen, ?_, ?_, ?_, ?_⟩
  · rw [List.append_assoc, List.take_left']
    rfl
  · rw [List.drop_left']
    simp only [List.length_append, List.length_replicate]
    omega
  · intro i h1 h2
    rw [List.append_assoc, List.get?_eq_getElem?, List.getElem?_append_right h1,
      List.getElem?_append_left (by rw [List.length_replicate]; omega)]
    rw [List.getElem?_replicate]
    rw [if_pos (by omega)]
  · intro ip himg hverb
    obtain ⟨out1, hm⟩ := mergeFiles_of_read fs vars out hprog hP
      (mod_ne_zero_of_small hPne hPlt) hfs hF (mod_ne_zero_of_small hFne hFlt)
      (by
        intro hv
        have := hverb hv
        rw [hPm, hFm, hk, Nat.mod_eq_of_lt hno]
        omega)
    rw [hPm, hFm, List.take_length, List.take_length, hk,
      composeImage_eq_of_le hfill hno hle, himg] at hm
    simp only at hm
    have htake : List.take (k * 1024 + F.length)
        (P ++ List.replicate (k * 1024 - P.length) c ++ F)
        = P ++ List.replicate (k * 1024 - P.length) c ++ F := by
      rw [← hlen, List.take_length]
    rw [htake] at hm
    refine ⟨out1,
      ReadBinaryFile.events fs (some p) ++ ReadBinaryFile.events fs (some f)
        ++ [IOEvent.write ip (P ++ List.replicate (k * 1024 - P.length) c ++ F)]
        ++ FileSize.events (some ip), ?_, ?_⟩
    · unfold main
      rw [hp]
      simp only
      rw [hm, hlen]
    · simp

/-- C1, an instance: the 10-byte program 01..0A, the 4-byte filesystem AA BB CC DD,
`-offset 512` and the fill character 0xFF give an image of 524292 bytes with the
program at 0-9, 0xFF at 10-524287 and the filesystem at 524288-524291. -/
theorem composed_image_layout_witness :
    ∃ image,
      composeImage [1, 2, 3, 4, 5, 6, 7, 8, 9, 10] [170, 187, 204, 221] 10 4 524288
          (some [Char.ofNat 255]) = some (524292, image)
        ∧ image = [1, 2, 3, 4, 5, 6, 7, 8, 9, 10] ++ List.replicate 524278 255
            ++ [170, 187, 204, 221]
        ∧ image.take 10 = [1, 2, 3, 4, 5, 6, 7, 8, 9, 10]
        ∧ image.drop 524288 = [170, 187, 204, 221]
        ∧ (∀ i, 10 ≤ i → i < 524288 → image.get? i = some 255)
        ∧ ∃ out1 io,
            main (fun name => if name = ['p'] then some [1, 2, 3, 4, 5, 6, 7, 8, 9, 10]
                    else if name = ['f'] then some [170, 187, 204, 221] else none)
                [['-', 'p', 'r', 'o', 'g'], ['p'], ['-', 'f', 's'], ['f'],
                 ['-', 'i', 'm', 'a', 'g', 'e'], ['o'], ['-', 'o', 'f', 'f', 's', 'e', 't'],
                 ['5', '1', '2'], ['-', 'f', 'i', 'l', 'l', 'c', 'h', 'a', 'r'],
                 [Char.ofNat 255]]
              = some (Outcome.exit 0 out1 io
                  (WriteBinaryFile
                    (fun name => if name = ['p'] then some [1, 2, 3, 4, 5, 6, 7, 8, 9, 10]
                      else if name = ['f'] then some [170, 187, 204, 221] else none)
                    ['o'] image image.length))
              ∧ IOEvent.write ['o'] image ∈ io := by
  obtain ⟨image, -, -, h1, h2, -, h3, h4, h5, h6⟩ := composed_image_layout
    (fun name => if name = ['p'] then some [1, 2, 3, 4, 5, 6, 7, 8, 9, 10]
      else if name = ['f'] then some [170, 187, 204, 221] else none)
    [['-', 'p', 'r', 'o', 'g'], ['p'], ['-', 'f', 's'], ['f'],
     ['-', 'i', 'm', 'a', 'g', 'e'], ['o'], ['-', 'o', 'f', 'f', 's', 'e', 't'],
     ['5', '1', '2'], ['-', 'f', 'i', 'l', 'l', 'c', 'h', 'a', 'r'], [Char.ofNat 255]]
    { progFileName := some ['p'], fsFileName := some ['f'], imageFileName := some ['o'],
      fillChar := some [Char.ofNat 255], verbose := false,
      offset := toUInt32 (atoi ['5', '1', '2']) * 1024 }
    [] 512 ['p'] ['f'] [1, 2, 3, 4, 5, 6, 7, 8, 9, 10] [170, 187, 204, 221] 255
    (parseArgs_usual_fill ['p'] ['f'] ['o'] ['5', '1', '2'] [Char.ofNat 255]
      (by decide) (by decide))
    (by decide) rfl (by decide) (by decide) rfl (by decide) (by decide)
    (by decide) (by decide) (by decide)
  exact ⟨image, h1, h2, h3, h4, h5, h6 ['o'] rfl (by intro h; exact absurd h (by decide))⟩

theorem main_undefined_of_wrap (F : List uchar) (hF : F.length = 4261412864) :
    composeImage [1] F 1 4261412864 33554432 (some []) = none
      ∧ main (fun name => if name = ['p'] then some [1]
              else if name = ['f'] then some F else none)
          [['-', 'p', 'r', 'o', 'g'], ['p'], ['-', 'f', 's'], ['f'],
           ['-', 'i', 'm', 'a', 'g', 'e'], ['o'], ['-', 'o', 'f', 'f', 's', 'e', 't'],
           ['3', '2', '7', '6', '8']]
        = some Outcome.undefined := by
  refine ⟨composeImage_none_of_small (by decide), ?_⟩
  have hparse := parseArgs_usual ['p'] ['f'] ['o'] ['3', '2', '7', '6', '8']
    (by decide) (by decide)
  unfold main
  rw [hparse]
  simp only [Option.some.injEq]
  obtain ⟨out1, hm⟩ := @mergeFiles_of_read
    (fun name => if name = ['p'] then some [1] else if name = ['f'] then some F else none)
    { progFileName := some ['p'], fsFileName := some ['f'],
      imageFileName := some ['o'], fillChar := some [], verbose := false,
      offset := toUInt32 (atoi ['3', '2', '7', '6', '8']) * 1024 } [] ['p'] ['f'] [1] F
    rfl (if_pos rfl) (by decide) rfl
    (by beta_reduce; rw [if_neg (by decide), if_pos rfl]) (by rw [hF]; decide)
    (by intro h; exact absurd h (by decide))
  rw [hm, composeImage_none_of_small (by rw [hF]; decide)]

/-- C1, as stated, fails: with the accepted offset 32768 (33554432 bytes), the one-byte
program image `[1]` (so `len P <= k * 1024`) and a filesystem image of 2^32 - 2^25
bytes, the 32-bit sum `offset + fsSize` wraps to 0, the buffer has no room for the
program image, no image is composed and the behaviour of `main` is undefined. -/
theorem composed_image_counterexample :
    (List.replicate 4261412864 (170 : uchar)).length = 4261412864
      ∧ composeImage [1] (List.replicate 4261412864 170) 1 4261412864 33554432 (some [])
          = none
      ∧ main (fun name => if name = ['p'] then some [1]
              else if name = ['f'] then some (List.replicate 4261412864 170) else none)
          [['-', 'p', 'r', 'o', 'g'], ['p'], ['-', 'f', 's'], ['f'],
           ['-', 'i', 'm', 'a', 'g', 'e'], ['o'], ['-', 'o', 'f', 'f', 's', 'e', 't'],
           ['3', '2', '7', '6', '8']]
        = some Outcome.undefined :=
  ⟨List.length_replicate _ _,
    main_undefined_of_wrap (List.replicate 4261412864 170) (List.length_replicate _ _)⟩

/-! ## The length of the written image -/

theorem ReadBinaryFile_fst (fs : FileSystem) (name : Option CStr) (buf : Option (List uchar)) :
    (ReadBinaryFile fs name buf).1 = FileSize fs name := by
  cases name with
  | none => rfl
  | some p =>
    unfold ReadBinaryFile
    simp only
    split_ifs with h
    · rfl
    · simp only [ne_eq, not_not] at h
      exact h.symm

theorem mergeFiles_write {fs fs1 : FileSystem} {vars : Vars} {out out1 : List Msg}
    {st : Int} {io : List IOEvent} {name : CStr} {data : List uchar}
    (h : mergeFiles fs vars out = Outcome.exit st out1 io fs1)
    (hw : IOEvent.write name data ∈ io) :
    st = 0 ∧ vars.imageFileName = some name ∧ fs1 name = some data
      ∧ data.length = (vars.offset + FileSize fs vars.fsFileName) % 4294967296 := by
  unfold mergeFiles at h
  have hps := ReadBinaryFile_fst fs vars.progFileName none
  have hfs := ReadBinaryFile_fst fs vars.fsFileName none
  cases hrp : ReadBinaryFile fs vars.progFileName none with
  | mk progSize progImage =>
  cases hrf : ReadBinaryFile fs vars.fsFileName none with
  | mk fsSize fsImage =>
  rw [hrp] at h hps
  rw [hrf] at h hfs
  simp only at h hps hfs
  by_cases hp0 : progSize = 0
  · rw [if_pos hp0] at h
    injection h with _ _ hio _
    rw [← hio] at hw
    exact absurd hw (ReadBinaryFile_events_noWrite fs _ name data)
  rw [if_neg hp0] at h
  split at h
  · cases h
  rename_i out2 _
  by_cases hf0 : fsSize = 0
  · rw [if_pos hf0] at h
    injection h with _ _ hio _
    rw [← hio] at hw
    exact absurd hw (noWrite_append (ReadBinaryFile_events_noWrite fs _)
      (ReadBinaryFile_events_noWrite fs _) name data)
  rw [if_neg hf0] at h
  split at h
  · cases h
  rename_i out3 _
  split at h
  · cases h
  rename_i imageSize image hc
  obtain ⟨hsz, hlen⟩ := composeImage_size hc
  split at h
  · cases h
  rename_i imageFile hi
  split at h
  · cases h
  rename_i out5 _
  injection h with hst _ hio hfs1
  rw [← hio] at hw
  have hmem : IOEvent.write name data = IOEvent.write imageFile (image.take imageSize) := by
    rcases List.mem_append.1 hw with hw | hw
    · rcases List.mem_append.1 hw with hw | hw
      · exact absurd hw (noWrite_append (ReadBinaryFile_events_noWrite fs _)
          (ReadBinaryFile_events_noWrite fs _) name data)
      · simpa using hw
    · simp [FileSize.events] at hw
  injection hmem with hn hd
  subst hn hd
  refine ⟨hst.symm, hi, ?_, ?_⟩
  · rw [← hfs1]
    simp [WriteBinaryFile]
  · rw [List.length_take, hlen, Nat.min_self, hsz, hfs]

/-! ## Invariants of the option loop -/

theorem loopBody_next_vars {s s1 : LoopState} (h : loopBody s = Round.next s1) :
    ∃ r, GetOptVal s.argc s.argv = some r ∧
      ((r.optNum = PROGNAME ∧ s1.vars = { s.vars with progFileName := r.optValPtr })
        ∨ (r.optNum = FSNAME ∧ s1.vars = { s.vars with fsFileName := r.optValPtr })
        ∨ (r.optNum = IMAGENAME ∧ s1.vars = { s.vars with imageFileName := r.optValPtr })
        ∨ (r.optNum = OFFSET ∧ ∃ v, r.optValPtr = some v ∧ toUInt32 (atoi v) % 512 = 0
            ∧ toUInt32 (atoi v) ≤ 32768
            ∧ s1.vars = { s.vars with offset := toUInt32 (atoi v) * 1024 })
        ∨ (r.optNum = FILLCHAR ∧ s1.vars = { s.vars with fillChar := r.optValPtr })
        ∨ (r.optNum = V ∧ s1.vars = { s.vars with verbose := true })
        ∨ s1.vars = s.vars) := by
  unfold loopBody at h
  cases hg : GetOptVal s.argc s.argv with
  | none => simp [hg] at h
  | some r =>
    refine ⟨r, rfl, ?_⟩
    simp only [hg] at h
    by_cases h0 : r.optNum = PROGNAME
    · rw [if_pos h0] at h
      injection h with h
      subst h
      left; exact ⟨h0, rfl⟩
    rw [if_neg h0] at h
    by_cases h1 : r.optNum = FSNAME
    · rw [if_pos h1] at h
      injection h with h
      subst h
      right; left; exact ⟨h1, rfl⟩
    rw [if_neg h1] at h
    by_cases h2 : r.optNum = IMAGENAME
    · rw [if_pos h2] at h
      injection h with h
      subst h
      right; right; left; exact ⟨h2, rfl⟩
    rw [if_neg h2] at h
    by_cases h3 : r.optNum = OFFSET
    · rw [if_pos h3] at h
      cases hv : r.optValPtr with
      | none => rw [hv] at h; cases h
      | some v =>
        rw [hv] at h
        simp only at h
        by_cases hm : toUInt32 (atoi v) % 512 ≠ 0
        · rw [if_pos hm] at h; cases h
        rw [if_neg hm] at h
        by_cases hx : toUInt32 (atoi v) > MAXOFFSET
        · rw [if_pos hx] at h; cases h
        rw [if_neg hx] at h
        injection h with h
        subst h
        simp only [MAXOFFSET] at hx
        have hmod : toUInt32 (atoi v) * ONEKILOBYTE % 4294967296 = toUInt32 (atoi v) * 1024 := by
          simp only [ONEKILOBYTE]; omega
        right; right; right; left
        exact ⟨h3, v, rfl, by omega, by omega, by rw [hmod]⟩
    rw [if_neg h3] at h
    by_cases h4 : r.optNum = FILLCHAR
    · rw [if_pos h4] at h
      injection h with h
      subst h
      right; right; right; right; left; exact ⟨h4, rfl⟩
    rw [if_neg h4] at h
    by_cases h5 : r.optNum = V
    · rw [if_pos h5] at h
      injection h with h
      subst h
      right; right; right; right; right; left; exact ⟨h5, rfl⟩
    rw [if_neg h5] at h
    by_cases h6 : r.optNum = H
    · rw [if_pos h6] at h
      cases h
    rw [if_neg h6] at h
    by_cases h7 : r.optNum = MISSINGVALUE
    · rw [if_pos h7] at h
      cases h
    rw [if_neg h7] at h
    by_cases h8 : r.optNum = NOOPTION
    · rw [if_pos h8] at h
      cases h
    rw [if_neg h8] at h
    by_cases h9 : r.optNum = NOTFOUND
    · rw [if_pos h9] at h
      cases h
    rw [if_neg h9] at h
    injection h with h
    subst h
    right; right; right; right; right; right
    rfl

theorem loopBody_stop {s : LoopState} {p : Parsed} (h : loopBody s = Round.stop p) :
    p = Parsed.undefined ∨ ∃ st out, p = Parsed.exit st out := by
  unfold loopBody at h
  cases hg : GetOptVal s.argc s.argv with
  | none =>
    simp only [hg] at h
    injection h with h
    exact Or.inl h.symm
  | some r =>
    simp only [hg] at h
    by_cases h0 : r.optNum = PROGNAME
    · rw [if_pos h0] at h
      cases h
    rw [if_neg h0] at h
    by_cases h1 : r.optNum = FSNAME
    · rw [if_pos h1] at h
      cases h
    rw [if_neg h1] at h
    by_cases h2 : r.optNum = IMAGENAME
    · rw [if_pos h2] at h
      cases h
    rw [if_neg h2] at h
    by_cases h3 : r.optNum = OFFSET
    · rw [if_pos h3] at h
      cases hv : r.optValPtr with
      | none =>
        rw [hv] at h
        injection h with h
        exact Or.inl h.symm
      | some v =>
        rw [hv] at h
        simp only at h
        by_cases hm : toUInt32 (atoi v) % 512 ≠ 0
        · rw [if_pos hm] at h
          injection h with h
          exact Or.inr ⟨_, _, h.symm⟩
        rw [if_neg hm] at h
        by_cases hx : toUInt32 (atoi v) > MAXOFFSET
        · rw [if_pos hx] at h
          injection h with h
          exact Or.inr ⟨_, _, h.symm⟩
        rw [if_neg hx] at h
        cases h
    rw [if_neg h3] at h
    by_cases h4 : r.optNum = FILLCHAR
    · rw [if_pos h4] at h
      cases h
    rw [if_neg h4] at h
    by_cases h5 : r.optNum = V
    · rw [if_pos h5] at h
      cases h
    rw [if_neg h5] at h
    by_cases h6 : r.optNum = H
    · rw [if_pos h6] at h
      injection h with h
      subst h
      exact Or.inr ⟨_, _, rfl⟩
    rw [if_neg h6] at h
    by_cases h7 : r.optNum = MISSINGVALUE
    · rw [if_pos h7] at h
      injection h with h
      subst h
      exact Or.inr ⟨_, _, rfl⟩
    rw [if_neg h7] at h
    by_cases h8 : r.optNum = NOOPTION
    · rw [if_pos h8] at h
      injection h with h
      subst h
      exact Or.inr ⟨_, _, rfl⟩
    rw [if_neg h8] at h
    by_cases h9 : r.optNum = NOTFOUND
    · rw [if_pos h9] at h
      injection h with h
      subst h
      exact Or.inr ⟨_, _, rfl⟩
    rw [if_neg h9] at h
    cases h

theorem optionLoop_invariant (I : Vars → Prop)
    (hstep : ∀ s s1, I s.vars → loopBody s = Round.next s1 → I s1.vars) :
    ∀ (fuel : Nat) (s : LoopState) (vars : Vars) (out : List Msg), I s.vars →
      optionLoop fuel s = some (Parsed.done vars out) → I vars := by
  intro fuel
  induction fuel with
  | zero =>
    intro s vars out hI h
    unfold optionLoop at h
    by_cases hgt : s.argc - 1 > 0
    · simp [hgt] at h
    · simp only [hgt, if_false, Option.some.injEq, Parsed.done.injEq] at h
      rw [← h.1]; exact hI
  | succ fuel ih =>
    intro s vars out hI h
    unfold optionLoop at h
    by_cases hgt : s.argc - 1 > 0
    · simp only [hgt, if_true] at h
      cases hb : loopBody { s with argc := s.argc - 1 } with
      | stop p =>
        rw [hb] at h
        simp only [Option.some.injEq] at h
        subst h
        rcases loopBody_stop hb with h1 | ⟨st, o, h1⟩ <;> cases h1
      | next s2 =>
        rw [hb] at h
        exact ih s2 vars out (hstep { s with argc := s.argc - 1 } s2 hI hb) h
    · simp only [hgt, if_false, Option.some.injEq, Parsed.done.injEq] at h
      rw [← h.1]; exact hI

theorem GetOptVal_optValPtr {argc : Int} {argv : ArgPtr} {r : OptVal}
    (h : GetOptVal argc argv = some r) (hm : r.optNum ≠ MISSINGVALUE) :
    ∃ v, r.optValPtr = some v := by
  cases argv with
  | null => simp [GetOptVal, ArgPtr.next] at h
  | entry l =>
    cases l with
    | nil => simp [GetOptVal, ArgPtr.next] at h
    | cons tok rest =>
      rcases token_cases tok with hb | ⟨c, t, rfl, hc⟩
      · rw [GetOptVal_bare argc tok rest hb] at h
        injection h with h
        subst h
        exact ⟨_, rfl⟩
      · rw [GetOptVal_delim argc c t rest hc] at h
        injection h with h
        subst h
        rcases optionResult_optNum argc t rest with ⟨-, -, h⟩ |
          ⟨name, -, -, ⟨-, -, -, h, -⟩ | ⟨-, -, v, rest1, -, -, h⟩ | ⟨-, -, -, h⟩ | ⟨-, -, h⟩⟩
        · exact ⟨_, h⟩
        · exact absurd h hm
        · exact ⟨_, h⟩
        · exact ⟨_, h⟩
        · exact ⟨_, h⟩

/-- What the option loop can leave behind: a non-null fill string, and a placement
offset that is the initial 512 bytes or `k * 1024` for a multiple `k` of 512 that is at
most 32768. -/
theorem parseArgs_vars {args : List CStr} {vars : Vars} {out : List Msg}
    (h : parseArgs args = some (Parsed.done vars out)) :
    (∃ x, vars.fillChar = some x)
      ∧ (vars.offset = 512 ∨ ∃ k, k % 512 = 0 ∧ k ≤ 32768 ∧ vars.offset = k * 1024) := by
  unfold parseArgs at h
  split_ifs at h
  · simp [help] at h
  · refine optionLoop_invariant
      (fun v => (∃ x, v.fillChar = some x)
        ∧ (v.offset = 512 ∨ ∃ k, k % 512 = 0 ∧ k ≤ 32768 ∧ v.offset = k * 1024))
      ?_ _ _ vars out ⟨⟨[], rfl⟩, Or.inl rfl⟩ h
    intro s s1 hI hb
    obtain ⟨r, hg, hcase⟩ := loopBody_next_vars hb
    rcases hcase with ⟨-, hv⟩ | ⟨-, hv⟩ | ⟨-, hv⟩ | ⟨-, v, -, h1, h2, hv⟩ | ⟨ho, hv⟩
      | ⟨-, hv⟩ | hv
    · rw [hv]; exact hI
    · rw [hv]; exact hI
    · rw [hv]; exact hI
    · rw [hv]; exact ⟨hI.1, Or.inr ⟨_, h1, h2, rfl⟩⟩
    · rw [hv]
      refine ⟨?_, hI.2⟩
      exact GetOptVal_optValPtr hg (by rw [ho]; decide)
    · rw [hv]; exact hI
    · rw [hv]; exact hI

/-! ## A run that writes the image -/

theorem mergeFiles_success (fs : FileSystem) (vars : Vars) (out : List Msg) {p f ip : CStr}
    {P F : List uchar} {c : uchar}
    (hp : vars.progFileName = some p) (hfp : fs p = some P)
    (hf : vars.fsFileName = some f) (hff : fs f = some F)
    (hi : vars.imageFileName = some ip) (hfill : fillByte vars.fillChar = some c)
    (hPn : P.length % 4294967296 ≠ 0) (hFn : F.length % 4294967296 ≠ 0)
    (hno : vars.offset + F.length % 4294967296 < 4294967296)
    (hP : P.length % 4294967296 ≤ vars.offset + F.length % 4294967296)
    (hverb : vars.verbose = true → vars.offset + F.length % 4294967296 < 1073741824) :
    ∃ out1 io image,
      mergeFiles fs vars out = Outcome.exit 0 out1 io (WriteBinaryFile fs ip image image.length)
        ∧ IOEvent.write ip image ∈ io
        ∧ image.length = vars.offset + F.length % 4294967296 := by
  obtain ⟨out1, hm⟩ := mergeFiles_of_read fs vars out hp hfp hPn hf hff hFn
    (by
      intro hv
      have := hverb hv
      rw [Nat.mod_eq_of_lt hno]
      omega)
  have hlP : (P.take (P.length % 4294967296)).length = P.length % 4294967296 := by
    rw [List.length_take]
    exact Nat.min_eq_left (Nat.mod_le _ _)
  have hlF : (F.take (F.length % 4294967296)).length = F.length % 4294967296 := by
    rw [List.length_take]
    exact Nat.min_eq_left (Nat.mod_le _ _)
  have hc := @composeImage_eq (P.take (P.length % 4294967296)) (F.take (F.length % 4294967296))
    vars.offset vars.fillChar c hfill (by rw [hlF]; exact hno) (by rw [hlP, hlF]; exact hP)
  rw [hlP, hlF] at hc
  obtain ⟨image, hc⟩ : ∃ image, composeImage (P.take (P.length % 4294967296))
      (F.take (F.length % 4294967296)) (P.length % 4294967296) (F.length % 4294967296)
      vars.offset vars.fillChar = some (vars.offset + F.length % 4294967296, image) := ⟨_, hc⟩
  rw [hc, hi] at hm
  simp only at hm
  obtain ⟨-, hlen⟩ := composeImage_size hc
  rw [List.take_of_length_le (le_of_eq hlen), ← hlen] at hm
  exact ⟨out1, _, image, hm, by simp, hlen⟩

/-- C2 (as amended): let the option loop accept the arguments with placement offset
`k * 1024`.  Whatever image `main` writes goes to the `-image` path with status 0 and
has the 32-bit length `(k * 1024 + fsSize) mod 2 ^ 32`, where `fsSize` is the size of
the filesystem file cast to 32 bits; this is exactly `k * 1024 + len fs` whenever
`k * 1024 + len fs < 2 ^ 32`.  If moreover an `-image` path is given, the two input
files are non-empty, `len prog < 2 ^ 32` and `len prog <= k * 1024 + len fs` (and, with
`-v`, `k * 1024 + len fs < 2 ^ 30`), then `main` does write such an image. -/
theorem image_length (fs : FileSystem) (args : List CStr) (vars : Vars) (out : List Msg)
    (k : Nat) (hp : parseArgs args = some (Parsed.done vars out))
    (hk : vars.offset = k * 1024) :
    (∀ st out1 io fs1 name data, main fs args = some (Outcome.exit st out1 io fs1) →
        IOEvent.write name data ∈ io →
        st = 0 ∧ vars.imageFileName = some name ∧ fs1 name = some data
          ∧ data.length = (k * 1024 + FileSize fs vars.fsFileName) % 4294967296
          ∧ ∀ f F, vars.fsFileName = some f → fs f = some F →
              k * 1024 + F.length < 4294967296 → data.length = k * 1024 + F.length)
      ∧ ∀ p f ip P F, vars.progFileName = some p → fs p = some P →
          vars.fsFileName = some f → fs f = some F → vars.imageFileName = some ip →
          P ≠ [] → F ≠ [] → P.length < 4294967296 → k * 1024 + F.length < 4294967296 →
          P.length ≤ k * 1024 + F.length →
          (vars.verbose = true → k * 1024 + F.length < 1073741824) →
          ∃ out1 io image,
            main fs args
                = some (Outcome.exit 0 out1 io (WriteBinaryFile fs ip image image.length))
              ∧ IOEvent.write ip image ∈ io
              ∧ image.length = k * 1024 + F.length := by
  have hmain : main fs args = some (mergeFiles fs vars out) := by
    unfold main
    rw [hp]
  constructor
  · intro st out1 io fs1 name data h hw
    rw [hmain] at h
    obtain ⟨h1, h2, h3, h4⟩ := mergeFiles_write (Option.some.inj h) hw
    rw [hk] at h4
    refine ⟨h1, h2, h3, h4, ?_⟩
    intro f F hf hF hno
    rw [h4, hf]
    simp only [FileSize, hF]
    rw [Nat.mod_eq_of_lt (by omega : F.length < 4294967296), Nat.mod_eq_of_lt hno]
  · intro p f ip P F hprog hP hfs hF hi hPne hFne hPlt hno hle hverb
    have hFlt : F.length < 4294967296 := by omega
    obtain ⟨⟨x, hx⟩, -⟩ := parseArgs_vars hp
    have hfill : ∃ c, fillByte vars.fillChar = some c := by
      rw [hx]
      cases x with
      | nil => exact ⟨_, rfl⟩
      | cons a as => exact ⟨_, rfl⟩
    obtain ⟨c, hc⟩ := hfill
    have hPm := Nat.mod_eq_of_lt hPlt
    have hFm := Nat.mod_eq_of_lt hFlt
    obtain ⟨out1, io, image, h1, h2, h3⟩ := mergeFiles_success fs vars out hprog hP hfs hF hi hc
      (mod_ne_zero_of_small hPne hPlt) (mod_ne_zero_of_small hFne hFlt)
      (by rw [hFm, hk]; exact hno) (by rw [hPm, hFm, hk]; exact hle)
      (by intro hv; rw [hFm, hk]; exact hverb hv)
    rw [hFm, hk] at h3
    exact ⟨out1, io, image, by rw [hmain, h1], h2, h3⟩

/-- C2, an instance: `-prog p -fs f -image o -offset 512` with a 2-byte program and a
1-byte filesystem image is accepted with offset `512 * 1024`, and `main` writes an
image of `512 * 1024 + 1` bytes. -/
theorem image_length_witness :
    parseArgs [['-', 'p', 'r', 'o', 'g'], ['p'], ['-', 'f', 's'], ['f'],
        ['-', 'i', 'm', 'a', 'g', 'e'], ['o'], ['-', 'o', 'f', 'f', 's', 'e', 't'],
        ['5', '1', '2']]
      = some (Parsed.done
          { progFileName := some ['p'], fsFileName := some ['f'], imageFileName := some ['o'],
            fillChar := some [], verbose := false,
            offset := toUInt32 (atoi ['5', '1', '2']) * 1024 } [])
      ∧ toUInt32 (atoi ['5', '1', '2']) * 1024 = 512 * 1024
      ∧ ∃ out1 io image,
          main (fun name => if name = ['p'] then some [1, 2]
                  else if name = ['f'] then some [9] else none)
              [['-', 'p', 'r', 'o', 'g'], ['p'], ['-', 'f', 's'], ['f'],
               ['-', 'i', 'm', 'a', 'g', 'e'], ['o'], ['-', 'o', 'f', 'f', 's', 'e', 't'],
               ['5', '1', '2']]
            = some (Outcome.exit 0 out1 io
                (WriteBinaryFile
                  (fun name => if name = ['p'] then some [1, 2]
                    else if name = ['f'] then some [9] else none)
                  ['o'] image image.length))
          ∧ IOEvent.write ['o'] image ∈ io
          ∧ image.length = 512 * 1024 + [9].length :=
  ⟨parseArgs_usual ['p'] ['f'] ['o'] ['5', '1', '2'] (by decide) (by decide), by decide,
    (image_length
      (fun name => if name = ['p'] then some [1, 2] else if name = ['f'] then some [9] else none)
      [['-', 'p', 'r', 'o', 'g'], ['p'], ['-', 'f', 's'], ['f'],
       ['-', 'i', 'm', 'a', 'g', 'e'], ['o'], ['-', 'o', 'f', 'f', 's', 'e', 't'],
       ['5', '1', '2']]
      { progFileName := some ['p'], fsFileName := some ['f'], imageFileName := some ['o'],
        fillChar := some [], verbose := false,
        offset := toUInt32 (atoi ['5', '1', '2']) * 1024 }
      [] 512
      (parseArgs_usual ['p'] ['f'] ['o'] ['5', '1', '2'] (by decide) (by decide))
      (by decide)).2 ['p'] ['f'] ['o'] [1, 2] [9] rfl (if_pos rfl) rfl
        (by decide) rfl (by decide) (by decide) (by decide) (by decide) (by decide)
        (by decide)⟩

theorem main_writes_truncated (F : List uchar) (hF : F.length = 4294967300) :
    ∃ out1 io image,
      main (fun name => if name = ['p'] then some [1]
              else if name = ['f'] then some F else none)
          [['-', 'p', 'r', 'o', 'g'], ['p'], ['-', 'f', 's'], ['f'],
           ['-', 'i', 'm', 'a', 'g', 'e'], ['o'], ['-', 'o', 'f', 'f', 's', 'e', 't'],
           ['5', '1', '2']]
        = some (Outcome.exit 0 out1 io
            (WriteBinaryFile
              (fun name => if name = ['p'] then some [1]
                else if name = ['f'] then some F else none)
              ['o'] image image.length))
        ∧ IOEvent.write ['o'] image ∈ io
        ∧ image.length = 524292 := by
  have hparse := parseArgs_usual ['p'] ['f'] ['o'] ['5', '1', '2'] (by decide) (by decide)
  unfold main
  rw [hparse]
  simp only [Option.some.injEq]
  obtain ⟨out1, io, image, h1, h2, h3⟩ := @mergeFiles_success
    (fun name => if name = ['p'] then some [1] else if name = ['f'] then some F else none)
    { progFileName := some ['p'], fsFileName := some ['f'],
      imageFileName := some ['o'], fillChar := some [], verbose := false,
      offset := toUInt32 (atoi ['5', '1', '2']) * 1024 } [] ['p'] ['f'] ['o'] [1] F 0
    rfl (if_pos rfl) rfl
    (by beta_reduce; rw [if_neg (by decide), if_pos rfl]) rfl rfl (by decide)
    (by rw [hF]; decide) (by rw [hF]; decide) (by rw [hF]; decide)
    (by intro h; exact absurd h (by decide))
  rw [hF] at h3
  exact ⟨out1, io, image, h1, h2, h3⟩

/-- C2, as stated, fails: with `-offset 512` and a filesystem image file of 2^32 + 4
bytes (its size cast to 32 bits is 4) `main` returns 0 and writes an image of 524292
bytes, not of `512 * 1024 + 4294967300` bytes. -/
theorem image_length_counterexample :
    (List.replicate 4294967300 (170 : uchar)).length = 4294967300
      ∧ ∃ out1 io image,
          main (fun name => if name = ['p'] then some [1]
                  else if name = ['f'] then some (List.replicate 4294967300 170) else none)
              [['-', 'p', 'r', 'o', 'g'], ['p'], ['-', 'f', 's'], ['f'],
               ['-', 'i', 'm', 'a', 'g', 'e'], ['o'], ['-', 'o', 'f', 'f', 's', 'e', 't'],
               ['5', '1', '2']]
            = some (Outcome.exit 0 out1 io
                (WriteBinaryFile
                  (fun name => if name = ['p'] then some [1]
                    else if name = ['f'] then some (List.replicate 4294967300 170) else none)
                  ['o'] image image.length))
          ∧ IOEvent.write ['o'] image ∈ io
          ∧ image.length = 524292 :=
  ⟨List.length_replicate _ _,
    main_writes_truncated (List.replicate 4294967300 170) (List.length_replicate _ _)⟩

/-! ## `main` always ends -/

theorem main_total (fs : FileSystem) (args : List CStr) : ∃ o, main fs args = some o := by
  obtain ⟨p, hp⟩ := parseArgs_total args
  unfold main
  rw [hp]
  cases p with
  | done vars out => exact ⟨_, rfl⟩
  | exit status out => exact ⟨_, rfl⟩
  | undefined => exact ⟨_, rfl⟩

theorem FormatSize_none_of_large {n : Nat} (h : 1073741824 ≤ n) : FormatSize n = none := by
  unfold FormatSize
  rw [FormatSize_loop_eq]
  have h1 : ¬ n < 1024 := by omega
  have h2 : ¬ n < 1048576 := by omega
  have h3 : ¬ n < 1073741824 := by omega
  simp only [h1, h2, h3, if_false]
  rfl

/-! ## The text produced by `FormatSize` -/

theorem roundNearest_near (tieUp : Bool) (num den : Nat) (hden : 0 < den) :
    2 * num ≤ 2 * (roundNearest tieUp num den * den) + den
      ∧ 2 * (roundNearest tieUp num den * den) ≤ 2 * num + den := by
  have hdm := Nat.div_add_mod num den
  have hlt := Nat.mod_lt num hden
  have hmul : (num / den + 1) * den = den * (num / den) + den := by
    rw [Nat.add_mul, Nat.one_mul, Nat.mul_comm]
  have hmul0 : num / den * den = den * (num / den) := Nat.mul_comm _ _
  unfold roundNearest
  split_ifs <;> simp only [hmul, hmul0] <;> omega

theorem toDigits_length_le_two : ∀ x, x < 100 → (Nat.toDigits 10 x).length ≤ 2 := by
  decide

theorem FormatSize_eq (n : Nat) :
    FormatSize n
      = if n < 1024 then
          some { decimals := 0, num := n, den := 1, suffix := 0,
                 unit := ['b', 'y', 't', 'e', 's'] }
        else if n < 1048576 then
          some { decimals := 2, num := n, den := 1024, suffix := 1,
                 unit := ['k', 'i', 'l', 'o', 'b', 'y', 't', 'e', 's'] }
        else if n < 1073741824 then
          some { decimals := 2, num := n, den := 1048576, suffix := 2,
                 unit := ['m', 'e', 'g', 'a', 'b', 'y', 't', 'e', 's'] }
        else none := by
  unfold FormatSize
  rw [FormatSize_loop_eq]
  split_ifs <;> rfl

theorem roundNearest_one (tieUp : Bool) (n : Nat) : roundNearest tieUp n 1 = n := by
  unfold roundNearest
  simp [Nat.mod_one]

/-- C11: `FormatSize(0)` is `0 bytes`, `FormatSize(1024)` is `1.00 kilobytes`,
`FormatSize(1536)` is `1.50 kilobytes` and `FormatSize(1048576)` is `1.00 megabytes`.
For every `n < 1024` the text is the decimal numeral of `n`, without decimal point,
followed by ` bytes`.  For every `n` with `1024 <= n < 2 ^ 30` the text is a numeral
with exactly two decimal places, a space and the unit name (kilobytes below `2 ^ 20`,
megabytes from there on), and the number of hundredths `r` it shows is a nearest one
to the quotient `n / 1024` resp. `n / 1024 ^ 2`.  All of this for either way of
rounding an exact tie. -/
theorem FormatSize_text (tieUp : Bool) :
    FormatSize.text tieUp 0 = some "0 bytes".toList
      ∧ FormatSize.text tieUp 1024 = some "1.00 kilobytes".toList
      ∧ FormatSize.text tieUp 1536 = some "1.50 kilobytes".toList
      ∧ FormatSize.text tieUp 1048576 = some "1.00 megabytes".toList
      ∧ (∀ n, n < 1024 → FormatSize.text tieUp n = some (Nat.toDigits 10 n ++ " bytes".toList))
      ∧ ∀ n, 1024 ≤ n → n < 1073741824 →
          ∃ r den unit frac,
            (den, unit) = (if n < 1048576 then (1024, "kilobytes".toList)
                           else (1048576, "megabytes".toList))
              ∧ FormatSize.text tieUp n
                  = some (Nat.toDigits 10 (r / 100) ++ '.' :: frac ++ ' ' :: unit)
              ∧ frac.length = 2
              ∧ frac = List.replicate (2 - (Nat.toDigits 10 (r % 100)).length) '0'
                  ++ Nat.toDigits 10 (r % 100)
              ∧ 2 * (100 * n) ≤ 2 * (r * den) + den
              ∧ 2 * (r * den) ≤ 2 * (100 * n) + den := by
  refine ⟨by cases tieUp <;> decide, by cases tieUp <;> decide, by cases tieUp <;> decide,
    by cases tieUp <;> decide, ?_, ?_⟩
  · intro n hn
    unfold FormatSize.text
    rw [FormatSize_eq, if_pos hn]
    simp only [Option.map_some', sprintfSize, printFixed, if_true, roundNearest_one]
    rfl
  · intro n h1 h2
    have hfrac : ∀ r : Nat, (List.replicate (2 - (Nat.toDigits 10 (r % 100)).length) '0'
        ++ Nat.toDigits 10 (r % 100)).length = 2 := by
      intro r
      have := toDigits_length_le_two (r % 100) (Nat.mod_lt _ (by decide))
      rw [List.length_append, List.length_replicate]
      omega
    have hn1 : ¬ n < 1024 := by omega
    by_cases hk : n < 1048576
    · refine ⟨roundNearest tieUp (n * 100) 1024, 1024, "kilobytes".toList, _, by rw [if_pos hk],
        ?_, hfrac _, rfl, ?_⟩
      · unfold FormatSize.text
        rw [FormatSize_eq, if_neg hn1, if_pos hk]
        simp only [Option.map_some', sprintfSize, printFixed]
        rfl
      · have := roundNearest_near tieUp (n * 100) 1024 (by decide)
        omega
    · refine ⟨roundNearest tieUp (n * 100) 1048576, 1048576, "megabytes".toList, _,
        by rw [if_neg hk], ?_, hfrac _, rfl, ?_⟩
      · unfold FormatSize.text
        rw [FormatSize_eq, if_neg hn1, if_neg hk, if_pos h2]
        simp only [Option.map_some', sprintfSize, printFixed]
        rfl
      · have := roundNearest_near tieUp (n * 100) 1048576 (by decide)
        omega

/-! ## What a round of the option loop changes -/

theorem loopBody_next_keep {s s1 : LoopState} {r : OptVal}
    (h : loopBody s = Round.next s1) (hg : GetOptVal s.argc s.argv = some r) :
    (r.optNum ≠ PROGNAME → s1.vars.progFileName = s.vars.progFileName)
      ∧ (r.optNum ≠ FSNAME → s1.vars.fsFileName = s.vars.fsFileName)
      ∧ (r.optNum ≠ IMAGENAME → s1.vars.imageFileName = s.vars.imageFileName)
      ∧ (r.optNum ≠ OFFSET → s1.vars.offset = s.vars.offset)
      ∧ (r.optNum ≠ FILLCHAR → s1.vars.fillChar = s.vars.fillChar)
      ∧ (r.optNum ≠ V → s1.vars.verbose = s.vars.verbose) := by
  obtain ⟨r1, hg1, hcase⟩ := loopBody_next_vars h
  rw [hg] at hg1
  injection hg1 with hr
  subst hr
  rcases hcase with ⟨ho, hv⟩ | ⟨ho, hv⟩ | ⟨ho, hv⟩ | ⟨ho, v, -, -, -, hv⟩ | ⟨ho, hv⟩
    | ⟨ho, hv⟩ | hv
  all_goals rw [hv]
  all_goals
    refine ⟨fun hne => ?_, fun hne => ?_, fun hne => ?_, fun hne => ?_, fun hne => ?_,
      fun hne => ?_⟩
  all_goals first
    | rfl
    | exact absurd ho hne

theorem loopBody_next_set {s s1 : LoopState} {r : OptVal}
    (h : loopBody s = Round.next s1) (hg : GetOptVal s.argc s.argv = some r) :
    (r.optNum = PROGNAME → s1.vars.progFileName = r.optValPtr)
      ∧ (r.optNum = FSNAME → s1.vars.fsFileName = r.optValPtr)
      ∧ (r.optNum = IMAGENAME → s1.vars.imageFileName = r.optValPtr)
      ∧ (r.optNum = OFFSET → ∃ v, r.optValPtr = some v ∧ toUInt32 (atoi v) % 512 = 0
          ∧ toUInt32 (atoi v) ≤ 32768 ∧ s1.vars.offset = toUInt32 (atoi v) * 1024)
      ∧ (r.optNum = FILLCHAR → s1.vars.fillChar = r.optValPtr)
      ∧ (r.optNum = V → s1.vars.verbose = true) := by
  unfold loopBody at h
  rw [hg] at h
  simp only at h
  by_cases h0 : r.optNum = PROGNAME
  · rw [if_pos h0] at h
    injection h with h
    subst h
    refine ⟨fun _ => rfl, ?_, ?_, ?_, ?_, ?_⟩ <;> intro hx <;> rw [h0] at hx <;>
      exact absurd hx (by decide)
  rw [if_neg h0] at h
  by_cases h1 : r.optNum = FSNAME
  · rw [if_pos h1] at h
    injection h with h
    subst h
    refine ⟨?_, fun _ => rfl, ?_, ?_, ?_, ?_⟩ <;> intro hx <;> rw [h1] at hx <;>
      exact absurd hx (by decide)
  rw [if_neg h1] at h
  by_cases h2 : r.optNum = IMAGENAME
  · rw [if_pos h2] at h
    injection h with h
    subst h
    refine ⟨?_, ?_, fun _ => rfl, ?_, ?_, ?_⟩ <;> intro hx <;> rw [h2] at hx <;>
      exact absurd hx (by decide)
  rw [if_neg h2] at h
  by_cases h3 : r.optNum = OFFSET
  · rw [if_pos h3] at h
    cases hv : r.optValPtr with
    | none => rw [hv] at h; cases h
    | some v =>
      rw [hv] at h
      simp only at h
      by_cases hm : toUInt32 (atoi v) % 512 ≠ 0
      · rw [if_pos hm] at h; cases h
      rw [if_neg hm] at h
      by_cases hx : toUInt32 (atoi v) > MAXOFFSET
      · rw [if_pos hx] at h; cases h
      rw [if_neg hx] at h
      injection h with h
      subst h
      simp only [MAXOFFSET] at hx
      have hmod : toUInt32 (atoi v) * ONEKILOBYTE % 4294967296 = toUInt32 (atoi v) * 1024 := by
        simp only [ONEKILOBYTE]; omega
      refine ⟨?_, ?_, ?_, fun _ => ⟨v, rfl, by omega, by omega, hmod⟩, ?_, ?_⟩ <;> intro hx <;>
        rw [h3] at hx <;> exact absurd hx (by decide)
  rw [if_neg h3] at h
  by_cases h4 : r.optNum = FILLCHAR
  · rw [if_pos h4] at h
    injection h with h
    subst h
    refine ⟨?_, ?_, ?_, ?_, fun _ => rfl, ?_⟩ <;> intro hx <;> rw [h4] at hx <;>
      exact absurd hx (by decide)
  rw [if_neg h4] at h
  by_cases h5 : r.optNum = V
  · rw [if_pos h5] at h
    injection h with h
    subst h
    refine ⟨?_, ?_, ?_, ?_, ?_, fun _ => rfl⟩ <;> intro hx <;> rw [h5] at hx <;>
      exact absurd hx (by decide)
  rw [if_neg h5] at h
  exact ⟨fun hx => absurd hx h0, fun hx => absurd hx h1, fun hx => absurd hx h2,
    fun hx => absurd hx h3, fun hx => absurd hx h4, fun hx => absurd hx h5⟩

theorem noRound_next {K : Int} {s s1 : LoopState} (hno : noRound K s)
    (hgt : s.argc - 1 > 0) (hb : loopBody { s with argc := s.argc - 1 } = Round.next s1) :
    noRound K s1 := by
  intro m s2 hr
  apply hno (m + 1) s2
  unfold rounds
  simp only [hgt, if_true, hb]
  exact hr

/-- A property of the variables that only the option numbered `K` can change still
holds at the end of a run in which that option does not occur. -/
theorem optionLoop_keep (K : Int) (Q : Vars → Prop)
    (hQ : ∀ (s s1 : LoopState) (r : OptVal), loopBody s = Round.next s1 →
      GetOptVal s.argc s.argv = some r → r.optNum ≠ K → Q s.vars → Q s1.vars) :
    ∀ (fuel : Nat) (s : LoopState) (vars : Vars) (out : List Msg), noRound K s → Q s.vars →
      optionLoop fuel s = some (Parsed.done vars out) → Q vars := by
  intro fuel
  induction fuel with
  | zero =>
    intro s vars out _ hq h
    unfold optionLoop at h
    by_cases hgt : s.argc - 1 > 0
    · simp [hgt] at h
    · simp only [hgt, if_false, Option.some.injEq, Parsed.done.injEq] at h
      rw [← h.1]; exact hq
  | succ fuel ih =>
    intro s vars out hno hq h
    unfold optionLoop at h
    by_cases hgt : s.argc - 1 > 0
    · simp only [hgt, if_true] at h
      cases hb : loopBody { s with argc := s.argc - 1 } with
      | stop p =>
        rw [hb] at h
        simp only [Option.some.injEq] at h
        subst h
        rcases loopBody_stop hb with h1 | ⟨st, o, h1⟩ <;> cases h1
      | next s2 =>
        rw [hb] at h
        obtain ⟨r, hg, -⟩ := loopBody_next_vars hb
        have hne : r.optNum ≠ K := hno 0 s rfl hgt r hg
        exact ih s2 vars out (noRound_next hno hgt hb)
          (hQ { s with argc := s.argc - 1 } s2 r hb hg hne hq) h
    · simp only [hgt, if_false, Option.some.injEq, Parsed.done.injEq] at h
      rw [← h.1]; exact hq

/-! ## Runs of the option loop from a state it passes through -/

theorem optionLoop_of_parseArgs {args : List CStr} {n : Nat} {s : LoopState} {p : Parsed}
    (hne : args ≠ []) (hp : parseArgs args = some p)
    (hr : rounds n (LoopState.init args) = some s) :
    optionLoop s.argc.toNat s = some p := by
  obtain ⟨q, hq⟩ := optionLoop_total s.argc.toNat s (le_refl _)
  have := parseArgs_of_rounds hne hr hq
  rw [hp] at this
  rw [hq, Option.some.inj this]

theorem args_ne_nil_of_done {args : List CStr} {vars : Vars} {out : List Msg}
    (hp : parseArgs args = some (Parsed.done vars out)) : args ≠ [] := by
  intro h
  subst h
  simp [parseArgs, LoopState.init, help] at hp

/-- The variables at the end of an accepted run agree with those of a state `s` that
the run passes through, in every variable whose option does not occur after `s`. -/
theorem parseArgs_keep {args : List CStr} {vars : Vars} {out : List Msg} {n : Nat}
    {s : LoopState} (hp : parseArgs args = some (Parsed.done vars out))
    (hr : rounds n (LoopState.init args) = some s) :
    (noRound PROGNAME s → vars.progFileName = s.vars.progFileName)
      ∧ (noRound FSNAME s → vars.fsFileName = s.vars.fsFileName)
      ∧ (noRound IMAGENAME s → vars.imageFileName = s.vars.imageFileName)
      ∧ (noRound OFFSET s → vars.offset = s.vars.offset)
      ∧ (noRound FILLCHAR s → vars.fillChar = s.vars.fillChar)
      ∧ (noRound V s → vars.verbose = s.vars.verbose) := by
  have hrun := optionLoop_of_parseArgs (args_ne_nil_of_done hp) hp hr
  refine ⟨fun hno => ?_, fun hno => ?_, fun hno => ?_, fun hno => ?_, fun hno => ?_,
    fun hno => ?_⟩
  · exact optionLoop_keep PROGNAME (fun v => v.progFileName = s.vars.progFileName)
      (fun a b r hb hg hne hq => ((loopBody_next_keep hb hg).1 hne).trans hq)
      _ s vars out hno rfl hrun
  · exact optionLoop_keep FSNAME (fun v => v.fsFileName = s.vars.fsFileName)
      (fun a b r hb hg hne hq => ((loopBody_next_keep hb hg).2.1 hne).trans hq)
      _ s vars out hno rfl hrun
  · exact optionLoop_keep IMAGENAME (fun v => v.imageFileName = s.vars.imageFileName)
      (fun a b r hb hg hne hq => ((loopBody_next_keep hb hg).2.2.1 hne).trans hq)
      _ s vars out hno rfl hrun
  · exact optionLoop_keep OFFSET (fun v => v.offset = s.vars.offset)
      (fun a b r hb hg hne hq => ((loopBody_next_keep hb hg).2.2.2.1 hne).trans hq)
      _ s vars out hno rfl hrun
  · exact optionLoop_keep FILLCHAR (fun v => v.fillChar = s.vars.fillChar)
      (fun a b r hb hg hne hq => ((loopBody_next_keep hb hg).2.2.2.2.1 hne).trans hq)
      _ s vars out hno rfl hrun
  · exact optionLoop_keep V (fun v => v.verbose = s.vars.verbose)
      (fun a b r hb hg hne hq => ((loopBody_next_keep hb hg).2.2.2.2.2 hne).trans hq)
      _ s vars out hno rfl hrun

/-! ## Options that no token selects -/

theorem GetOptVal_selects {argc : Int} {tok : CStr} {rest : List CStr} {r : OptVal}
    (h : GetOptVal argc (ArgPtr.entry (tok :: rest)) = some r) (h0 : 0 ≤ r.optNum) :
    selects r.optNum tok = true := by
  rcases token_cases tok with hb | ⟨c, t, rfl, hc⟩
  · rw [GetOptVal_bare argc tok rest hb] at h
    injection h with h
    subst h
    simp only [NOOPTION] at h0
    omega
  · rw [GetOptVal_delim argc c t rest hc] at h
    injection h with h
    subst h
    have hsel : ∀ K : Int, (firstMatch t : Int) = K → selects K (c :: t) = true := by
      intro K hK
      unfold selects
      rcases hc with rfl | rfl <;> simp [hK]
    rcases optionResult_optNum argc t rest with ⟨-, h, -⟩ |
      ⟨name, -, -, ⟨-, -, -, h, -⟩ | ⟨-, -, v, rest1, -, h, -⟩ | ⟨-, -, h, -⟩ | ⟨-, h, -⟩⟩
    · rw [h] at h0; simp only [NOTFOUND] at h0; omega
    · rw [h] at h0; simp only [MISSINGVALUE] at h0; omega
    · rw [h]; exact hsel _ rfl
    · rw [h]; exact hsel _ rfl
    · rw [h]; exact hsel _ rfl

theorem GetOptVal_tokens {argc : Int} {argv : ArgPtr} {r : OptVal}
    (h : GetOptVal argc argv = some r) :
    ∃ tok rest, argv = ArgPtr.entry (tok :: rest) ∧ ∀ x ∈ r.argv.tokens, x ∈ rest := by
  cases argv with
  | null => simp [GetOptVal, ArgPtr.next] at h
  | entry l =>
    cases l with
    | nil => simp [GetOptVal, ArgPtr.next] at h
    | cons tok rest =>
      refine ⟨tok, rest, rfl, ?_⟩
      rcases token_cases tok with hb | ⟨c, t, rfl, hc⟩
      · rw [GetOptVal_bare argc tok rest hb] at h
        injection h with h
        subst h
        exact fun x hx => hx
      · rw [GetOptVal_delim argc c t rest hc] at h
        injection h with h
        subst h
        unfold optionResult
        split
        · exact fun x hx => hx
        · split_ifs
          · cases rest with
            | nil => exact fun x hx => hx
            | cons v rest1 => exact fun x hx => List.mem_cons_of_mem _ hx
          · exact fun x hx => hx
          · exact fun x hx => hx

theorem rounds_tokens {m : Nat} {s s1 : LoopState} (h : rounds m s = some s1) :
    ∀ x ∈ s1.argv.tokens, x ∈ s.argv.tokens := by
  induction m generalizing s with
  | zero =>
    simp only [rounds, Option.some.injEq] at h
    subst h
    exact fun x hx => hx
  | succ m ih =>
    unfold rounds at h
    by_cases hgt : s.argc - 1 > 0
    · simp only [hgt, if_true] at h
      cases hb : loopBody { s with argc := s.argc - 1 } with
      | stop q => simp [hb] at h
      | next s2 =>
        simp only [hb] at h
        obtain ⟨r, hg, -, hargv, -⟩ := loopBody_next hb
        obtain ⟨tok, rest, he, hsub⟩ := GetOptVal_tokens hg
        intro x hx
        have h2 := ih h x hx
        rw [hargv] at h2
        have h3 := hsub x h2
        simp only at he
        rw [he]
        exact List.mem_cons_of_mem _ h3
    · simp [hgt] at h

/-- If no argument is a token selecting the option numbered `K`, with `0 <= K`, then
that option occurs in no round of the loop. -/
theorem noRound_of_tokens {K : Int} {args : List CStr} (hK : 0 ≤ K)
    (h : ∀ tok ∈ args, selects K tok = false) : noRound K (LoopState.init args) := by
  intro m s1 hr _ r hg hrk
  obtain ⟨tok, rest, he, -⟩ := GetOptVal_tokens hg
  have hmem : tok ∈ args := by
    have := rounds_tokens hr tok (by rw [he]; exact List.mem_cons_self _ _)
    exact this
  rw [he] at hg
  have hsel := GetOptVal_selects hg (by rw [hrk]; exact hK)
  rw [hrk, h tok hmem] at hsel
  cases hsel

/-! ## What a composed image looks like -/

theorem memcpy_some {dst src r : List uchar} {off n : Nat}
    (h : memcpy dst off src n = some r) :
    off + n ≤ dst.length ∧ n ≤ src.length
      ∧ r = dst.take off ++ src.take n ++ dst.drop (off + n) := by
  unfold memcpy at h
  split_ifs at h with hb
  injection h with h
  exact ⟨hb.1, hb.2, h.symm⟩

/-- Every image that lines 170-174 compose: the size did not wrap, both copies stayed
inside the buffer, and the image is the first `offset` bytes of the program image
padded with the fill byte, followed by the filesystem image. -/
theorem composeImage_some {P F image : List uchar} {progSize fsSize offset sz : Nat}
    {fillChar : Option CStr}
    (h : composeImage P F progSize fsSize offset fillChar = some (sz, image)) :
    sz = offset + fsSize ∧ offset + fsSize < 4294967296 ∧ progSize ≤ offset + fsSize
      ∧ progSize ≤ P.length ∧ fsSize ≤ F.length
      ∧ ∃ c, fillByte fillChar = some c
          ∧ image = (P.take progSize ++ List.replicate (offset + fsSize - progSize) c).take offset
              ++ F.take fsSize := by
  unfold composeImage at h
  cases hc : fillByte fillChar with
  | none => simp [hc] at h
  | some c =>
    simp only [hc] at h
    cases h1 : memcpy (List.replicate ((offset + fsSize) % 4294967296) c) 0 P progSize with
    | none => simp [h1] at h
    | some image1 =>
      simp only [h1] at h
      cases h2 : memcpy image1 offset F fsSize with
      | none => simp [h2] at h
      | some image2 =>
        simp only [h2, Option.some.injEq, Prod.mk.injEq] at h
        obtain ⟨hsz, himg⟩ := h
        subst himg
        obtain ⟨a1, a2, a3⟩ := memcpy_some h1
        obtain ⟨b1, b2, b3⟩ := memcpy_some h2
        have hl1 := memcpy_length h1
        rw [List.length_replicate] at a1 hl1
        rw [hl1] at b1
        have hmod : (offset + fsSize) % 4294967296 = offset + fsSize := by
          have := Nat.mod_le (offset + fsSize) 4294967296
          omega
        have hlt : offset + fsSize < 4294967296 := by
          have := Nat.mod_lt (offset + fsSize) (by decide : 4294967296 > 0)
          omega
        rw [hmod] at a1 a3 hsz hl1
        refine ⟨hsz.symm, hlt, by omega, a2, b2, c, rfl, ?_⟩
        have hd : image1.drop (offset + fsSize) = [] :=
          List.drop_of_length_le (by omega)
        rw [b3, hd, List.append_nil, a3]
        simp

theorem mergeFiles_write_compose {fs fs1 : FileSystem} {vars : Vars} {out out1 : List Msg}
    {st : Int} {io : List IOEvent} {name : CStr} {data : List uchar}
    (h : mergeFiles fs vars out = Outcome.exit st out1 io fs1)
    (hw : IOEvent.write name data ∈ io) :
    ∃ sz image,
      composeImage ((ReadBinaryFile fs vars.progFileName none).2.getD [])
          ((ReadBinaryFile fs vars.fsFileName none).2.getD [])
          (FileSize fs vars.progFileName) (FileSize fs vars.fsFileName)
          vars.offset vars.fillChar = some (sz, image)
        ∧ data = image := by
  unfold mergeFiles at h
  have hps := ReadBinaryFile_fst fs vars.progFileName none
  have hfs := ReadBinaryFile_fst fs vars.fsFileName none
  cases hrp : ReadBinaryFile fs vars.progFileName none with
  | mk progSize progImage =>
  cases hrf : ReadBinaryFile fs vars.fsFileName none with
  | mk fsSize fsImage =>
  rw [hrp] at h hps
  rw [hrf] at h hfs
  simp only at h hps hfs
  by_cases hp0 : progSize = 0
  · rw [if_pos hp0] at h
    injection h with _ _ hio _
    rw [← hio] at hw
    exact absurd hw (ReadBinaryFile_events_noWrite fs _ name data)
  rw [if_neg hp0] at h
  split at h
  · cases h
  rename_i out2 _
  by_cases hf0 : fsSize = 0
  · rw [if_pos hf0] at h
    injection h with _ _ hio _
    rw [← hio] at hw
    exact absurd hw (noWrite_append (ReadBinaryFile_events_noWrite fs _)
      (ReadBinaryFile_events_noWrite fs _) name data)
  rw [if_neg hf0] at h
  split at h
  · cases h
  rename_i out3 _
  split at h
  · cases h
  rename_i imageSize image hc
  obtain ⟨hsz, hlen⟩ := composeImage_size hc
  split at h
  · cases h
  rename_i imageFile hi
  split at h
  · cases h
  rename_i out5 _
  injection h with hst _ hio hfs1
  rw [← hio] at hw
  have hmem : IOEvent.write name data = IOEvent.write imageFile (image.take imageSize) := by
    rcases List.mem_append.1 hw with hw | hw
    · rcases List.mem_append.1 hw with hw | hw
      · exact absurd hw (noWrite_append (ReadBinaryFile_events_noWrite fs _)
          (ReadBinaryFile_events_noWrite fs _) name data)
      · simpa using hw
    · simp [FileSize.events] at hw
  injection hmem with hn hd
  subst hn hd
  refine ⟨imageSize, image, ?_, ?_⟩
  · rw [← hps, ← hfs]
    exact hc
  · exact List.take_of_length_le (le_of_eq hlen)

/-! ## The default placement offset -/

theorem parseArgs_three (p f o : CStr) :
    parseArgs [['-', 'p', 'r', 'o', 'g'], p, ['-', 'f', 's'], f,
        ['-', 'i', 'm', 'a', 'g', 'e'], o]
      = some (Parsed.done
          { progFileName := some p, fsFileName := some f, imageFileName := some o,
            fillChar := some [], verbose := false, offset := 512 } []) := by
  rw [parseArgs_eq_optionLoop (List.cons_ne_nil _ _)]
  simp only [List.length_cons, List.length_nil]
  rw [optionLoop_next 6 _ _ (by simp [LoopState.init])
    (by
      simp only [LoopState.init, List.length_cons, List.length_nil]
      rw [show (((0 + 1 + 1 + 1 + 1 + 1 + 1 : Nat) : Int) + 1 - 1) = (5 : Int) + 1 by decide]
      exact loopBody_prog _ _ _ _ _)]
  rw [optionLoop_next 5 _ _ (by simp only; omega)
    (by
      simp only
      rw [show ((5 : Int) - 1) = (3 : Int) + 1 by decide]
      exact loopBody_fs _ _ _ _ _)]
  rw [optionLoop_next 4 _ _ (by simp only; omega)
    (by
      simp only
      rw [show ((3 : Int) - 1) = (1 : Int) + 1 by decide]
      exact loopBody_image _ _ _ _ _)]
  rw [optionLoop_done _ _ (by simp only; omega)]
  rfl

theorem composeImage_drop {P F image : List uchar} {progSize fsSize offset sz : Nat}
    {fillChar : Option CStr}
    (h : composeImage P F progSize fsSize offset fillChar = some (sz, image)) :
    image.length = offset + fsSize ∧ image.drop offset = F.take fsSize
      ∧ image.take offset = (P.take progSize).take offset
          ++ List.replicate (offset - progSize) ((fillByte fillChar).getD 0) := by
  obtain ⟨hsz, hlt, hps, hpl, hfl, c, hc, himg⟩ := composeImage_some h
  have hlen : (P.take progSize ++ List.replicate (offset + fsSize - progSize) c).length
      = offset + fsSize := by
    rw [List.length_append, List.length_replicate, List.length_take, Nat.min_eq_left hpl]
    omega
  have htl : ((P.take progSize ++ List.replicate (offset + fsSize - progSize) c).take
      offset).length = offset := by
    rw [List.length_take, hlen]
    omega
  refine ⟨?_, ?_, ?_⟩
  · rw [himg, List.length_append, htl, List.length_take, Nat.min_eq_left hfl]
  · rw [himg, List.drop_left' htl]
  · rw [himg, List.take_left' htl, hc, Option.getD_some, List.take_append_eq_append_take,
      List.take_replicate, List.length_take, Nat.min_eq_left hpl]
    congr 2
    omega

/-- C12 (as amended): if the option loop accepts the arguments and no round of it meets
an offset option, the placement offset is the initial 512, taken as bytes and not
multiplied by 1024.  Whatever image `main` then writes has the 32-bit length
`(512 + fsSize) mod 2 ^ 32`; for a filesystem file below `2 ^ 32` bytes it has
exactly `512 + len fs` bytes and the filesystem image lies at byte offset 512.  Under
the stated bounds on the sizes `main` does write that image.  In any round of the
loop the offset changes only for an `OFFSET` result of `GetOptVal`, and then to 1024
times the value given. -/
theorem default_offset (fs : FileSystem) (args : List CStr) (vars : Vars) (out : List Msg)
    (hp : parseArgs args = some (Parsed.done vars out))
    (hno : noRound OFFSET (LoopState.init args)) :
    vars.offset = 512
      ∧ (∀ st out1 io fs1 name data, main fs args = some (Outcome.exit st out1 io fs1) →
          IOEvent.write name data ∈ io →
          data.length = (512 + FileSize fs vars.fsFileName) % 4294967296
            ∧ ∀ f F, vars.fsFileName = some f → fs f = some F → F.length < 4294967296 →
                data.length = 512 + F.length ∧ data.drop 512 = F)
      ∧ (∀ p f ip P F, vars.progFileName = some p → fs p = some P →
          vars.fsFileName = some f → fs f = some F → vars.imageFileName = some ip →
          P ≠ [] → F ≠ [] → P.length < 4294967296 → 512 + F.length < 4294967296 →
          P.length ≤ 512 + F.length →
          (vars.verbose = true → 512 + F.length < 1073741824) →
          ∃ out1 io image,
            main fs args
                = some (Outcome.exit 0 out1 io (WriteBinaryFile fs ip image image.length))
              ∧ IOEvent.write ip image ∈ io
              ∧ image.length = 512 + F.length ∧ image.drop 512 = F)
      ∧ ∀ (s s1 : LoopState) (r : OptVal), loopBody s = Round.next s1 →
          GetOptVal s.argc s.argv = some r →
          (r.optNum ≠ OFFSET → s1.vars.offset = s.vars.offset)
            ∧ (r.optNum = OFFSET →
                ∃ v, r.optValPtr = some v ∧ s1.vars.offset = toUInt32 (atoi v) * 1024) := by
  have hoff : vars.offset = 512 := by
    have h := (@parseArgs_keep args vars out 0 (LoopState.init args) hp rfl).2.2.2.1 hno
    rw [h]
    rfl
  have hmain : main fs args = some (mergeFiles fs vars out) := by
    unfold main
    rw [hp]
  have hwrite : ∀ st out1 io fs1 name data,
      main fs args = some (Outcome.exit st out1 io fs1) →
      IOEvent.write name data ∈ io →
      data.length = (512 + FileSize fs vars.fsFileName) % 4294967296
        ∧ ∀ f F, vars.fsFileName = some f → fs f = some F → F.length < 4294967296 →
            data.length = 512 + F.length ∧ data.drop 512 = F := by
    intro st out1 io fs1 name data h hw
    rw [hmain] at h
    have h' := Option.some.inj h
    obtain ⟨-, -, -, hlen⟩ := mergeFiles_write h' hw
    obtain ⟨sz, image, hc, hd⟩ := mergeFiles_write_compose h' hw
    subst hd
    rw [hoff] at hlen hc
    refine ⟨hlen, ?_⟩
    intro f F hf hF hFlt
    obtain ⟨h1, h2, -⟩ := composeImage_drop hc
    have hsize : FileSize fs vars.fsFileName = F.length := by
      rw [hf]
      simp only [FileSize, hF]
      exact Nat.mod_eq_of_lt hFlt
    rw [hsize] at h1 h2
    refine ⟨h1, ?_⟩
    rw [h2]
    by_cases hz : F.length = 0
    · rw [hz, List.take_zero]
      exact (List.length_eq_zero.1 hz).symm
    · have hne : F.length % 4294967296 ≠ 0 := by
        rw [Nat.mod_eq_of_lt hFlt]; exact hz
      rw [hf, ReadBinaryFile_of_file none hF hne, Nat.mod_eq_of_lt hFlt]
      simp
  refine ⟨hoff, hwrite, ?_, ?_⟩
  · intro p f ip P F hprog hP hfs hF hi hPne hFne hPlt hno2 hle hverb
    have hFlt : F.length < 4294967296 := by omega
    obtain ⟨⟨x, hx⟩, -⟩ := parseArgs_vars hp
    have hfill : ∃ c, fillByte vars.fillChar = some c := by
      rw [hx]
      cases x with
      | nil => exact ⟨_, rfl⟩
      | cons a as => exact ⟨_, rfl⟩
    obtain ⟨c, hc⟩ := hfill
    have hPm := Nat.mod_eq_of_lt hPlt
    have hFm := Nat.mod_eq_of_lt hFlt
    obtain ⟨out1, io, image, h1, h2, h3⟩ := mergeFiles_success fs vars out hprog hP hfs hF hi hc
      (mod_ne_zero_of_small hPne hPlt) (mod_ne_zero_of_small hFne hFlt)
      (by rw [hFm, hoff]; exact hno2) (by rw [hPm, hFm, hoff]; exact hle)
      (by intro hv; rw [hFm, hoff]; exact hverb hv)
    rw [hFm, hoff] at h3
    have hm : main fs args
        = some (Outcome.exit 0 out1 io (WriteBinaryFile fs ip image image.length)) := by
      rw [hmain, h1]
    exact ⟨out1, io, image, hm, h2, h3, ((hwrite _ _ _ _ _ _ hm h2).2 f F hfs hF hFlt).2⟩
  · intro s s1 r hb hg
    exact ⟨(loopBody_next_keep hb hg).2.2.2.1, fun ho => by
      obtain ⟨v, h1, -, -, h2⟩ := (loopBody_next_set hb hg).2.2.2.1 ho
      exact ⟨v, h1, h2⟩⟩

/-- C12, an instance: `-prog p -fs f -image o` with a 2-byte program and a 1-byte
filesystem image contains no offset option, and `main` writes an image of 513 bytes
with the filesystem image at byte offset 512. -/
theorem default_offset_witness :
    noRound OFFSET (LoopState.init [['-', 'p', 'r', 'o', 'g'], ['p'], ['-', 'f', 's'], ['f'],
        ['-', 'i', 'm', 'a', 'g', 'e'], ['o']])
      ∧ ∃ out1 io image,
          main (fun name => if name = ['p'] then some [1, 2]
                  else if name = ['f'] then some [9] else none)
              [['-', 'p', 'r', 'o', 'g'], ['p'], ['-', 'f', 's'], ['f'],
               ['-', 'i', 'm', 'a', 'g', 'e'], ['o']]
            = some (Outcome.exit 0 out1 io
                (WriteBinaryFile
                  (fun name => if name = ['p'] then some [1, 2]
                    else if name = ['f'] then some [9] else none)
                  ['o'] image image.length))
          ∧ IOEvent.write ['o'] image ∈ io
          ∧ image.length = 512 + [9].length ∧ image.drop 512 = [9] :=
  ⟨noRound_of_tokens (by decide) (by decide),
    (default_offset
      (fun name => if name = ['p'] then some [1, 2] else if name = ['f'] then some [9] else none)
      [['-', 'p', 'r', 'o', 'g'], ['p'], ['-', 'f', 's'], ['f'],
       ['-', 'i', 'm', 'a', 'g', 'e'], ['o']]
      { progFileName := some ['p'], fsFileName := some ['f'], imageFileName := some ['o'],
        fillChar := some [], verbose := false, offset := 512 }
      [] (parseArgs_three ['p'] ['f'] ['o'])
      (noRound_of_tokens (by decide) (by decide))).2.2.1
      ['p'] ['f'] ['o'] [1, 2] [9] rfl (if_pos rfl) rfl
        (by decide) rfl (by decide) (by decide) (by decide) (by decide) (by decide)
        (by decide)⟩

theorem main_undefined_default (F : List uchar) (hF : F.length = 4294966784) :
    main (fun name => if name = ['p'] then some [1]
            else if name = ['f'] then some F else none)
        [['-', 'p', 'r', 'o', 'g'], ['p'], ['-', 'f', 's'], ['f'],
         ['-', 'i', 'm', 'a', 'g', 'e'], ['o']]
      = some Outcome.undefined := by
  unfold main
  rw [parseArgs_three ['p'] ['f'] ['o']]
  simp only [Option.some.injEq]
  obtain ⟨out1, hm⟩ := @mergeFiles_of_read
    (fun name => if name = ['p'] then some [1] else if name = ['f'] then some F else none)
    { progFileName := some ['p'], fsFileName := some ['f'],
      imageFileName := some ['o'], fillChar := some [], verbose := false,
      offset := 512 } [] ['p'] ['f'] [1] F
    rfl (if_pos rfl) (by decide) rfl
    (by beta_reduce; rw [if_neg (by decide), if_pos rfl]) (by rw [hF]; decide)
    (by intro h; exact absurd h (by decide))
  rw [hm, composeImage_none_of_small (by rw [hF]; decide)]

/-- C12, as stated, fails: `-prog p -fs f -image o` has no offset option and is
accepted with offset 512, yet for a filesystem image of 2^32 - 512 bytes the 32-bit
sum `512 + fsSize` wraps to 0 and `main` writes no output of 512 + len(fsImage)
bytes: its behaviour is undefined. -/
theorem default_offset_counterexample :
    (List.replicate 4294966784 (170 : uchar)).length = 4294966784
      ∧ parseArgs [['-', 'p', 'r', 'o', 'g'], ['p'], ['-', 'f', 's'], ['f'],
            ['-', 'i', 'm', 'a', 'g', 'e'], ['o']]
          = some (Parsed.done
              { progFileName := some ['p'], fsFileName := some ['f'],
                imageFileName := some ['o'], fillChar := some [], verbose := false,
                offset := 512 } [])
      ∧ main (fun name => if name = ['p'] then some [1]
              else if name = ['f'] then some (List.replicate 4294966784 170) else none)
          [['-', 'p', 'r', 'o', 'g'], ['p'], ['-', 'f', 's'], ['f'],
           ['-', 'i', 'm', 'a', 'g', 'e'], ['o']]
        = some Outcome.undefined :=
  ⟨List.length_replicate _ _, parseArgs_three ['p'] ['f'] ['o'],
    main_undefined_default (List.replicate 4294966784 170) (List.length_replicate _ _)⟩

/-! ## The documented default offset -/

/-- C13, the failing input: with a 1-byte program and a 1-byte filesystem image,
`-prog p -fs f -image o` writes an image of 513 bytes (offset 512 bytes), whereas the
same arguments with `-offset 1024` added write an image of 1048577 bytes (offset
1024 * 1024 bytes): omitting the option is not the same as `-offset 1024`, the default
that the help text documents. -/
theorem default_not_offset_1024 :
    ∃ out1 io1 image1 out2 io2 image2,
      main (fun name => if name = ['p'] then some [1]
              else if name = ['f'] then some [2] else none)
          [['-', 'p', 'r', 'o', 'g'], ['p'], ['-', 'f', 's'], ['f'],
           ['-', 'i', 'm', 'a', 'g', 'e'], ['o']]
        = some (Outcome.exit 0 out1 io1
            (WriteBinaryFile
              (fun name => if name = ['p'] then some [1]
                else if name = ['f'] then some [2] else none)
              ['o'] image1 image1.length))
        ∧ main (fun name => if name = ['p'] then some [1]
              else if name = ['f'] then some [2] else none)
          [['-', 'p', 'r', 'o', 'g'], ['p'], ['-', 'f', 's'], ['f'],
           ['-', 'i', 'm', 'a', 'g', 'e'], ['o'], ['-', 'o', 'f', 'f', 's', 'e', 't'],
           ['1', '0', '2', '4']]
        = some (Outcome.exit 0 out2 io2
            (WriteBinaryFile
              (fun name => if name = ['p'] then some [1]
                else if name = ['f'] then some [2] else none)
              ['o'] image2 image2.length))
        ∧ image1.length = 513 ∧ image2.length = 1048577 ∧ image1 ≠ image2 := by
  obtain ⟨out1, io1, image1, h1, -, l1⟩ := @mergeFiles_success
    (fun name => if name = ['p'] then some [1] else if name = ['f'] then some [2] else none)
    { progFileName := some ['p'], fsFileName := some ['f'],
      imageFileName := some ['o'], fillChar := some [], verbose := false,
      offset := 512 } [] ['p'] ['f'] ['o'] [1] [2] 0
    rfl (if_pos rfl) rfl (by decide) rfl rfl (by decide) (by decide) (by decide) (by decide)
    (by intro h; exact absurd h (by decide))
  obtain ⟨out2, io2, image2, h2, -, l2⟩ := @mergeFiles_success
    (fun name => if name = ['p'] then some [1] else if name = ['f'] then some [2] else none)
    { progFileName := some ['p'], fsFileName := some ['f'],
      imageFileName := some ['o'], fillChar := some [], verbose := false,
      offset := toUInt32 (atoi ['1', '0', '2', '4']) * 1024 } [] ['p'] ['f'] ['o'] [1] [2] 0
    rfl (if_pos rfl) rfl (by decide) rfl rfl (by decide) (by decide) (by decide) (by decide)
    (by intro h; exact absurd h (by decide))
  refine ⟨out1, io1, image1, out2, io2, image2, ?_, ?_, l1, l2, ?_⟩
  · unfold main
    rw [parseArgs_three ['p'] ['f'] ['o']]
    simp only
    rw [h1]
  · unfold main
    rw [parseArgs_usual ['p'] ['f'] ['o'] ['1', '0', '2', '4'] (by decide) (by decide)]
    simp only
    rw [h2]
  · intro h
    rw [h, l2] at l1
    exact absurd l1 (by decide)

/-! ## A program image that reaches into the filesystem region -/

/-- C14 (as amended): let the option loop accept the arguments, with placement offset
`vars.offset`, and let the program and filesystem files hold `P` and `F` with
`offset < len P`.  If `len P <= offset + len F` and `offset + len F < 2 ^ 32`, then
`main` reads exactly `P` and `F` and the image composed from them (lines 170-174) has
length `offset + len F`, its bytes `[offset, offset + len F)` are `F` and its bytes
`[0, offset)` are the first `offset` bytes of `P`: the filesystem copy overwrites the
tail of the program region.  With an `-image` path (and, with `-v`,
`offset + len F < 2 ^ 30`) `main` returns 0 and writes exactly this image. -/
theorem overlap_keeps_filesystem (fs : FileSystem) (args : List CStr) (vars : Vars)
    (out : List Msg) (p f : CStr) (P F : List uchar)
    (hp : parseArgs args = some (Parsed.done vars out))
    (hprog : vars.progFileName = some p) (hP : fs p = some P)
    (hfs : vars.fsFileName = some f) (hF : fs f = some F) (hFne : F ≠ [])
    (hgt : vars.offset < P.length) (hle : P.length ≤ vars.offset + F.length)
    (hno : vars.offset + F.length < 4294967296) :
    ∃ image,
      ReadBinaryFile fs vars.progFileName none = (P.length, some P)
        ∧ ReadBinaryFile fs vars.fsFileName none = (F.length, some F)
        ∧ composeImage P F P.length F.length vars.offset vars.fillChar
            = some (vars.offset + F.length, image)
        ∧ image.length = vars.offset + F.length
        ∧ image.drop vars.offset = F
        ∧ image.take vars.offset = P.take vars.offset
        ∧ ∀ ip, vars.imageFileName = some ip →
            (vars.verbose = true → vars.offset + F.length < 1073741824) →
            ∃ out1 io,
              main fs args
                  = some (Outcome.exit 0 out1 io (WriteBinaryFile fs ip image image.length))
                ∧ IOEvent.write ip image ∈ io := by
  have hPlt : P.length < 4294967296 := by omega
  have hFlt : F.length < 4294967296 := by omega
  have hPne : P ≠ [] := by
    intro h
    rw [h] at hgt
    exact absurd hgt (Nat.not_lt_zero _)
  have hPm := Nat.mod_eq_of_lt hPlt
  have hFm := Nat.mod_eq_of_lt hFlt
  have hrP := ReadBinaryFile_of_file none hP (mod_ne_zero_of_small hPne hPlt)
  have hrF := ReadBinaryFile_of_file none hF (mod_ne_zero_of_small hFne hFlt)
  rw [hPm, List.take_length] at hrP
  rw [hFm, List.take_length] at hrF
  obtain ⟨⟨x, hx⟩, -⟩ := parseArgs_vars hp
  have hfill : ∃ c, fillByte vars.fillChar = some c := by
    rw [hx]
    cases x with
    | nil => exact ⟨_, rfl⟩
    | cons a as => exact ⟨_, rfl⟩
  obtain ⟨c, hc⟩ := hfill
  have hcomp := @composeImage_eq P F vars.offset vars.fillChar c hc hno hle
  obtain ⟨image, hcomp⟩ : ∃ image, composeImage P F P.length F.length vars.offset
      vars.fillChar = some (vars.offset + F.length, image) := ⟨_, hcomp⟩
  obtain ⟨h1, h2, h3⟩ := composeImage_drop hcomp
  rw [List.take_length] at h2 h3
  have hzero : vars.offset - P.length = 0 := by omega
  rw [hzero, List.replicate_zero, List.append_nil] at h3
  refine ⟨image, by rw [hprog]; exact hrP, by rw [hfs]; exact hrF, hcomp, h1, h2, h3, ?_⟩
  intro ip himg hverb
  obtain ⟨out1, hm⟩ := mergeFiles_of_read fs vars out hprog hP
    (mod_ne_zero_of_small hPne hPlt) hfs hF (mod_ne_zero_of_small hFne hFlt)
    (by
      intro hv
      have := hverb hv
      rw [hPm, hFm, Nat.mod_eq_of_lt hno]
      omega)
  rw [hPm, hFm, List.take_length, List.take_length, hcomp, himg] at hm
  simp only at hm
  rw [List.take_of_length_le (le_of_eq h1), ← h1] at hm
  have hmain : main fs args = some (mergeFiles fs vars out) := by
    unfold main
    rw [hp]
  exact ⟨out1, _, hmain.trans (congrArg some hm), by simp⟩

/-- C14, an instance: the default offset 512, a program image of 513 bytes and a
1-byte filesystem image: the image has 513 bytes, byte 512 is the filesystem image
and bytes 0-511 are the first 512 bytes of the program image. -/
theorem overlap_keeps_filesystem_witness :
    ∃ image,
      composeImage (List.replicate 513 1) [9] 513 1 512 (some []) = some (513, image)
        ∧ image.length = 513
        ∧ image.drop 512 = [9]
        ∧ image.take 512 = (List.replicate 513 1).take 512
        ∧ ∃ out1 io,
            main (fun name => if name = ['p'] then some (List.replicate 513 1)
                    else if name = ['f'] then some [9] else none)
                [['-', 'p', 'r', 'o', 'g'], ['p'], ['-', 'f', 's'], ['f'],
                 ['-', 'i', 'm', 'a', 'g', 'e'], ['o']]
              = some (Outcome.exit 0 out1 io
                  (WriteBinaryFile
                    (fun name => if name = ['p'] then some (List.replicate 513 1)
                      else if name = ['f'] then some [9] else none)
                    ['o'] image image.length))
              ∧ IOEvent.write ['o'] image ∈ io := by
  obtain ⟨image, -, -, h1, h2, h3, h4, h5⟩ := overlap_keeps_filesystem
    (fun name => if name = ['p'] then some (List.replicate 513 1)
      else if name = ['f'] then some [9] else none)
    [['-', 'p', 'r', 'o', 'g'], ['p'], ['-', 'f', 's'], ['f'],
     ['-', 'i', 'm', 'a', 'g', 'e'], ['o']]
    { progFileName := some ['p'], fsFileName := some ['f'], imageFileName := some ['o'],
      fillChar := some [], verbose := false, offset := 512 }
    [] ['p'] ['f'] (List.replicate 513 1) [9]
    (parseArgs_three ['p'] ['f'] ['o']) rfl (if_pos rfl) rfl (by decide) (by decide)
    (by rw [List.length_replicate]; decide) (by rw [List.length_replicate]; decide)
    (by decide)
  rw [List.length_replicate] at h1
  exact ⟨image, h1, h2, h3, h4, h5 ['o'] rfl (by intro h; exact absurd h (by decide))⟩

theorem main_undefined_overlap (P F : List uchar) (hP : P.length = 33554433)
    (hF : F.length = 4261412864) :
    composeImage P F P.length F.length 33554432 (some []) = none
      ∧ main (fun name => if name = ['p'] then some P
              else if name = ['f'] then some F else none)
          [['-', 'p', 'r', 'o', 'g'], ['p'], ['-', 'f', 's'], ['f'],
           ['-', 'i', 'm', 'a', 'g', 'e'], ['o'], ['-', 'o', 'f', 'f', 's', 'e', 't'],
           ['3', '2', '7', '6', '8']]
        = some Outcome.undefined := by
  refine ⟨composeImage_none_of_small (by rw [hP, hF]; decide), ?_⟩
  have hparse := parseArgs_usual ['p'] ['f'] ['o'] ['3', '2', '7', '6', '8']
    (by decide) (by decide)
  unfold main
  rw [hparse]
  simp only [Option.some.injEq]
  obtain ⟨out1, hm⟩ := @mergeFiles_of_read
    (fun name => if name = ['p'] then some P else if name = ['f'] then some F else none)
    { progFileName := some ['p'], fsFileName := some ['f'],
      imageFileName := some ['o'], fillChar := some [], verbose := false,
      offset := toUInt32 (atoi ['3', '2', '7', '6', '8']) * 1024 } [] ['p'] ['f'] P F
    rfl (if_pos rfl) (by rw [hP]; decide) rfl
    (by beta_reduce; rw [if_neg (by decide), if_pos rfl]) (by rw [hF]; decide)
    (by intro h; exact absurd h (by decide))
  rw [hm, composeImage_none_of_small (by rw [hP, hF]; decide)]

/-- C14, as stated, fails: with the accepted offset 32768 (33554432 bytes), a program
image of 33554433 bytes (longer than the offset) and a filesystem image of
2^32 - 2^25 bytes, the 32-bit sum `offset + fsSize` wraps to 0: composition yields no
buffer of length `offset + len F`, and the behaviour of `main` is undefined. -/
theorem overlap_counterexample :
    (List.replicate 33554433 (1 : uchar)).length = 33554433
      ∧ (List.replicate 4261412864 (170 : uchar)).length = 4261412864
      ∧ composeImage (List.replicate 33554433 1) (List.replicate 4261412864 170)
          (List.replicate 33554433 (1 : uchar)).length
          (List.replicate 4261412864 (170 : uchar)).length 33554432 (some []) = none
      ∧ main (fun name => if name = ['p'] then some (List.replicate 33554433 1)
              else if name = ['f'] then some (List.replicate 4261412864 170) else none)
          [['-', 'p', 'r', 'o', 'g'], ['p'], ['-', 'f', 's'], ['f'],
           ['-', 'i', 'm', 'a', 'g', 'e'], ['o'], ['-', 'o', 'f', 'f', 's', 'e', 't'],
           ['3', '2', '7', '6', '8']]
        = some Outcome.undefined :=
  ⟨List.length_replicate _ _, List.length_replicate _ _,
    main_undefined_overlap (List.replicate 33554433 1) (List.replicate 4261412864 170)
      (List.length_replicate _ _) (List.length_replicate _ _)⟩

/-! ## Options without a value -/

theorem table_upper :
    ∀ nm ∈ g_optTable, takesValue nm = false ↔ (nm = ['V'] ∨ nm = ['H']) := by
  decide

theorem table_upper_head :
    ∀ nm ∈ g_optTable,
      (∃ c0 rest, nm = c0 :: rest ∧ isupper c0 = true) ↔ (nm = ['V'] ∨ nm = ['H']) := by
  intro nm hnm
  have h := table_upper nm hnm
  rw [← h]
  unfold takesValue
  cases nm with
  | nil => simp
  | cons a as => simp

/-- C15: the table entries whose name begins with an upper-case letter are exactly `V`
and `H`, and they are exactly the entries that take no value.  For a token whose text
selects `V` or `H` (in any letter case, with anything after the letter) `GetOptVal`
returns the index, leaves `argc` as it is and does not consume the following argument.
For a token that selects `prog`, `fs`, `image`, `offset` or `fillchar` it returns
either the index with a value, the non-empty text attached to the name or else the next
argument (which is then consumed and `argc` decremented), or `MISSINGVALUE` when
nothing is attached and no argument follows. -/
theorem upper_case_takes_no_value (argc : Int) (c : Char) (t : CStr) (rest : List CStr)
    (i : Nat) (name : CStr) (hc : c = '-' ∨ c = '/') (hfirst : IsFirstMatch t i name) :
    (∀ nm ∈ g_optTable,
        (∃ c0 tl, nm = c0 :: tl ∧ isupper c0 = true) ↔ (nm = ['V'] ∨ nm = ['H']))
      ∧ (∀ nm ∈ g_optTable, takesValue nm = false ↔ (nm = ['V'] ∨ nm = ['H']))
      ∧ ((name = ['V'] ∨ name = ['H']) →
          GetOptVal argc (ArgPtr.entry ((c :: t) :: rest))
            = some { optNum := (i : Int), argc := argc, argv := ArgPtr.entry rest,
                     optValPtr := some t })
      ∧ (¬ (name = ['V'] ∨ name = ['H']) →
          (t.drop name.length ≠ [] ∧
            GetOptVal argc (ArgPtr.entry ((c :: t) :: rest))
              = some { optNum := (i : Int), argc := argc, argv := ArgPtr.entry rest,
                       optValPtr := some (t.drop name.length) })
          ∨ (t.drop name.length = [] ∧ ∃ v rest1, rest = v :: rest1 ∧
              GetOptVal argc (ArgPtr.entry ((c :: t) :: rest))
                = some { optNum := (i : Int), argc := argc - 1, argv := ArgPtr.entry rest1,
                         optValPtr := some v })
          ∨ (t.drop name.length = [] ∧ rest = [] ∧
              GetOptVal argc (ArgPtr.entry ((c :: t) :: rest))
                = some { optNum := MISSINGVALUE, argc := argc - 1, argv := ArgPtr.null,
                         optValPtr := none })) := by
  have hi := firstMatch_of_isFirstMatch hfirst
  have hget := hfirst.1
  have hmem : name ∈ g_optTable := List.get?_mem hget
  have hup := table_upper name hmem
  refine ⟨table_upper_head, table_upper, ?_, ?_⟩
  · intro hn
    have htv : takesValue name = false := hup.2 hn
    rw [GetOptVal_delim argc c t rest hc]
    unfold optionResult
    rw [hi, hget]
    simp [htv]
  · intro hn
    have htv : takesValue name = true := by
      cases h : takesValue name with
      | true => rfl
      | false => exact absurd (hup.1 h) hn
    rw [GetOptVal_delim argc c t rest hc]
    unfold optionResult
    rw [hi, hget]
    by_cases hd : t.drop name.length = []
    · cases rest with
      | nil => right; right; simp [htv, hd]
      | cons v rest1 =>
        right; left
        refine ⟨hd, v, rest1, rfl, ?_⟩
        simp [htv, hd]
    · left; simp [htv, hd]

/-- C15, an instance: `-verbose` before the argument `x` selects `V`, and `x` stays. -/
theorem upper_case_takes_no_value_witness :
    IsFirstMatch ['v', 'e', 'r', 'b', 'o', 's', 'e'] 5 ['V']
      ∧ GetOptVal 2 (ArgPtr.entry (('-' :: ['v', 'e', 'r', 'b', 'o', 's', 'e']) :: [['x']]))
          = some { optNum := ((5 : Nat) : Int), argc := 2, argv := ArgPtr.entry [['x']],
                   optValPtr := some ['v', 'e', 'r', 'b', 'o', 's', 'e'] } :=
  ⟨isFirstMatch_of_match (by decide) (by decide),
    (upper_case_takes_no_value 2 '-' ['v', 'e', 'r', 'b', 'o', 's', 'e'] [['x']] 5 ['V']
      (Or.inl rfl) (isFirstMatch_of_match (by decide) (by decide))).2.2.1 (Or.inl rfl)⟩

/-! ## The fill byte -/

theorem composeImage_fill {P F image : List uchar} {progSize fsSize offset sz : Nat}
    {fillChar : Option CStr}
    (h : composeImage P F progSize fsSize offset fillChar = some (sz, image)) :
    ∀ i, progSize ≤ i → i < offset → image.get? i = fillByte fillChar := by
  intro i h1 h2
  obtain ⟨-, -, hps, hpl, -, c, hc, himg⟩ := composeImage_some h
  have hlen : (P.take progSize ++ List.replicate (offset + fsSize - progSize) c).length
      = offset + fsSize := by
    rw [List.length_append, List.length_replicate, List.length_take, Nat.min_eq_left hpl]
    omega
  have hpt : (P.take progSize).length = progSize := by
    rw [List.length_take, Nat.min_eq_left hpl]
  rw [himg, hc, List.get?_eq_getElem?,
    List.getElem?_append_left (by rw [List.length_take, hlen]; omega),
    List.getElem?_take, if_pos h2, List.getElem?_append_right (by rw [hpt]; exact h1), hpt,
    List.getElem?_replicate, if_pos (by omega)]

theorem rounds_succ {m : Nat} {a b : LoopState} (h : rounds m a = some b) :
    rounds (m + 1) a = rounds 1 b := by
  induction m generalizing a with
  | zero =>
    simp only [rounds, Option.some.injEq] at h
    rw [h]
  | succ m ih =>
    unfold rounds at h
    by_cases hg1 : a.argc - 1 > 0
    · simp only [hg1, if_true] at h
      cases hb1 : loopBody { a with argc := a.argc - 1 } with
      | stop q => simp [hb1] at h
      | next a1 =>
        simp only [hb1] at h
        conv_lhs => unfold rounds
        simp only [hg1, if_true, hb1]
        exact ih h
    · simp [hg1] at h

/-- One more round after a state that the loop passes through. -/
theorem rounds_step {m : Nat} {a s s1 : LoopState} (hr : rounds m a = some s)
    (hgt : s.argc - 1 > 0) (hb : loopBody { s with argc := s.argc - 1 } = Round.next s1) :
    rounds (m + 1) a = some s1 := by
  rw [rounds_succ hr]
  unfold rounds
  simp only [hgt, if_true, hb]
  rfl

/-- C16: in a configuration that the option loop accepts, every position of a composed
image from the end of the program image up to the placement offset holds the byte
`*fillChar`, also in the image that `main` writes.  That byte is 0 when no round of the
loop meets a fillchar option; and when a round meets one and none follows it, the byte
is the first character of that option's value as an `unsigned char`, 0 for an empty
value, whatever follows the first character: the value `255` fills with the
character `2` (0x32 = 50), not with the byte 255. -/
theorem fill_byte_first_char (fs : FileSystem) (args : List CStr) (vars : Vars)
    (out : List Msg) (hp : parseArgs args = some (Parsed.done vars out)) :
    (∀ P F progSize fsSize sz image,
        composeImage P F progSize fsSize vars.offset vars.fillChar = some (sz, image) →
        ∀ i, progSize ≤ i → i < vars.offset → image.get? i = fillByte vars.fillChar)
      ∧ (∀ st out1 io fs1 name data, main fs args = some (Outcome.exit st out1 io fs1) →
          IOEvent.write name data ∈ io →
          ∀ i, FileSize fs vars.progFileName ≤ i → i < vars.offset →
            data.get? i = fillByte vars.fillChar)
      ∧ (noRound FILLCHAR (LoopState.init args) → fillByte vars.fillChar = some 0)
      ∧ (∀ n s s1 r, rounds n (LoopState.init args) = some s → s.argc - 1 > 0 →
          loopBody { s with argc := s.argc - 1 } = Round.next s1 →
          GetOptVal (s.argc - 1) s.argv = some r → r.optNum = FILLCHAR →
          noRound FILLCHAR s1 →
          ∃ v, r.optValPtr = some v ∧ vars.fillChar = some v
            ∧ fillByte vars.fillChar
                = some (match v with
                        | [] => 0
                        | c :: _ => c.toNat % 256))
      ∧ fillByte (some ['2', '5', '5']) = some 50 := by
  have hmain : main fs args = some (mergeFiles fs vars out) := by
    unfold main
    rw [hp]
  refine ⟨fun P F progSize fsSize sz image h => composeImage_fill h, ?_, ?_, ?_, by decide⟩
  · intro st out1 io fs1 name data h hw i h1 h2
    rw [hmain] at h
    obtain ⟨sz, image, hc, hd⟩ := mergeFiles_write_compose (Option.some.inj h) hw
    rw [hd]
    exact composeImage_fill hc i h1 h2
  · intro hno
    have h := (@parseArgs_keep args vars out 0 (LoopState.init args) hp rfl).2.2.2.2.1 hno
    rw [h]
    rfl
  · intro n s s1 r hr hgt hb hg ho hno
    have hr1 := rounds_step hr hgt hb
    have hkeep := (parseArgs_keep hp hr1).2.2.2.2.1 hno
    have hset := (loopBody_next_set hb hg).2.2.2.2.1 ho
    obtain ⟨v, hv⟩ := GetOptVal_optValPtr hg (by rw [ho]; decide)
    refine ⟨v, hv, by rw [hkeep, hset, hv], ?_⟩
    rw [hkeep, hset, hv]
    cases v with
    | nil => rfl
    | cons a as => rfl

theorem parseArgs_two_fillchar (x y : CStr) :
    parseArgs [['-', 'f', 'i', 'l', 'l', 'c', 'h', 'a', 'r'], x,
        ['-', 'f', 'i', 'l', 'l', 'c', 'h', 'a', 'r'], y]
      = some (Parsed.done { Vars.init with fillChar := some y } []) := by
  rw [parseArgs_eq_optionLoop (List.cons_ne_nil _ _)]
  simp only [List.length_cons, List.length_nil]
  rw [optionLoop_next 4 _ _ (by simp [LoopState.init])
    (by
      simp only [LoopState.init, List.length_cons, List.length_nil]
      rw [show (((0 + 1 + 1 + 1 + 1 : Nat) : Int) + 1 - 1) = (3 : Int) + 1 by decide]
      exact loopBody_fillchar _ _ _ _ _)]
  rw [optionLoop_next 3 _ _ (by simp only; omega)
    (by
      simp only
      rw [show ((3 : Int) - 1) = (1 : Int) + 1 by decide]
      exact loopBody_fillchar _ _ _ _ _)]
  rw [optionLoop_done _ _ (by simp only; omega)]

/-- C16, an instance: `-fillchar A -fillchar 255`: the last fillchar option has the
value `255`, and the fill byte is 50, the character `2`. -/
theorem fill_byte_first_char_witness :
    parseArgs [['-', 'f', 'i', 'l', 'l', 'c', 'h', 'a', 'r'], ['A'],
        ['-', 'f', 'i', 'l', 'l', 'c', 'h', 'a', 'r'], ['2', '5', '5']]
      = some (Parsed.done { Vars.init with fillChar := some ['2', '5', '5'] } [])
      ∧ ∃ v, some ['2', '5', '5'] = some v
          ∧ ({ Vars.init with fillChar := some ['2', '5', '5'] } : Vars).fillChar = some v
          ∧ fillByte ({ Vars.init with fillChar := some ['2', '5', '5'] } : Vars).fillChar
              = some (match v with
                      | [] => 0
                      | c :: _ => c.toNat % 256) :=
  ⟨parseArgs_two_fillchar ['A'] ['2', '5', '5'],
    (fill_byte_first_char (fun _ => none)
      [['-', 'f', 'i', 'l', 'l', 'c', 'h', 'a', 'r'], ['A'],
       ['-', 'f', 'i', 'l', 'l', 'c', 'h', 'a', 'r'], ['2', '5', '5']]
      { Vars.init with fillChar := some ['2', '5', '5'] } []
      (parseArgs_two_fillchar ['A'] ['2', '5', '5'])).2.2.2.1 1
      { vars := { Vars.init with fillChar := some ['A'] }, argc := 3,
        argv := ArgPtr.entry [['-', 'f', 'i', 'l', 'l', 'c', 'h', 'a', 'r'], ['2', '5', '5']],
        out := [] }
      { vars := { Vars.init with fillChar := some ['2', '5', '5'] }, argc := 1,
        argv := ArgPtr.entry [], out := [] }
      { optNum := FILLCHAR, argc := 1, argv := ArgPtr.entry [],
        optValPtr := some ['2', '5', '5'] }
      (by decide) (by decide) (by decide) (by decide) rfl
      (by
        intro m s2 hr hgt
        cases m with
        | zero =>
          simp only [rounds, Option.some.injEq] at hr
          subst hr
          exact absurd hgt (by decide)
        | succ m => simp [rounds] at hr)⟩

/-! ## A program image longer than the whole buffer -/

theorem main_undefined_long_program (P : List uchar) (hP : P.length = 514) :
    memcpy (List.replicate ((512 + 1) % 4294967296) 0) 0 P 514 = none
      ∧ composeImage P [9] 514 1 512 (some []) = none
      ∧ main (fun name => if name = ['p'] then some P
              else if name = ['f'] then some [9] else none)
          [['-', 'p', 'r', 'o', 'g'], ['p'], ['-', 'f', 's'], ['f'],
           ['-', 'i', 'm', 'a', 'g', 'e'], ['o']]
        = some Outcome.undefined := by
  refine ⟨?_, composeImage_none_of_small (by decide), ?_⟩
  · unfold memcpy
    rw [if_neg]
    rw [List.length_replicate]
    intro h
    exact absurd h.1 (by decide)
  · unfold main
    rw [parseArgs_three ['p'] ['f'] ['o']]
    simp only [Option.some.injEq]
    obtain ⟨out1, hm⟩ := @mergeFiles_of_read
      (fun name => if name = ['p'] then some P else if name = ['f'] then some [9] else none)
      { progFileName := some ['p'], fsFileName := some ['f'],
        imageFileName := some ['o'], fillChar := some [], verbose := false,
        offset := 512 } [] ['p'] ['f'] P [9]
      rfl (if_pos rfl) (by rw [hP]; decide) rfl
      (by beta_reduce; rw [if_neg (by decide), if_pos rfl]) (by decide)
      (by intro h; exact absurd h (by decide))
    rw [hm, composeImage_none_of_small (by rw [hP]; decide)]

/-- C17, the failing input: for `-prog p -fs f -image o` (default offset 512), a
program image of 514 bytes and a 1-byte filesystem image, the buffer is allocated with
`imageSize = 512 + 1 = 513` bytes, so `len(prog) <= imageSize` is false: the copy of
the program image, `memcpy(image, progImage, 514)`, leaves the buffer and the
behaviour of `main` is undefined. -/
theorem program_copy_out_of_bounds :
    (List.replicate 514 (1 : uchar)).length = 514
      ∧ ¬ (514 ≤ (512 + 1) % 4294967296)
      ∧ memcpy (List.replicate ((512 + 1) % 4294967296) 0) 0 (List.replicate 514 1) 514 = none
      ∧ composeImage (List.replicate 514 1) [9] 514 1 512 (some []) = none
      ∧ main (fun name => if name = ['p'] then some (List.replicate 514 1)
              else if name = ['f'] then some [9] else none)
          [['-', 'p', 'r', 'o', 'g'], ['p'], ['-', 'f', 's'], ['f'],
           ['-', 'i', 'm', 'a', 'g', 'e'], ['o']]
        = some Outcome.undefined :=
  ⟨List.length_replicate _ _, by decide,
    main_undefined_long_program (List.replicate 514 1) (List.length_replicate _ _)⟩

/-! ## The order of the table does not matter -/

theorem findIdx_get?_of_exists {l : List CStr} {p : CStr → Bool} (h : ∃ x ∈ l, p x = true) :
    ∃ y, l.get? (l.findIdx p) = some y ∧ y ∈ l ∧ p y = true := by
  have hlt : l.findIdx p < l.length := List.findIdx_lt_length.2 h
  refine ⟨l[l.findIdx p], ?_, List.getElem_mem _, List.findIdx_getElem⟩
  rw [List.get?_eq_getElem?]
  exact List.getElem?_eq_getElem hlt

theorem findIdx_get?_of_not_exists {l : List CStr} {p : CStr → Bool}
    (h : ¬ ∃ x ∈ l, p x = true) : l.get? (l.findIdx p) = none := by
  have hge : ¬ l.findIdx p < l.length := fun hlt => h (List.findIdx_lt_length.1 hlt)
  rw [List.get?_eq_getElem?]
  exact List.getElem?_eq_none (by omega)

/-- C18: no name in `g_optTable` is a case-insensitive beginning of another name in the
table.  Hence at most one table entry matches a given text, any matching entry is the
first match and is what the search loop of `GetOptVal` stops at, and for every
reordering of the table the search selects the same entry, or none, as for the
declared order. -/
theorem table_match_is_unique :
    (∀ a ∈ g_optTable, ∀ b ∈ g_optTable, a ≠ b → ¬ startsWithNoCase a b)
      ∧ (∀ t a b, a ∈ g_optTable → b ∈ g_optTable → startsWithNoCase a t →
          startsWithNoCase b t → a = b)
      ∧ (∀ t i name, g_optTable.get? i = some name → startsWithNoCase name t →
          IsFirstMatch t i name ∧ searchTable t g_optTable 0 0 = (i, 0))
      ∧ ∀ table1 t, List.Perm table1 g_optTable →
          table1.get? (searchTable t table1 0 0).1
              = g_optTable.get? (searchTable t g_optTable 0 0).1
            ∧ ((searchTable t table1 0 0).2 = 0 ↔ (searchTable t g_optTable 0 0).2 = 0) := by
  refine ⟨?_, ?_, ?_, ?_⟩
  · intro a ha b hb hne hs
    exact hne (table_startsWith_eq a ha b hb hs)
  · intro t a b ha hb hat hbt
    exact table_match_unique ha hb hat hbt
  · intro t i name hget hstart
    have hfirst := isFirstMatch_of_match hget hstart
    refine ⟨hfirst, ?_⟩
    have hi := firstMatch_of_isFirstMatch hfirst
    rw [searchTable_table t, hi]
    have hlt : firstMatch t < g_optTable.length :=
      (firstMatch_lt_iff t).2 ⟨name, List.get?_mem hget, hstart⟩
    rw [(searchTable_table_snd t).2 hlt]
  · intro table1 t hperm
    have hnul : ∀ name ∈ table1, ∀ c ∈ name, tolower c ≠ 0 :=
      fun name hname => table_no_nul name (hperm.mem_iff.1 hname)
    have h1 := searchTable_fst t table1 hnul 0 0
    have h2 := searchTable_fst t g_optTable table_no_nul 0 0
    rw [Nat.zero_add] at h1 h2
    have hex : (∃ x ∈ table1, decide (startsWithNoCase x t) = true)
        ↔ ∃ x ∈ g_optTable, decide (startsWithNoCase x t) = true := by
      constructor
      · rintro ⟨x, hx, hp⟩
        exact ⟨x, hperm.mem_iff.1 hx, hp⟩
      · rintro ⟨x, hx, hp⟩
        exact ⟨x, hperm.mem_iff.2 hx, hp⟩
    constructor
    · rw [h1, h2]
      by_cases he : ∃ x ∈ g_optTable, decide (startsWithNoCase x t) = true
      · obtain ⟨y1, hy1, hm1, hp1⟩ := findIdx_get?_of_exists (hex.2 he)
        obtain ⟨y2, hy2, hm2, hp2⟩ := findIdx_get?_of_exists he
        rw [hy1, hy2]
        have := table_match_unique (hperm.mem_iff.1 hm1) hm2 (of_decide_eq_true hp1)
          (of_decide_eq_true hp2)
        rw [this]
      · rw [findIdx_get?_of_not_exists (fun h => he (hex.1 h)),
          findIdx_get?_of_not_exists he]
    · rw [searchTable_snd t table1 hnul 0 0, searchTable_snd t g_optTable table_no_nul 0 0]
      have hne1 : table1 ≠ [] := by
        intro h
        have := hperm.length_eq
        rw [h] at this
        exact absurd this (by decide)
      constructor
      · rintro (⟨x, hx, hs⟩ | ⟨h, -⟩)
        · exact Or.inl ⟨x, hperm.mem_iff.1 hx, hs⟩
        · exact absurd h hne1
      · rintro (⟨x, hx, hs⟩ | ⟨h, -⟩)
        · exact Or.inl ⟨x, hperm.mem_iff.2 hx, hs⟩
        · exact absurd h (by decide)

/-! ## How the loop walks through the argument vector -/

theorem GetOptVal_consume {a : Int} {tok : CStr} {rest : List CStr} {r : OptVal}
    (h : GetOptVal a (ArgPtr.entry (tok :: rest)) = some r) :
    (r.argv = ArgPtr.entry rest ∧ r.argc = a ∧ r.optNum ≠ MISSINGVALUE
        ∧ ∃ v, r.optValPtr = some v)
      ∨ (∃ v rest1, rest = v :: rest1 ∧ r.argv = ArgPtr.entry rest1 ∧ r.argc = a - 1
          ∧ r.optValPtr = some v ∧ r.optNum ≠ MISSINGVALUE)
      ∨ (rest = [] ∧ r.argv = ArgPtr.null ∧ r.argc = a - 1 ∧ r.optNum = MISSINGVALUE) := by
  have hcast : ∀ n : Nat, (n : Int) ≠ MISSINGVALUE := by
    intro n
    simp only [MISSINGVALUE]
    omega
  rcases token_cases tok with hb | ⟨c, t, rfl, hc⟩
  · rw [GetOptVal_bare a tok rest hb] at h
    injection h with h
    subst h
    exact Or.inl ⟨rfl, rfl, (by decide : NOOPTION ≠ MISSINGVALUE), _, rfl⟩
  · rw [GetOptVal_delim a c t rest hc] at h
    injection h with h
    subst h
    cases hget : g_optTable.get? (firstMatch t) with
    | none =>
      have hval : optionResult a t rest
          = { optNum := NOTFOUND, argc := a, argv := ArgPtr.entry rest,
              optValPtr := some t } := by
        unfold optionResult
        rw [hget]
      rw [hval]
      exact Or.inl ⟨rfl, rfl, (by decide : NOTFOUND ≠ MISSINGVALUE), _, rfl⟩
    | some name =>
      by_cases htv : takesValue name = true
      · by_cases hd : t.drop name.length = []
        · cases rest with
          | nil =>
            have hval : optionResult a t []
                = { optNum := MISSINGVALUE, argc := a - 1, argv := ArgPtr.null,
                    optValPtr := none } := by
              unfold optionResult
              rw [hget]
              simp [htv, hd]
            rw [hval]
            exact Or.inr (Or.inr ⟨rfl, rfl, rfl, rfl⟩)
          | cons v rest1 =>
            have hval : optionResult a t (v :: rest1)
                = { optNum := (firstMatch t : Int), argc := a - 1,
                    argv := ArgPtr.entry rest1, optValPtr := some v } := by
              unfold optionResult
              rw [hget]
              simp [htv, hd]
            rw [hval]
            exact Or.inr (Or.inl ⟨v, rest1, rfl, rfl, rfl, rfl, hcast _⟩)
        · have hval : optionResult a t rest
              = { optNum := (firstMatch t : Int), argc := a, argv := ArgPtr.entry rest,
                  optValPtr := some (t.drop name.length) } := by
            unfold optionResult
            rw [hget]
            simp [htv, hd]
          rw [hval]
          exact Or.inl ⟨rfl, rfl, hcast _, _, rfl⟩
      · have hval : optionResult a t rest
            = { optNum := (firstMatch t : Int), argc := a, argv := ArgPtr.entry rest,
                optValPtr := some t } := by
          unfold optionResult
          rw [hget]
          simp [htv]
        rw [hval]
        exact Or.inl ⟨rfl, rfl, hcast _, _, rfl⟩

theorem loopBody_missing {s : LoopState} {r : OptVal}
    (hg : GetOptVal s.argc s.argv = some r) (hm : r.optNum = MISSINGVALUE) :
    loopBody s = Round.stop (help (s.out ++ [Msg.missingValue r.optValPtr])) := by
  unfold loopBody
  simp only [hg]
  have h0 : ¬ r.optNum = PROGNAME := by rw [hm]; decide
  have h1 : ¬ r.optNum = FSNAME := by rw [hm]; decide
  have h2 : ¬ r.optNum = IMAGENAME := by rw [hm]; decide
  have h3 : ¬ r.optNum = OFFSET := by rw [hm]; decide
  have h4 : ¬ r.optNum = FILLCHAR := by rw [hm]; decide
  have h5 : ¬ r.optNum = V := by rw [hm]; decide
  have h6 : ¬ r.optNum = H := by rw [hm]; decide
  rw [if_neg h0, if_neg h1, if_neg h2, if_neg h3, if_neg h4, if_neg h5, if_neg h6, if_pos hm]

theorem loopBody_stop_undefined {s : LoopState} {r : OptVal}
    (hg : GetOptVal s.argc s.argv = some r) (hv : ∃ v, r.optValPtr = some v) :
    loopBody s ≠ Round.stop Parsed.undefined := by
  intro h
  unfold loopBody at h
  simp only [hg] at h
  obtain ⟨v, hv⟩ := hv
  by_cases h0 : r.optNum = PROGNAME
  · rw [if_pos h0] at h; cases h
  rw [if_neg h0] at h
  by_cases h1 : r.optNum = FSNAME
  · rw [if_pos h1] at h; cases h
  rw [if_neg h1] at h
  by_cases h2 : r.optNum = IMAGENAME
  · rw [if_pos h2] at h; cases h
  rw [if_neg h2] at h
  by_cases h3 : r.optNum = OFFSET
  · rw [if_pos h3, hv] at h
    simp only at h
    by_cases hm : toUInt32 (atoi v) % 512 ≠ 0
    · rw [if_pos hm] at h; cases h
    rw [if_neg hm] at h
    by_cases hx : toUInt32 (atoi v) > MAXOFFSET
    · rw [if_pos hx] at h; cases h
    rw [if_neg hx] at h
    cases h
  rw [if_neg h3] at h
  by_cases h4 : r.optNum = FILLCHAR
  · rw [if_pos h4] at h; cases h
  rw [if_neg h4] at h
  by_cases h5 : r.optNum = V
  · rw [if_pos h5] at h; cases h
  rw [if_neg h5] at h
  by_cases h6 : r.optNum = H
  · rw [if_pos h6] at h; cases h
  rw [if_neg h6] at h
  by_cases h7 : r.optNum = MISSINGVALUE
  · rw [if_pos h7] at h; cases h
  rw [if_neg h7] at h
  by_cases h8 : r.optNum = NOOPTION
  · rw [if_pos h8] at h; cases h
  rw [if_neg h8] at h
  by_cases h9 : r.optNum = NOTFOUND
  · rw [if_pos h9] at h; cases h
  rw [if_neg h9] at h
  cases h

/-- One round from a well-formed state: `GetOptVal` is called on the next argument; it
consumes that argument alone, or that argument and the following one as its value, or
finds only the terminating null entry after it, and then the process ends. -/
theorem wellFormed_round {s : LoopState} (hw : WellFormed s) (hgt : s.argc - 1 > 0) :
    ∃ tok rest r, s.argv = ArgPtr.entry (tok :: rest)
      ∧ GetOptVal (s.argc - 1) s.argv = some r
      ∧ loopBody { s with argc := s.argc - 1 } ≠ Round.stop Parsed.undefined
      ∧ ((r.argv = ArgPtr.entry rest ∧ r.argc = (rest.length : Int) + 1)
          ∨ (∃ v rest1, rest = v :: rest1 ∧ r.optValPtr = some v
              ∧ r.argv = ArgPtr.entry rest1 ∧ r.argc = (rest1.length : Int) + 1)
          ∨ (rest = [] ∧ r.optNum = MISSINGVALUE ∧ r.argv = ArgPtr.null
              ∧ ∃ p, loopBody { s with argc := s.argc - 1 } = Round.stop p))
      ∧ ∀ s1, loopBody { s with argc := s.argc - 1 } = Round.next s1 →
          WellFormed s1 ∧ s1.argv = r.argv := by
  obtain ⟨l, hl, hc⟩ := hw
  cases l with
  | nil =>
    rw [hc] at hgt
    simp at hgt
  | cons tok rest =>
    have hex : ∃ r, GetOptVal (s.argc - 1) s.argv = some r := by
      rw [hl]
      rcases token_cases tok with hb | ⟨c, t, rfl, hdelim⟩
      · exact ⟨_, GetOptVal_bare _ _ _ hb⟩
      · exact ⟨_, GetOptVal_delim _ _ _ _ hdelim⟩
    obtain ⟨r, hg⟩ := hex
    have hg1 := hg
    rw [hl] at hg1
    have hcons := GetOptVal_consume hg1
    have hlen : s.argc - 1 = (rest.length : Int) + 1 := by
      rw [hc]
      simp
    have hdef : loopBody { s with argc := s.argc - 1 } ≠ Round.stop Parsed.undefined := by
      rcases hcons with ⟨-, -, -, hv⟩ | ⟨v, rest1, -, -, -, hv, -⟩ | ⟨-, -, -, hm⟩
      · exact loopBody_stop_undefined hg hv
      · exact loopBody_stop_undefined hg ⟨v, hv⟩
      · rw [@loopBody_missing { s with argc := s.argc - 1 } r hg hm]
        intro h
        simp [help] at h
    refine ⟨tok, rest, r, hl, hg, hdef, ?_, ?_⟩
    · rcases hcons with ⟨h1, h2, -, -⟩ | ⟨v, rest1, h1, h2, h3, h4, -⟩ | ⟨h1, h2, -, h4⟩
      · exact Or.inl ⟨h1, by rw [h2, hlen]⟩
      · right; left
        refine ⟨v, rest1, h1, h4, h2, ?_⟩
        rw [h3, hlen, h1]
        simp
      · right; right
        exact ⟨h1, h4, h2, _, @loopBody_missing { s with argc := s.argc - 1 } r hg h4⟩
    · intro s1 hb
      obtain ⟨r1, hgr, ha, hv, -⟩ := loopBody_next hb
      simp only at hgr
      rw [hg] at hgr
      injection hgr with hrr
      subst hrr
      refine ⟨?_, hv⟩
      rcases hcons with ⟨h1, h2, -, -⟩ | ⟨v, rest1, h1, h2, h3, h4, -⟩ | ⟨h1, h2, -, h4⟩
      · exact ⟨rest, by rw [hv, h1], by rw [ha, h2, hlen]⟩
      · refine ⟨rest1, by rw [hv, h2], ?_⟩
        rw [ha, h3, hlen, h1]
        simp
      · rw [@loopBody_missing { s with argc := s.argc - 1 } r hg h4] at hb
        cases hb

theorem wellFormed_init (args : List CStr) : WellFormed (LoopState.init args) :=
  ⟨args, rfl, rfl⟩

theorem rounds_wellFormed {n : Nat} {a s : LoopState} (hw : WellFormed a)
    (hr : rounds n a = some s) :
    WellFormed s ∧ ∃ mid, a.argv.tokens = mid ++ s.argv.tokens := by
  induction n generalizing a with
  | zero =>
    simp only [rounds, Option.some.injEq] at hr
    subst hr
    exact ⟨hw, [], rfl⟩
  | succ n ih =>
    unfold rounds at hr
    by_cases hgt : a.argc - 1 > 0
    · simp only [hgt, if_true] at hr
      cases hb : loopBody { a with argc := a.argc - 1 } with
      | stop q => simp [hb] at hr
      | next a1 =>
        simp only [hb] at hr
        obtain ⟨tok, rest, r, hl, hg, -, hcons, hnext⟩ := wellFormed_round hw hgt
        obtain ⟨hw1, hv1⟩ := hnext a1 hb
        obtain ⟨hws, mid, hmid⟩ := ih hw1 hr
        refine ⟨hws, ?_⟩
        rcases hcons with ⟨h1, -⟩ | ⟨v, rest1, h1, -, h2, -⟩ | ⟨-, -, -, p, hp⟩
        · refine ⟨tok :: mid, ?_⟩
          rw [hv1, h1] at hmid
          simp only [ArgPtr.tokens] at hmid
          rw [hl]
          simp only [ArgPtr.tokens, List.cons_append]
          rw [hmid]
        · refine ⟨tok :: v :: mid, ?_⟩
          rw [hv1, h2] at hmid
          simp only [ArgPtr.tokens] at hmid
          rw [hl, h1]
          simp only [ArgPtr.tokens, List.cons_append]
          rw [hmid]
        · rw [hp] at hb
          cases hb
    · simp [hgt] at hr

theorem optionLoop_defined (fuel : Nat) (s : LoopState) (p : Parsed) (hw : WellFormed s)
    (h : optionLoop fuel s = some p) : p ≠ Parsed.undefined := by
  induction fuel generalizing s with
  | zero =>
    unfold optionLoop at h
    by_cases hgt : s.argc - 1 > 0
    · simp [hgt] at h
    · simp only [hgt, if_false, Option.some.injEq] at h
      rw [← h]
      intro hc
      cases hc
  | succ fuel ih =>
    unfold optionLoop at h
    by_cases hgt : s.argc - 1 > 0
    · simp only [hgt, if_true] at h
      obtain ⟨tok, rest, r, hl, hg, hdef, -, hnext⟩ := wellFormed_round hw hgt
      cases hb : loopBody { s with argc := s.argc - 1 } with
      | stop q =>
        rw [hb] at h hdef
        simp only [Option.some.injEq] at h
        subst h
        intro hc
        rw [hc] at hdef
        exact hdef rfl
      | next s1 =>
        rw [hb] at h
        exact ih s1 (hnext s1 hb).1 h
    · simp only [hgt, if_false, Option.some.injEq] at h
      rw [← h]
      intro hc
      cases hc

theorem parseArgs_defined (args : List CStr) : parseArgs args ≠ some Parsed.undefined := by
  intro h
  unfold parseArgs at h
  split_ifs at h
  · simp [help] at h
  · exact optionLoop_defined _ _ _ (wellFormed_init args) h rfl

/-- A loop that ends with an accepted configuration has run some number of full rounds
up to a state in which the loop test fails, and the configuration is that state's. -/
theorem optionLoop_done_rounds (fuel : Nat) (s : LoopState) (vars : Vars) (out : List Msg)
    (h : optionLoop fuel s = some (Parsed.done vars out)) :
    ∃ n s1, rounds n s = some s1 ∧ ¬ (s1.argc - 1 > 0) ∧ s1.vars = vars ∧ s1.out = out := by
  induction fuel generalizing s with
  | zero =>
    unfold optionLoop at h
    by_cases hgt : s.argc - 1 > 0
    · simp [hgt] at h
    · simp only [hgt, if_false, Option.some.injEq, Parsed.done.injEq] at h
      exact ⟨0, s, rfl, hgt, h.1, h.2⟩
  | succ fuel ih =>
    unfold optionLoop at h
    by_cases hgt : s.argc - 1 > 0
    · simp only [hgt, if_true] at h
      cases hb : loopBody { s with argc := s.argc - 1 } with
      | stop p =>
        simp only [hb, Option.some.injEq] at h
        rcases loopBody_stop hb with hu | ⟨st, o, he⟩
        · rw [hu] at h
          cases h
        · rw [he] at h
          cases h
      | next s1 =>
        simp only [hb] at h
        obtain ⟨n, s2, hr, hng, hv, ho⟩ := ih s1 h
        refine ⟨n + 1, s2, ?_, hng, hv, ho⟩
        unfold rounds
        simp only [hgt, if_true, hb]
        exact hr
    · simp only [hgt, if_false, Option.some.injEq, Parsed.done.injEq] at h
      exact ⟨0, s, rfl, hgt, h.1, h.2⟩

/-- C19: for every argument list the option loop ends with a result, and that result is
never undefined: no `argv` entry beyond the terminating null is read and the null
entry is not dereferenced.  Every state that the loop passes through points at an
argument with exactly the not yet consumed arguments `l` after it, `args = pre ++ l`
and `argc = len l + 1`; a round hands the next argument to `GetOptVal`, which consumes
it alone, or it and the following argument as its value, or meets the terminating null
when a value is missing, in which case the process ends.  When an option occurs and
does not occur again afterwards, that occurrence determines the variable of the
accepted configuration; and a configuration is accepted only in a state in which no
argument is left. -/
theorem option_loop_walk (args : List CStr) :
    (∃ p, parseArgs args = some p ∧ p ≠ Parsed.undefined)
      ∧ (∀ n s, rounds n (LoopState.init args) = some s →
          ∃ pre l, args = pre ++ l ∧ s.argv = ArgPtr.entry l ∧ s.argc = (l.length : Int) + 1
            ∧ (s.argc - 1 > 0 →
                ∃ tok rest r, l = tok :: rest ∧ GetOptVal (s.argc - 1) s.argv = some r
                  ∧ ((r.argv = ArgPtr.entry rest ∧ r.argc = (rest.length : Int) + 1)
                      ∨ (∃ v rest1, rest = v :: rest1 ∧ r.optValPtr = some v
                          ∧ r.argv = ArgPtr.entry rest1 ∧ r.argc = (rest1.length : Int) + 1)
                      ∨ (rest = [] ∧ r.optNum = MISSINGVALUE ∧ r.argv = ArgPtr.null
                          ∧ ∃ p, loopBody { s with argc := s.argc - 1 } = Round.stop p))
                  ∧ ∀ s1, loopBody { s with argc := s.argc - 1 } = Round.next s1 →
                      s1.argv = r.argv ∧ s1.argc = r.argc))
      ∧ (∀ vars out n s s1 r, parseArgs args = some (Parsed.done vars out) →
          rounds n (LoopState.init args) = some s → s.argc - 1 > 0 →
          loopBody { s with argc := s.argc - 1 } = Round.next s1 →
          GetOptVal (s.argc - 1) s.argv = some r →
          (r.optNum = PROGNAME → noRound PROGNAME s1 → vars.progFileName = r.optValPtr)
            ∧ (r.optNum = FSNAME → noRound FSNAME s1 → vars.fsFileName = r.optValPtr)
            ∧ (r.optNum = IMAGENAME → noRound IMAGENAME s1 →
                vars.imageFileName = r.optValPtr)
            ∧ (r.optNum = OFFSET → noRound OFFSET s1 →
                ∃ v, r.optValPtr = some v ∧ vars.offset = toUInt32 (atoi v) * 1024)
            ∧ (r.optNum = FILLCHAR → noRound FILLCHAR s1 → vars.fillChar = r.optValPtr)
            ∧ (r.optNum = V → noRound V s1 → vars.verbose = true))
      ∧ ∀ vars out, parseArgs args = some (Parsed.done vars out) →
          ∃ n s, rounds n (LoopState.init args) = some s ∧ s.argv = ArgPtr.entry []
            ∧ s.argc = 1 ∧ s.vars = vars ∧ s.out = out := by
  refine ⟨?_, ?_, ?_, ?_⟩
  · obtain ⟨p, hp⟩ := parseArgs_total args
    refine ⟨p, hp, ?_⟩
    intro h
    rw [h] at hp
    exact parseArgs_defined args hp
  · intro n s hr
    obtain ⟨hw, mid, hmid⟩ := rounds_wellFormed (wellFormed_init args) hr
    obtain ⟨l, hl, hc⟩ := hw
    refine ⟨mid, l, ?_, hl, hc, ?_⟩
    · rw [hl] at hmid
      exact hmid
    · intro hgt
      obtain ⟨tok, rest, r, hl2, hg, -, hcons, hnext⟩ := wellFormed_round ⟨l, hl, hc⟩ hgt
      have hleq : l = tok :: rest := by
        rw [hl] at hl2
        injection hl2
      refine ⟨tok, rest, r, hleq, hg, hcons, ?_⟩
      intro s1 hb
      obtain ⟨r1, hgr, ha, hv, -⟩ := loopBody_next hb
      simp only at hgr
      rw [hg] at hgr
      injection hgr with hrr
      subst hrr
      exact ⟨hv, ha⟩
  · intro vars out n s s1 r hp hr hgt hb hg
    have hr1 := rounds_step hr hgt hb
    have hkeep := parseArgs_keep hp hr1
    have hset := @loopBody_next_set { s with argc := s.argc - 1 } s1 r hb hg
    refine ⟨fun ho hno => ?_, fun ho hno => ?_, fun ho hno => ?_, fun ho hno => ?_,
      fun ho hno => ?_, fun ho hno => ?_⟩
    · rw [hkeep.1 hno]; exact hset.1 ho
    · rw [hkeep.2.1 hno]; exact hset.2.1 ho
    · rw [hkeep.2.2.1 hno]; exact hset.2.2.1 ho
    · obtain ⟨v, h1, -, -, h2⟩ := hset.2.2.2.1 ho
      exact ⟨v, h1, by rw [hkeep.2.2.2.1 hno]; exact h2⟩
    · rw [hkeep.2.2.2.2.1 hno]; exact hset.2.2.2.2.1 ho
    · rw [hkeep.2.2.2.2.2 hno]; exact hset.2.2.2.2.2 ho
  · intro vars out hp
    have hne := args_ne_nil_of_done hp
    rw [parseArgs_eq_optionLoop hne] at hp
    obtain ⟨n, s, hr, hng, hv, ho⟩ := optionLoop_done_rounds _ _ vars out hp
    obtain ⟨⟨l, hl, hc⟩, -⟩ := rounds_wellFormed (wellFormed_init args) hr
    have hlen : l.length = 0 := by omega
    have hnil : l = [] := List.length_eq_zero.1 hlen
    subst hnil
    exact ⟨n, s, hr, hl, by simpa using hc, hv, ho⟩

end ImageMerge
